import Mathlib

/-!
# Verification of the single-instrument limit order book (`src/one.py`)

Shallow embedding of the Python order book implementation.  Modelling
conventions, chosen to match the source observably:

* Order ids (caller-supplied, arbitrary hashable values in Python) are
  modelled as `Nat`.
* Prices (`float` in Python, "positive real" per the data model) are
  modelled as `Rat`; all prices appearing in the specification's examples
  are exactly representable, and the code only compares and subtracts
  prices, so the embedding is exact on every computation considered here.
* Quantities (Python `int`, may be mutated to any integer since the code
  performs no validation) are modelled as `Int`.
* `time.time()` timestamps are modelled by a strictly increasing counter
  `next_ts` carried in the book state, following the data model's
  "monotonic timestamp assigned at creation".
* The two `heapq` heaps are modelled as lists kept sorted (ascending) in
  the lexicographic order on `(key, timestamp, id)` entries.  A binary
  heap and a sorted list are observationally identical through the
  operations the code uses (`heappush`, `heappop`, peek `heap[0]`, copy):
  each exposes exactly the minimum entry of the current multiset, and
  entries that compare equal are identical triples here.
* Python `dict`s (`orders`, and the two `defaultdict(list)` price-level
  maps) are modelled as insertion-ordered association lists.  A
  `defaultdict` *access* inserts an empty bucket when the key is missing;
  the embedding reproduces this faithfully (`ddGet`), because the
  matching and snapshot code paths really do create empty buckets.
* Orders are shared mutable objects in Python (referenced from `orders`
  and from the price-level lists).  Following the design note that the
  ledger and index hold non-owning references into the owning id-map, the
  buckets and heap entries store order *ids*; every mutation goes through
  the id-map.  In every reachable state each bucket id is present in the
  id-map, so the indirection is observably identical to Python's shared
  references.
-/

namespace OrderBookLob

/-- The side of an order: `'buy'` or `'sell'` in the Python source. -/
inductive Side where
  | buy
  | sell
deriving DecidableEq, Repr

/-- `Order` from `src/one.py`: identity plus mutable price/quantity state. -/
structure Order where
  order_id : Nat
  side : Side
  price : Rat
  quantity : Int
  timestamp : Nat
deriving DecidableEq, Repr

/-- A heap entry `(key, timestamp, order_id)`.  For the buy heap the key is
the negated price (Python pushes `(-price, ts, id)`), for the sell heap it
is the price itself. -/
abbrev HeapEntry : Type := Rat × Nat × Nat

/-- Lexicographic comparison of heap entries, mirroring Python's tuple
comparison `(key, timestamp, id) <= (key', timestamp', id')`. -/
def entryLe (a b : HeapEntry) : Prop :=
  a.1 < b.1 ∨ (a.1 = b.1 ∧ (a.2.1 < b.2.1 ∨ (a.2.1 = b.2.1 ∧ a.2.2 ≤ b.2.2)))

instance : DecidableRel entryLe := fun a b => by
  unfold entryLe; exact inferInstance

/-- `heapq.heappush`: the sorted-list model inserts in order. -/
def heapPush (h : List HeapEntry) (e : HeapEntry) : List HeapEntry :=
  List.orderedInsert entryLe e h

/-- Lookup in an insertion-ordered association list (Python `d[k]` /
`k in d`): returns the value of the first entry with the given key. -/
def alLookup {α β : Type} [DecidableEq α] : List (α × β) → α → Option β
  | [], _ => none
  | (k, v) :: rest, p => if k = p then some v else alLookup rest p

/-- Replace the value of the first entry with the given key (no-op when the
key is absent); models mutating `d[k]` when `k` is already present. -/
def alSet {α β : Type} [DecidableEq α] : List (α × β) → α → β → List (α × β)
  | [], _, _ => []
  | (k, v) :: rest, p, w => if k = p then (k, w) :: rest else (k, v) :: alSet rest p w

/-- Remove the first entry with the given key; models Python `del d[k]`. -/
def alErase {α β : Type} [DecidableEq α] : List (α × β) → α → List (α × β)
  | [], _ => []
  | (k, v) :: rest, p => if k = p then rest else (k, v) :: alErase rest p

/-- A `defaultdict(list)` read access `d[p]`: returns the bucket and the
possibly-extended dictionary (a missing key is created, bound to `[]`, at
the end of the insertion order). -/
def ddGet : List (Rat × List Nat) → Rat → List Nat × List (Rat × List Nat)
  | [], p => ([], [(p, [])])
  | (k, v) :: rest, p =>
    if k = p then (v, (k, v) :: rest)
    else
      let r := ddGet rest p
      (r.1, (k, v) :: r.2)

/-- `d[p].append(x)` on a `defaultdict(list)`: append to the bucket,
creating it when missing. -/
def ddAppend : List (Rat × List Nat) → Rat → Nat → List (Rat × List Nat)
  | [], p, x => [(p, [x])]
  | (k, v) :: rest, p, x =>
    if k = p then (k, v ++ [x]) :: rest
    else (k, v) :: ddAppend rest p x

/-- The cancellation/amendment bucket update: `d[p].remove(x)` followed by
`if not d[p]: del d[p]` — remove the first occurrence of `x` from the
bucket at `p` and delete the bucket if it became empty. -/
def bucketRemove : List (Rat × List Nat) → Rat → Nat → List (Rat × List Nat)
  | [], _, _ => []
  | (k, v) :: rest, p, x =>
    if k = p then
      if v.erase x = [] then rest else (k, v.erase x) :: rest
    else (k, v) :: bucketRemove rest p x

/-- The `OrderBook` state from `src/one.py`: the two discovery heaps, the
owning id-map, the two per-side price ledgers, and the timestamp counter
modelling the monotonic clock. -/
structure OrderBook where
  buy_orders : List HeapEntry
  sell_orders : List HeapEntry
  orders : List (Nat × Order)
  price_levels_buy : List (Rat × List Nat)
  price_levels_sell : List (Rat × List Nat)
  next_ts : Nat
deriving DecidableEq, Repr

/-- `OrderBook.__init__`: the empty book. -/
def emptyBook : OrderBook :=
  { buy_orders := [], sell_orders := [], orders := [],
    price_levels_buy := [], price_levels_sell := [], next_ts := 0 }

/-- `order_id in self.orders` / `self.orders[order_id]`. -/
def lookupOrder (s : OrderBook) (order_id : Nat) : Option Order :=
  alLookup s.orders order_id

/-- `OrderBook.add_order`: fail on a duplicate resting id, otherwise create
the order record, insert it into the id-map, push a discovery entry onto
the side's heap and append the order to the back of its price bucket. -/
def add_order (s : OrderBook) (order_id : Nat) (side : Side) (price : Rat)
    (quantity : Int) : Bool × OrderBook :=
  match lookupOrder s order_id with
  | some _ => (false, s)
  | none =>
    let o : Order :=
      { order_id := order_id, side := side, price := price,
        quantity := quantity, timestamp := s.next_ts }
    match side with
    | Side.buy =>
      (true,
        { s with
          orders := s.orders ++ [(order_id, o)],
          buy_orders := heapPush s.buy_orders (-price, o.timestamp, order_id),
          price_levels_buy := ddAppend s.price_levels_buy price order_id,
          next_ts := s.next_ts + 1 })
    | Side.sell =>
      (true,
        { s with
          orders := s.orders ++ [(order_id, o)],
          sell_orders := heapPush s.sell_orders (price, o.timestamp, order_id),
          price_levels_sell := ddAppend s.price_levels_sell price order_id,
          next_ts := s.next_ts + 1 })

/-- `OrderBook.cancel_order`: fail on an unknown id, otherwise remove the
order from its price bucket (deleting the bucket when emptied) and from
the id-map.  The heap entries are intentionally left stale. -/
def cancel_order (s : OrderBook) (order_id : Nat) : Bool × OrderBook :=
  match lookupOrder s order_id with
  | none => (false, s)
  | some o =>
    match o.side with
    | Side.buy =>
      (true,
        { s with
          price_levels_buy := bucketRemove s.price_levels_buy o.price order_id,
          orders := alErase s.orders order_id })
    | Side.sell =>
      (true,
        { s with
          price_levels_sell := bucketRemove s.price_levels_sell o.price order_id,
          orders := alErase s.orders order_id })

/-- `OrderBook.modify_order`: fail on an unknown id.  A price change moves
the order from its old bucket to the back of the new price's bucket,
updates its `price` field and pushes a fresh discovery entry (keeping the
original timestamp); a quantity change overwrites the `quantity` field in
place. -/
def modify_order (s : OrderBook) (order_id : Nat) (new_price : Option Rat)
    (new_quantity : Option Int) : Bool × OrderBook :=
  match lookupOrder s order_id with
  | none => (false, s)
  | some o =>
    let s2 :=
      match new_price with
      | none => s
      | some np =>
        match o.side with
        | Side.buy =>
          { s with
            price_levels_buy :=
              ddAppend (bucketRemove s.price_levels_buy o.price order_id) np order_id,
            orders := alSet s.orders order_id { o with price := np },
            buy_orders := heapPush s.buy_orders (-np, o.timestamp, order_id) }
        | Side.sell =>
          { s with
            price_levels_sell :=
              ddAppend (bucketRemove s.price_levels_sell o.price order_id) np order_id,
            orders := alSet s.orders order_id { o with price := np },
            sell_orders := heapPush s.sell_orders (np, o.timestamp, order_id) }
    let s3 :=
      match new_quantity with
      | none => s2
      | some nq =>
        match lookupOrder s2 order_id with
        | some o2 => { s2 with orders := alSet s2.orders order_id { o2 with quantity := nq } }
        | none => s2
    (true, s3)

/-- The lazy-discard discovery scan shared by `get_best_bid` and
`get_best_ask`: repeatedly inspect the top heap entry; return its key if
its id is still resting, otherwise pop it permanently and continue. -/
def scanBest (orders : List (Nat × Order)) : List HeapEntry → Option Rat × List HeapEntry
  | [] => (none, [])
  | (k, t, i) :: rest =>
    if (alLookup orders i).isSome then (some k, (k, t, i) :: rest)
    else scanBest orders rest

/-- `OrderBook.get_best_bid` (negates the stored key back to a price). -/
def get_best_bid (s : OrderBook) : Option Rat × OrderBook :=
  let r := scanBest s.orders s.buy_orders
  (r.1.map (fun k => -k), { s with buy_orders := r.2 })

/-- `OrderBook.get_best_ask`. -/
def get_best_ask (s : OrderBook) : Option Rat × OrderBook :=
  let r := scanBest s.orders s.sell_orders
  (r.1, { s with sell_orders := r.2 })

/-- `OrderBook.get_spread`. -/
def get_spread (s : OrderBook) : Option Rat × OrderBook :=
  let rb := get_best_bid s
  let ra := get_best_ask rb.2
  match rb.1, ra.1 with
  | some b, some a => (some (a - b), ra.2)
  | _, _ => (none, ra.2)

/-- The quantity of a (presumed resting) order, read through the id-map. -/
def qtyOf (orders : List (Nat × Order)) (i : Nat) : Int :=
  match alLookup orders i with
  | some o => o.quantity
  | none => 0

/-- `sum(order.quantity for order in bucket)`. -/
def bucketTotal (orders : List (Nat × Order)) (bucket : List Nat) : Int :=
  (bucket.map (qtyOf orders)).sum

/-- One snapshot accumulation loop (`while temp and len(acc) < depth`):
pop heap entries in order; a price not yet seen whose entry id is still
resting contributes an aggregated `(price, total quantity)` level.  The
bucket read is a `defaultdict` access and may create an empty bucket.
`neg` selects the bid loop (stored keys are negated prices). -/
def snapLoop (orders : List (Nat × Order)) (neg : Bool) (depth : Nat) :
    List HeapEntry → List Rat → List (Rat × Int) → List (Rat × List Nat) →
    List (Rat × Int) × List (Rat × List Nat)
  | [], _, acc, levels => (acc, levels)
  | (k, _, i) :: rest, seen, acc, levels =>
    if depth ≤ acc.length then (acc, levels)
    else
      let price := if neg then -k else k
      if price ∈ seen then snapLoop orders neg depth rest seen acc levels
      else if (alLookup orders i).isSome then
        let r := ddGet levels price
        snapLoop orders neg depth rest (price :: seen)
          (acc ++ [(price, bucketTotal orders r.1)]) r.2
      else snapLoop orders neg depth rest seen acc levels

/-- `OrderBook.get_order_book_snapshot`: aggregate up to `depth` levels per
side from copies of the heaps, validating ids against the id-map.  The
returned pair is `(bids, asks)`; the state is returned as well because the
`defaultdict` accesses can extend the price ledgers. -/
def get_order_book_snapshot (s : OrderBook) (depth : Nat) :
    (List (Rat × Int) × List (Rat × Int)) × OrderBook :=
  let rb := snapLoop s.orders true depth s.buy_orders [] [] s.price_levels_buy
  let ra := snapLoop s.orders false depth s.sell_orders [] [] s.price_levels_sell
  ((rb.1, ra.1), { s with price_levels_buy := rb.2, price_levels_sell := ra.2 })

/-- A trade record as produced by `match_orders`. -/
structure Trade where
  buy_order_id : Nat
  sell_order_id : Nat
  price : Rat
  quantity : Int
deriving DecidableEq, Repr

/-- One iteration of the `while True` loop of `OrderBook.match_orders`:
compute best bid and ask (mutating scans), stop if either is absent or
there is no cross; otherwise read the two front orders of the best-price
buckets (`defaultdict` accesses), trade `min` of their quantities at the
resting sell order's price, decrement both quantities and cancel any order
whose quantity reached exactly zero.  Returns `none` when the loop body
would `break`. -/
def matchIter (s : OrderBook) : Option Trade × OrderBook :=
  let rb := get_best_bid s
  let ra := get_best_ask rb.2
  match rb.1, ra.1 with
  | some bb, some ba =>
    if bb < ba then (none, ra.2)
    else
      let gb := ddGet ra.2.price_levels_buy bb
      let gs := ddGet ra.2.price_levels_sell ba
      let s3 := { ra.2 with price_levels_buy := gb.2, price_levels_sell := gs.2 }
      match gb.1, gs.1 with
      | b_id :: _, s_id :: _ =>
        match lookupOrder s3 b_id, lookupOrder s3 s_id with
        | some bo, some so =>
          let m := min bo.quantity so.quantity
          let tr : Trade :=
            { buy_order_id := b_id, sell_order_id := s_id,
              price := so.price, quantity := m }
          let s4 := { s3 with orders := alSet s3.orders b_id { bo with quantity := bo.quantity - m } }
          let s5 :=
            match lookupOrder s4 s_id with
            | some so4 => { s4 with orders := alSet s4.orders s_id { so4 with quantity := so4.quantity - m } }
            | none => s4
          let s6 :=
            match lookupOrder s5 b_id with
            | some bo5 => if bo5.quantity = 0 then (cancel_order s5 b_id).2 else s5
            | none => s5
          let s7 :=
            match lookupOrder s6 s_id with
            | some so6 => if so6.quantity = 0 then (cancel_order s6 s_id).2 else s6
            | none => s6
          (some tr, s7)
        | _, _ => (none, s3)
      | _, _ => (none, s3)
  | _, _ => (none, ra.2)

/-- The matching loop, structured with explicit fuel.  Each productive
iteration removes at least one order from the id-map (the side achieving
`min` is filled exactly), so `|orders| + 1` fuel always suffices on
well-formed states; this is proved below rather than assumed. -/
def matchLoop : Nat → OrderBook → List Trade → List Trade × OrderBook
  | 0, s, acc => (acc, s)
  | Nat.succ fuel, s, acc =>
    match matchIter s with
    | (none, s2) => (acc, s2)
    | (some tr, s2) => matchLoop fuel s2 (acc ++ [tr])

/-- `OrderBook.match_orders`: run the matching loop to completion and
return the ordered list of trades produced. -/
def match_orders (s : OrderBook) : List Trade × OrderBook :=
  matchLoop (s.orders.length + 1) s []

/-- The ids of all orders resting in the given side's ledger, in bucket
order. -/
def joinBuckets : List (Rat × List Nat) → List Nat
  | [] => []
  | (_, v) :: rest => v ++ joinBuckets rest

/-- The price ledger of a side. -/
def ledgerOf (s : OrderBook) (sd : Side) : List (Rat × List Nat) :=
  match sd with
  | Side.buy => s.price_levels_buy
  | Side.sell => s.price_levels_sell

/-- The discovery heap of a side. -/
def heapOf (s : OrderBook) (sd : Side) : List HeapEntry :=
  match sd with
  | Side.buy => s.buy_orders
  | Side.sell => s.sell_orders

/-- The bucket at a price of a side (empty when the key is absent). -/
def bucketAt (s : OrderBook) (sd : Side) (p : Rat) : List Nat :=
  (alLookup (ledgerOf s sd) p).getD []

/-- Whether some order of the given side is resting. -/
def hasResting (s : OrderBook) (sd : Side) : Prop :=
  ∃ kv ∈ s.orders, kv.2.side = sd

instance (s : OrderBook) (sd : Side) : Decidable (hasResting s sd) := by
  unfold hasResting; exact inferInstance

/-- The party of a trade on a given side. -/
def sideParty (tr : Trade) (sd : Side) : Nat :=
  match sd with
  | Side.buy => tr.buy_order_id
  | Side.sell => tr.sell_order_id

/-- The aggregated quantity the snapshot reports for a price: the sum of
the current quantities of the orders in the price's bucket (zero when the
price has no bucket). -/
def levelTotal (orders : List (Nat × Order)) (levels : List (Rat × List Nat)) (p : Rat) : Int :=
  bucketTotal orders ((alLookup levels p).getD [])

/-- The total resting quantity at a price on a side, read directly from
the id-map: the sum of the quantities of all resting orders of that side
whose `price` field is `p`. -/
def restingTotal (s : OrderBook) (sd : Side) (p : Rat) : Int :=
  ((s.orders.filter (fun kv => decide (kv.2.side = sd) && decide (kv.2.price = p))).map
    (fun kv => kv.2.quantity)).sum

/-- The state of the book after `match_orders` returns: either a side has
no resting orders, or best bid and best ask exist and there is no cross,
or the discovered best price's bucket on one side is empty (which happens
only when a stale-price discovery entry of a price-amended order is on
top of a heap). -/
def noCross (s : OrderBook) : Prop :=
  ¬ hasResting s Side.buy ∨ ¬ hasResting s Side.sell ∨
    (∃ bb ba, (get_best_bid s).1 = some bb ∧ (get_best_ask s).1 = some ba ∧
      (bb < ba ∨ bucketAt s Side.buy bb = [] ∨ bucketAt s Side.sell ba = []))

/-- States reachable from the empty book through the public operations
(the read operations mutate the book too: best-price discovery discards
stale heap entries, and match/snapshot perform `defaultdict` accesses). -/
inductive Reachable : OrderBook → Prop where
  | empty : Reachable emptyBook
  | add : ∀ s order_id sd p q, Reachable s → Reachable (add_order s order_id sd p q).2
  | cancel : ∀ s order_id, Reachable s → Reachable (cancel_order s order_id).2
  | modify : ∀ s order_id np nq, Reachable s → Reachable (modify_order s order_id np nq).2
  | bestBid : ∀ s, Reachable s → Reachable (get_best_bid s).2
  | bestAsk : ∀ s, Reachable s → Reachable (get_best_ask s).2
  | spread : ∀ s, Reachable s → Reachable (get_spread s).2
  | snapshot : ∀ s d, Reachable s → Reachable (get_order_book_snapshot s d).2
  | runMatch : ∀ s, Reachable s → Reachable (match_orders s).2

/-- The well-formedness invariant of a book state.  All components are
facts the Python implementation relies on implicitly. -/
structure Inv (s : OrderBook) : Prop where
  orders_nodup : (s.orders.map Prod.fst).Nodup
  orders_key : ∀ kv ∈ s.orders, kv.2.order_id = kv.1
  keys_nodup_buy : (s.price_levels_buy.map Prod.fst).Nodup
  keys_nodup_sell : (s.price_levels_sell.map Prod.fst).Nodup
  bucket_orders_buy : ∀ pl ∈ s.price_levels_buy, ∀ i ∈ pl.2,
    ∃ o, lookupOrder s i = some o ∧ o.side = Side.buy ∧ o.price = pl.1
  bucket_orders_sell : ∀ pl ∈ s.price_levels_sell, ∀ i ∈ pl.2,
    ∃ o, lookupOrder s i = some o ∧ o.side = Side.sell ∧ o.price = pl.1
  ids_nodup_buy : (joinBuckets s.price_levels_buy).Nodup
  ids_nodup_sell : (joinBuckets s.price_levels_sell).Nodup
  resting_in_bucket : ∀ kv ∈ s.orders, kv.1 ∈ joinBuckets (ledgerOf s kv.2.side)
  heap_sorted_buy : s.buy_orders.Sorted entryLe
  heap_sorted_sell : s.sell_orders.Sorted entryLe
  resting_in_heap : ∀ kv ∈ s.orders, ∃ e ∈ heapOf s kv.2.side, e.2.2 = kv.1

/-! ## Concrete traces used by the worked-example and counterexample
theorems -/

/-- The spec's worked example: buy1(buy,100,10), buy2(buy,99.5,5),
sell1(sell,102,12), with ids 1, 2, 3. -/
def exBook1 : OrderBook :=
  (add_order (add_order (add_order emptyBook 1 Side.buy 100 10).2
    2 Side.buy (mkRat 199 2) 5).2 3 Side.sell 102 12).2

/-- The worked example continued: buy3(buy,103,6) with id 4. -/
def exBook2 : OrderBook :=
  (add_order exBook1 4 Side.buy 103 6).2

/-- A single resting buy order (id 1) at price 100, quantity 10. -/
def amendBook0 : OrderBook :=
  (add_order emptyBook 1 Side.buy 100 10).2

/-- Order 1 amended from price 100 to price 90: its old discovery entry
for price 100 is left stale on top of the buy heap. -/
def amendBook1 : OrderBook :=
  (modify_order amendBook0 1 (some 90) none).2

/-- A crossing sell order (id 2, price 95) added behind the stale bid
entry of the amended order. -/
def amendBook2 : OrderBook :=
  (add_order amendBook1 2 Side.sell 95 5).2

/-- Order 1 amended to quantity zero. -/
def zeroBook : OrderBook :=
  (modify_order amendBook0 1 none (some 0)).2

/-- Two buy orders at the same price 100: id 1 added first, id 2 second. -/
def fifoBook : OrderBook :=
  (add_order (add_order emptyBook 1 Side.buy 100 5).2 2 Side.buy 100 7).2

/-! ## Basic lemmas: entry order and the heap model -/

theorem entryLe_total (a b : HeapEntry) : entryLe a b ∨ entryLe b a := by
  unfold entryLe
  rcases lt_trichotomy a.1 b.1 with h | h | h
  · exact Or.inl (Or.inl h)
  · rcases lt_trichotomy a.2.1 b.2.1 with h2 | h2 | h2
    · exact Or.inl (Or.inr ⟨h, Or.inl h2⟩)
    · rcases Nat.le_total a.2.2 b.2.2 with h3 | h3
      · exact Or.inl (Or.inr ⟨h, Or.inr ⟨h2, h3⟩⟩)
      · exact Or.inr (Or.inr ⟨h.symm, Or.inr ⟨h2.symm, h3⟩⟩)
    · exact Or.inr (Or.inr ⟨h.symm, Or.inl h2⟩)
  · exact Or.inr (Or.inl h)

theorem entryLe_trans {a b c : HeapEntry} (h1 : entryLe a b) (h2 : entryLe b c) :
    entryLe a c := by
  unfold entryLe at h1 h2 ⊢
  rcases h1 with h1 | ⟨e1, h1⟩
  · rcases h2 with h2 | ⟨e2, _⟩
    · exact Or.inl (h1.trans h2)
    · exact Or.inl (e2 ▸ h1)
  · rcases h2 with h2 | ⟨e2, h2⟩
    · exact Or.inl (e1 ▸ h2)
    · refine Or.inr ⟨e1.trans e2, ?_⟩
      rcases h1 with h1 | ⟨f1, h1⟩
      · rcases h2 with h2 | ⟨f2, _⟩
        · exact Or.inl (h1.trans h2)
        · exact Or.inl (f2 ▸ h1)
      · rcases h2 with h2 | ⟨f2, h2⟩
        · exact Or.inl (f1 ▸ h2)
        · exact Or.inr ⟨f1.trans f2, h1.trans h2⟩

instance : IsTotal HeapEntry entryLe := ⟨entryLe_total⟩

instance : IsTrans HeapEntry entryLe := ⟨fun _ _ _ => entryLe_trans⟩

theorem heapPush_sorted {h : List HeapEntry} {e : HeapEntry}
    (hs : h.Sorted entryLe) : (heapPush h e).Sorted entryLe :=
  List.Sorted.orderedInsert e h hs

theorem mem_heapPush {h : List HeapEntry} {e a : HeapEntry} :
    a ∈ heapPush h e ↔ a = e ∨ a ∈ h := by
  unfold heapPush; exact List.mem_orderedInsert entryLe

/-! ## Basic lemmas: association lists -/

theorem alLookup_eq_none {α β : Type} [DecidableEq α] {l : List (α × β)} {k : α} :
    alLookup l k = none ↔ k ∉ l.map Prod.fst := by
  induction l with
  | nil => simp [alLookup]
  | cons kv rest ih =>
    obtain ⟨k0, v0⟩ := kv
    by_cases h : k0 = k
    · subst h; simp [alLookup]
    · simp [alLookup, h, ih, Ne.symm h]

theorem alLookup_mem {α β : Type} [DecidableEq α] {l : List (α × β)} {k : α} {v : β}
    (h : alLookup l k = some v) : (k, v) ∈ l := by
  induction l with
  | nil => simp [alLookup] at h
  | cons kv rest ih =>
    obtain ⟨k0, v0⟩ := kv
    by_cases hk : k0 = k
    · subst hk; simp [alLookup] at h; simp [h]
    · simp [alLookup, hk] at h
      exact List.mem_cons_of_mem _ (ih h)

theorem alLookup_isSome {α β : Type} [DecidableEq α] {l : List (α × β)} {k : α} :
    (alLookup l k).isSome ↔ k ∈ l.map Prod.fst := by
  cases h : alLookup l k with
  | none => simp [alLookup_eq_none.mp h]
  | some v =>
    simp only [Option.isSome_some, true_iff]
    exact List.mem_map_of_mem Prod.fst (alLookup_mem h)

theorem mem_alLookup {α β : Type} [DecidableEq α] {l : List (α × β)} {k : α} {v : β}
    (hnd : (l.map Prod.fst).Nodup) (h : (k, v) ∈ l) : alLookup l k = some v := by
  induction l with
  | nil => simp at h
  | cons kv rest ih =>
    obtain ⟨k0, v0⟩ := kv
    simp only [List.map_cons, List.nodup_cons] at hnd
    rcases List.mem_cons.mp h with h | h
    · obtain ⟨rfl, rfl⟩ := Prod.mk.injEq .. ▸ h
      simp [alLookup]
    · have hk : k0 ≠ k := by
        rintro rfl
        exact hnd.1 (List.mem_map_of_mem Prod.fst h)
      simp [alLookup, hk, ih hnd.2 h]

theorem alLookup_append_some {α β : Type} [DecidableEq α] {l m : List (α × β)} {k : α} {v : β}
    (h : alLookup l k = some v) : alLookup (l ++ m) k = some v := by
  induction l with
  | nil => simp [alLookup] at h
  | cons kv rest ih =>
    obtain ⟨k0, v0⟩ := kv
    by_cases hk : k0 = k <;> simp_all [alLookup]

theorem alLookup_append_none {α β : Type} [DecidableEq α] {l m : List (α × β)} {k : α}
    (h : alLookup l k = none) : alLookup (l ++ m) k = alLookup m k := by
  induction l with
  | nil => simp
  | cons kv rest ih =>
    obtain ⟨k0, v0⟩ := kv
    by_cases hk : k0 = k <;> simp_all [alLookup]

theorem alSet_map_fst {α β : Type} [DecidableEq α] {l : List (α × β)} {k : α} {w : β} :
    (alSet l k w).map Prod.fst = l.map Prod.fst := by
  induction l with
  | nil => rfl
  | cons kv rest ih =>
    obtain ⟨k0, v0⟩ := kv
    by_cases hk : k0 = k <;> simp [alSet, hk, ih]

theorem alSet_length {α β : Type} [DecidableEq α] {l : List (α × β)} {k : α} {w : β} :
    (alSet l k w).length = l.length := by
  have h : (alSet l k w).map Prod.fst = l.map Prod.fst := alSet_map_fst
  have := congrArg List.length h
  simpa using this

theorem alLookup_alSet_self {α β : Type} [DecidableEq α] {l : List (α × β)} {k : α} {w : β}
    (h : (alLookup l k).isSome) : alLookup (alSet l k w) k = some w := by
  induction l with
  | nil => simp [alLookup] at h
  | cons kv rest ih =>
    obtain ⟨k0, v0⟩ := kv
    by_cases hk : k0 = k
    · simp [alSet, alLookup, hk]
    · simp only [alLookup, if_neg hk] at h
      simp [alSet, alLookup, hk, ih h]

theorem alLookup_alSet_ne {α β : Type} [DecidableEq α] {l : List (α × β)} {k i : α} {w : β}
    (h : i ≠ k) : alLookup (alSet l k w) i = alLookup l i := by
  induction l with
  | nil => rfl
  | cons kv rest ih =>
    obtain ⟨k0, v0⟩ := kv
    by_cases hk : k0 = k
    · subst hk
      simp [alSet, alLookup, Ne.symm h]
    · by_cases hi : k0 = i
      · subst hi; simp [alSet, alLookup, hk]
      · simp [alSet, alLookup, hk, hi, ih]

theorem mem_alSet {α β : Type} [DecidableEq α] {l : List (α × β)} {k : α} {w : β} {kv : α × β}
    (h : kv ∈ alSet l k w) : kv ∈ l ∨ kv = (k, w) := by
  induction l with
  | nil => simp [alSet] at h
  | cons kv0 rest ih =>
    obtain ⟨k0, v0⟩ := kv0
    by_cases hk : k0 = k
    · subst hk
      simp only [alSet, if_pos rfl] at h
      rcases List.mem_cons.mp h with h | h
      · exact Or.inr h
      · exact Or.inl (List.mem_cons_of_mem _ h)
    · simp only [alSet, if_neg hk] at h
      rcases List.mem_cons.mp h with h | h
      · exact Or.inl (h ▸ List.mem_cons_self _ _)
      · rcases ih h with h | h
        · exact Or.inl (List.mem_cons_of_mem _ h)
        · exact Or.inr h

theorem alErase_map_fst {α β : Type} [DecidableEq α] {l : List (α × β)} {k : α} :
    (alErase l k).map Prod.fst = (l.map Prod.fst).erase k := by
  induction l with
  | nil => rfl
  | cons kv rest ih =>
    obtain ⟨k0, v0⟩ := kv
    by_cases hk : k0 = k
    · subst hk
      simp [alErase, List.erase_cons_head]
    · simp [alErase, hk, ih, List.erase_cons_tail, beq_eq_false_iff_ne.mpr hk]

theorem alErase_sublist {α β : Type} [DecidableEq α] {l : List (α × β)} {k : α} :
    List.Sublist (alErase l k) l := by
  induction l with
  | nil => simp [alErase]
  | cons kv rest ih =>
    obtain ⟨k0, v0⟩ := kv
    by_cases hk : k0 = k
    · simp only [alErase, if_pos hk]
      exact List.sublist_cons_self _ _
    · simp only [alErase, if_neg hk]
      exact List.Sublist.cons₂ _ ih

theorem alLookup_alErase_ne {α β : Type} [DecidableEq α] {l : List (α × β)} {k i : α}
    (h : i ≠ k) : alLookup (alErase l k) i = alLookup l i := by
  induction l with
  | nil => rfl
  | cons kv rest ih =>
    obtain ⟨k0, v0⟩ := kv
    by_cases hk : k0 = k
    · subst hk
      simp [alErase, alLookup, Ne.symm h]
    · by_cases hi : k0 = i
      · subst hi; simp [alErase, alLookup, hk]
      · simp [alErase, alLookup, hk, hi, ih]

theorem alLookup_alErase_self {α β : Type} [DecidableEq α] {l : List (α × β)} {k : α}
    (hnd : (l.map Prod.fst).Nodup) : alLookup (alErase l k) k = none := by
  rw [alLookup_eq_none, alErase_map_fst]
  intro hmem
  exact ((List.Nodup.mem_erase_iff hnd).mp hmem).1 rfl

theorem alErase_length {α β : Type} [DecidableEq α] {l : List (α × β)} {k : α}
    (h : (alLookup l k).isSome) : (alErase l k).length + 1 = l.length := by
  induction l with
  | nil => simp [alLookup] at h
  | cons kv rest ih =>
    obtain ⟨k0, v0⟩ := kv
    by_cases hk : k0 = k
    · simp [alErase, hk]
    · simp only [alLookup, if_neg hk] at h
      simp [alErase, hk, ← ih h]

/-! ## Basic lemmas: price-ledger operations -/

theorem joinBuckets_append {L M : List (Rat × List Nat)} :
    joinBuckets (L ++ M) = joinBuckets L ++ joinBuckets M := by
  induction L with
  | nil => rfl
  | cons pl rest ih =>
    obtain ⟨p0, v0⟩ := pl
    simp [joinBuckets, ih]

theorem mem_joinBuckets {L : List (Rat × List Nat)} {i : Nat} :
    i ∈ joinBuckets L ↔ ∃ pl ∈ L, i ∈ pl.2 := by
  induction L with
  | nil => simp [joinBuckets]
  | cons pl rest ih =>
    obtain ⟨p0, v0⟩ := pl
    simp [joinBuckets, ih, List.mem_append]

theorem ddGet_some {L : List (Rat × List Nat)} {p : Rat} {v : List Nat}
    (h : alLookup L p = some v) : ddGet L p = (v, L) := by
  induction L with
  | nil => simp [alLookup] at h
  | cons pl rest ih =>
    obtain ⟨p0, v0⟩ := pl
    by_cases hp : p0 = p
    · subst hp
      simp [alLookup] at h
      simp [ddGet, h]
    · simp only [alLookup, if_neg hp] at h
      simp [ddGet, hp, ih h]

theorem ddGet_none {L : List (Rat × List Nat)} {p : Rat}
    (h : alLookup L p = none) : ddGet L p = ([], L ++ [(p, [])]) := by
  induction L with
  | nil => simp [ddGet]
  | cons pl rest ih =>
    obtain ⟨p0, v0⟩ := pl
    by_cases hp : p0 = p
    · subst hp; simp [alLookup] at h
    · simp only [alLookup, if_neg hp] at h
      simp [ddGet, hp, ih h]

theorem ddGet_fst {L : List (Rat × List Nat)} {p : Rat} :
    (ddGet L p).1 = (alLookup L p).getD [] := by
  cases h : alLookup L p with
  | none => simp [ddGet_none h]
  | some v => simp [ddGet_some h]

theorem alLookup_ddGet_self {L : List (Rat × List Nat)} {p : Rat} :
    alLookup (ddGet L p).2 p = some ((alLookup L p).getD []) := by
  cases h : alLookup L p with
  | none =>
    rw [ddGet_none h]
    simp [alLookup_append_none h, alLookup]
  | some v => simp [ddGet_some h, h]

theorem getD_alLookup_ddGet {L : List (Rat × List Nat)} {p q : Rat} :
    (alLookup (ddGet L p).2 q).getD [] = (alLookup L q).getD [] := by
  cases h : alLookup L p with
  | some v => simp [ddGet_some h]
  | none =>
    rw [ddGet_none h]
    cases hq : alLookup L q with
    | some w => simp [alLookup_append_some hq]
    | none =>
      rw [alLookup_append_none hq]
      simp only [alLookup]
      split_ifs <;> simp

theorem joinBuckets_ddGet {L : List (Rat × List Nat)} {p : Rat} :
    joinBuckets (ddGet L p).2 = joinBuckets L := by
  cases h : alLookup L p with
  | some v => simp [ddGet_some h]
  | none => simp [ddGet_none h, joinBuckets_append, joinBuckets]

theorem mem_ddGet_snd {L : List (Rat × List Nat)} {p : Rat} {pl : Rat × List Nat}
    (h : pl ∈ (ddGet L p).2) : pl ∈ L ∨ pl = (p, []) := by
  cases hL : alLookup L p with
  | some v =>
    rw [ddGet_some hL] at h
    exact Or.inl h
  | none =>
    rw [ddGet_none hL] at h
    rcases List.mem_append.mp h with h | h
    · exact Or.inl h
    · simp at h
      exact Or.inr h

theorem ddGet_map_fst_some {L : List (Rat × List Nat)} {p : Rat}
    (h : (alLookup L p).isSome) : (ddGet L p).2 = L := by
  obtain ⟨v, hv⟩ := Option.isSome_iff_exists.mp h
  simp [ddGet_some hv]

theorem ddGet_keys_nodup {L : List (Rat × List Nat)} {p : Rat}
    (hnd : (L.map Prod.fst).Nodup) : ((ddGet L p).2.map Prod.fst).Nodup := by
  cases h : alLookup L p with
  | some v => simp [ddGet_some h, hnd]
  | none =>
    rw [ddGet_none h]
    simp only [List.map_append, List.map_cons, List.map_nil]
    rw [List.nodup_append]
    refine ⟨hnd, List.nodup_singleton p, ?_⟩
    intro a ha hb
    simp at hb
    subst hb
    exact (alLookup_eq_none.mp h) ha

theorem ddAppend_none {L : List (Rat × List Nat)} {p : Rat} {x : Nat}
    (h : alLookup L p = none) : ddAppend L p x = L ++ [(p, [x])] := by
  induction L with
  | nil => simp [ddAppend]
  | cons pl rest ih =>
    obtain ⟨p0, v0⟩ := pl
    by_cases hp : p0 = p
    · subst hp; simp [alLookup] at h
    · simp only [alLookup, if_neg hp] at h
      simp [ddAppend, hp, ih h]

theorem ddAppend_map_fst_some {L : List (Rat × List Nat)} {p : Rat} {x : Nat}
    (h : (alLookup L p).isSome) : (ddAppend L p x).map Prod.fst = L.map Prod.fst := by
  induction L with
  | nil => simp [alLookup] at h
  | cons pl rest ih =>
    obtain ⟨p0, v0⟩ := pl
    by_cases hp : p0 = p
    · simp [ddAppend, hp]
    · simp only [alLookup, if_neg hp] at h
      simp [ddAppend, hp, ih h]

theorem ddAppend_keys_nodup {L : List (Rat × List Nat)} {p : Rat} {x : Nat}
    (hnd : (L.map Prod.fst).Nodup) : ((ddAppend L p x).map Prod.fst).Nodup := by
  cases h : alLookup L p with
  | some v =>
    rw [ddAppend_map_fst_some (by simp [h])]
    exact hnd
  | none =>
    rw [ddAppend_none h]
    simp only [List.map_append, List.map_cons, List.map_nil]
    rw [List.nodup_append]
    refine ⟨hnd, List.nodup_singleton p, ?_⟩
    intro a ha hb
    simp at hb
    subst hb
    exact (alLookup_eq_none.mp h) ha

theorem joinBuckets_ddAppend_perm {L : List (Rat × List Nat)} {p : Rat} {x : Nat} :
    List.Perm (joinBuckets (ddAppend L p x)) (joinBuckets L ++ [x]) := by
  induction L with
  | nil => simp [ddAppend, joinBuckets]
  | cons pl rest ih =>
    obtain ⟨p0, v0⟩ := pl
    by_cases hp : p0 = p
    · simp only [ddAppend, if_pos hp, joinBuckets]
      rw [List.append_assoc, List.append_assoc]
      exact (@List.perm_append_comm _ [x] (joinBuckets rest)).append_left v0
    · simp only [ddAppend, if_neg hp, joinBuckets]
      rw [List.append_assoc]
      exact ih.append_left v0

theorem mem_joinBuckets_ddAppend {L : List (Rat × List Nat)} {p : Rat} {x i : Nat} :
    i ∈ joinBuckets (ddAppend L p x) ↔ i ∈ joinBuckets L ∨ i = x := by
  rw [joinBuckets_ddAppend_perm.mem_iff]
  simp

theorem mem_ddAppend {L : List (Rat × List Nat)} {p : Rat} {x : Nat} {pl : Rat × List Nat}
    (h : pl ∈ ddAppend L p x) :
    pl ∈ L ∨ ∃ w, pl = (p, w ++ [x]) ∧ (w = [] ∨ (p, w) ∈ L) := by
  induction L with
  | nil =>
    simp [ddAppend] at h
    exact Or.inr ⟨[], by simp [h]⟩
  | cons pl0 rest ih =>
    obtain ⟨p0, v0⟩ := pl0
    by_cases hp : p0 = p
    · subst hp
      simp only [ddAppend, if_pos rfl] at h
      rcases List.mem_cons.mp h with h | h
      · exact Or.inr ⟨v0, h ▸ rfl, Or.inr (List.mem_cons_self _ _)⟩
      · exact Or.inl (List.mem_cons_of_mem _ h)
    · simp only [ddAppend, if_neg hp] at h
      rcases List.mem_cons.mp h with h | h
      · exact Or.inl (h ▸ List.mem_cons_self _ _)
      · rcases ih h with h | ⟨w, hw, hmem⟩
        · exact Or.inl (List.mem_cons_of_mem _ h)
        · refine Or.inr ⟨w, hw, ?_⟩
          rcases hmem with h | h
          · exact Or.inl h
          · exact Or.inr (List.mem_cons_of_mem _ h)

theorem alLookup_ddAppend_self {L : List (Rat × List Nat)} {p : Rat} {x : Nat} :
    alLookup (ddAppend L p x) p = some ((alLookup L p).getD [] ++ [x]) := by
  induction L with
  | nil => simp [ddAppend, alLookup]
  | cons pl rest ih =>
    obtain ⟨p0, v0⟩ := pl
    by_cases hp : p0 = p
    · subst hp; simp [ddAppend, alLookup]
    · simp [ddAppend, alLookup, hp, ih]

theorem alLookup_ddAppend_ne {L : List (Rat × List Nat)} {p q : Rat} {x : Nat}
    (h : q ≠ p) : alLookup (ddAppend L p x) q = alLookup L q := by
  induction L with
  | nil => simp [ddAppend, alLookup, Ne.symm h]
  | cons pl rest ih =>
    obtain ⟨p0, v0⟩ := pl
    by_cases hp : p0 = p
    · subst hp; simp [ddAppend, alLookup, Ne.symm h]
    · by_cases hq : p0 = q
      · subst hq; simp [ddAppend, alLookup, hp]
      · simp [ddAppend, alLookup, hp, hq, ih]

theorem bucketRemove_none {L : List (Rat × List Nat)} {p : Rat} {x : Nat}
    (h : alLookup L p = none) : bucketRemove L p x = L := by
  induction L with
  | nil => rfl
  | cons pl rest ih =>
    obtain ⟨p0, v0⟩ := pl
    by_cases hp : p0 = p
    · subst hp; simp [alLookup] at h
    · simp only [alLookup, if_neg hp] at h
      simp [bucketRemove, hp, ih h]

theorem bucketRemove_map_fst_sublist {L : List (Rat × List Nat)} {p : Rat} {x : Nat} :
    List.Sublist ((bucketRemove L p x).map Prod.fst) (L.map Prod.fst) := by
  induction L with
  | nil => simp [bucketRemove]
  | cons pl rest ih =>
    obtain ⟨p0, v0⟩ := pl
    by_cases hp : p0 = p
    · by_cases he : v0.erase x = []
      · simp only [bucketRemove, if_pos hp, if_pos he, List.map_cons]
        exact List.sublist_cons_self _ _
      · simp only [bucketRemove, if_pos hp, if_neg he, List.map_cons]
        exact List.Sublist.cons₂ _ (List.Sublist.refl _)
    · simp only [bucketRemove, if_neg hp, List.map_cons]
      exact List.Sublist.cons₂ _ ih

theorem joinBuckets_bucketRemove_sublist {L : List (Rat × List Nat)} {p : Rat} {x : Nat} :
    List.Sublist (joinBuckets (bucketRemove L p x)) (joinBuckets L) := by
  induction L with
  | nil => simp [bucketRemove]
  | cons pl rest ih =>
    obtain ⟨p0, v0⟩ := pl
    by_cases hp : p0 = p
    · by_cases he : v0.erase x = []
      · simp only [bucketRemove, if_pos hp, if_pos he, joinBuckets]
        exact (List.sublist_append_right v0 (joinBuckets rest)).trans (List.Sublist.refl _)
      · simp only [bucketRemove, if_pos hp, if_neg he, joinBuckets]
        exact (List.erase_sublist x v0).append (List.Sublist.refl _)
    · simp only [bucketRemove, if_neg hp, joinBuckets]
      exact (List.Sublist.refl v0).append ih

theorem mem_bucketRemove {L : List (Rat × List Nat)} {p : Rat} {x : Nat} {pl : Rat × List Nat}
    (h : pl ∈ bucketRemove L p x) :
    pl ∈ L ∨ ∃ v0, (p, v0) ∈ L ∧ pl = (p, v0.erase x) := by
  induction L with
  | nil => simp [bucketRemove] at h
  | cons pl0 rest ih =>
    obtain ⟨p0, v0⟩ := pl0
    by_cases hp : p0 = p
    · subst hp
      by_cases he : v0.erase x = []
      · simp only [bucketRemove, if_pos rfl, if_pos he] at h
        exact Or.inl (List.mem_cons_of_mem _ h)
      · simp only [bucketRemove, if_pos rfl, if_neg he] at h
        rcases List.mem_cons.mp h with h | h
        · exact Or.inr ⟨v0, List.mem_cons_self _ _, h⟩
        · exact Or.inl (List.mem_cons_of_mem _ h)
    · simp only [bucketRemove, if_neg hp] at h
      rcases List.mem_cons.mp h with h | h
      · exact Or.inl (h ▸ List.mem_cons_self _ _)
      · rcases ih h with h | ⟨w, hw, hpl⟩
        · exact Or.inl (List.mem_cons_of_mem _ h)
        · exact Or.inr ⟨w, List.mem_cons_of_mem _ hw, hpl⟩

theorem mem_joinBuckets_bucketRemove {L : List (Rat × List Nat)} {p : Rat} {x i : Nat}
    (h : i ≠ x) : i ∈ joinBuckets (bucketRemove L p x) ↔ i ∈ joinBuckets L := by
  constructor
  · exact fun hm => joinBuckets_bucketRemove_sublist.mem hm
  · intro hm
    induction L with
    | nil => simp [joinBuckets] at hm
    | cons pl0 rest ih =>
      obtain ⟨p0, v0⟩ := pl0
      simp only [joinBuckets, List.mem_append] at hm
      by_cases hp : p0 = p
      · by_cases he : v0.erase x = []
        · simp only [bucketRemove, if_pos hp, if_pos he]
          rcases hm with hm | hm
          · exact absurd ((List.mem_erase_of_ne h).mpr hm) (by simp [he])
          · exact hm
        · simp only [bucketRemove, if_pos hp, if_neg he, joinBuckets, List.mem_append]
          rcases hm with hm | hm
          · exact Or.inl ((List.mem_erase_of_ne h).mpr hm)
          · exact Or.inr hm
      · simp only [bucketRemove, if_neg hp, joinBuckets, List.mem_append]
        rcases hm with hm | hm
        · exact Or.inl hm
        · exact Or.inr (ih hm)

theorem bucketRemove_not_mem_join {L : List (Rat × List Nat)} {p : Rat} {x : Nat} {v : List Nat}
    (hnd : (joinBuckets L).Nodup) (hv : alLookup L p = some v) (hx : x ∈ v) :
    x ∉ joinBuckets (bucketRemove L p x) := by
  induction L with
  | nil => simp [alLookup] at hv
  | cons pl0 rest ih =>
    obtain ⟨p0, v0⟩ := pl0
    simp only [joinBuckets, List.nodup_append] at hnd
    by_cases hp : p0 = p
    · subst hp
      simp [alLookup] at hv
      subst hv
      by_cases he : v0.erase x = []
      · simp only [bucketRemove, if_pos rfl, if_pos he]
        intro hmem
        exact hnd.2.2 hx hmem
      · simp only [bucketRemove, if_pos rfl, if_neg he, joinBuckets, List.mem_append]
        rintro (hmem | hmem)
        · exact ((List.Nodup.mem_erase_iff hnd.1).mp hmem).1 rfl
        · exact hnd.2.2 hx hmem
    · simp only [alLookup, if_neg hp] at hv
      simp only [bucketRemove, if_neg hp, joinBuckets, List.mem_append]
      rintro (hmem | hmem)
      · have hxr : x ∈ joinBuckets rest := mem_joinBuckets.mpr ⟨(p, v), alLookup_mem hv, hx⟩
        exact hnd.2.2 hmem hxr
      · exact ih hnd.2.1 hv hmem

theorem alLookup_bucketRemove_ne {L : List (Rat × List Nat)} {p q : Rat} {x : Nat}
    (h : q ≠ p) : alLookup (bucketRemove L p x) q = alLookup L q := by
  induction L with
  | nil => rfl
  | cons pl0 rest ih =>
    obtain ⟨p0, v0⟩ := pl0
    by_cases hp : p0 = p
    · subst hp
      by_cases he : v0.erase x = []
      · simp [bucketRemove, he, alLookup, Ne.symm h]
      · simp [bucketRemove, he, alLookup, Ne.symm h]
    · by_cases hq : p0 = q
      · subst hq; simp [bucketRemove, hp, alLookup]
      · simp [bucketRemove, hp, alLookup, hq, ih]

theorem getD_alLookup_bucketRemove_self {L : List (Rat × List Nat)} {p : Rat} {x : Nat}
    (hnd : (L.map Prod.fst).Nodup) :
    (alLookup (bucketRemove L p x) p).getD [] = ((alLookup L p).getD []).erase x := by
  induction L with
  | nil => simp [bucketRemove, alLookup]
  | cons pl0 rest ih =>
    obtain ⟨p0, v0⟩ := pl0
    simp only [List.map_cons, List.nodup_cons] at hnd
    by_cases hp : p0 = p
    · subst hp
      by_cases he : v0.erase x = []
      · simp only [bucketRemove, if_pos rfl, if_pos he, alLookup, if_pos rfl]
        have : alLookup rest p0 = none := by
          rw [alLookup_eq_none]
          exact hnd.1
        simp [this, he]
      · simp [bucketRemove, he, alLookup]
    · simp only [bucketRemove, if_neg hp, alLookup, if_neg hp]
      exact ih hnd.2

/-! ## Basic lemmas: the best-price discovery scan -/

theorem scanBest_suffix {orders : List (Nat × Order)} {h : List HeapEntry} :
    (scanBest orders h).2.IsSuffix h := by
  induction h with
  | nil => simp [scanBest]
  | cons e rest ih =>
    obtain ⟨k, t, i⟩ := e
    by_cases hl : (alLookup orders i).isSome
    · simp only [scanBest, if_pos hl]
      exact List.suffix_refl _
    · simp only [scanBest, if_neg hl]
      exact ih.trans (List.suffix_cons _ _)

theorem scanBest_none_iff {orders : List (Nat × Order)} {h : List HeapEntry} :
    (scanBest orders h).1 = none ↔ ∀ e ∈ h, alLookup orders e.2.2 = none := by
  induction h with
  | nil => simp [scanBest]
  | cons e rest ih =>
    obtain ⟨k, t, i⟩ := e
    by_cases hl : (alLookup orders i).isSome
    · simp only [scanBest, if_pos hl]
      constructor
      · intro hc; exact absurd hc (by simp)
      · intro hall
        have := hall (k, t, i) (List.mem_cons_self _ _)
        simp at this
        rw [this] at hl
        simp at hl
    · simp only [scanBest, if_neg hl]
      rw [ih]
      constructor
      · intro hall e2 hmem
        rcases List.mem_cons.mp hmem with hmem | hmem
        · subst hmem
          simpa using Option.not_isSome_iff_eq_none.mp hl
        · exact hall e2 hmem
      · intro hall e2 hmem
        exact hall e2 (List.mem_cons_of_mem _ hmem)

theorem scanBest_none_nil {orders : List (Nat × Order)} {h : List HeapEntry}
    (hn : (scanBest orders h).1 = none) : (scanBest orders h).2 = [] := by
  induction h with
  | nil => simp [scanBest]
  | cons e rest ih =>
    obtain ⟨k, t, i⟩ := e
    by_cases hl : (alLookup orders i).isSome
    · simp [scanBest, hl] at hn
    · simp only [scanBest, if_neg hl] at hn ⊢
      exact ih hn

theorem scanBest_some {orders : List (Nat × Order)} {h : List HeapEntry} {k : Rat}
    (hs : (scanBest orders h).1 = some k) :
    ∃ t i rest, (scanBest orders h).2 = (k, t, i) :: rest ∧ (alLookup orders i).isSome := by
  induction h with
  | nil => simp [scanBest] at hs
  | cons e rest ih =>
    obtain ⟨k0, t0, i0⟩ := e
    by_cases hl : (alLookup orders i0).isSome
    · simp only [scanBest, if_pos hl, Option.some.injEq] at hs
      subst hs
      exact ⟨t0, i0, rest, by simp [scanBest, hl], hl⟩
    · simp only [scanBest, if_neg hl] at hs ⊢
      exact ih hs

theorem mem_scanBest_of_live {orders : List (Nat × Order)} {h : List HeapEntry} {e : HeapEntry}
    (hmem : e ∈ h) (hl : (alLookup orders e.2.2).isSome) : e ∈ (scanBest orders h).2 := by
  induction h with
  | nil => simp at hmem
  | cons e0 rest ih =>
    obtain ⟨k0, t0, i0⟩ := e0
    by_cases hl0 : (alLookup orders i0).isSome
    · simp only [scanBest, if_pos hl0]
      exact hmem
    · simp only [scanBest, if_neg hl0]
      rcases List.mem_cons.mp hmem with hmem | hmem
      · subst hmem; exact absurd hl hl0
      · exact ih hmem

theorem scanBest_idem {orders : List (Nat × Order)} {h : List HeapEntry} :
    scanBest orders (scanBest orders h).2 = scanBest orders h := by
  cases hs : (scanBest orders h).1 with
  | none =>
    rw [scanBest_none_nil hs]
    refine Prod.ext_iff.mpr ⟨?_, ?_⟩
    · simp [scanBest, hs]
    · simp [scanBest, scanBest_none_nil hs]
  | some k =>
    obtain ⟨t, i, rest, hheap, hl⟩ := scanBest_some hs
    rw [hheap]
    refine Prod.ext_iff.mpr ⟨?_, ?_⟩
    · simp [scanBest, hl, hs]
    · simp [scanBest, hl, hheap]

/-! ## Invariant preservation -/

theorem mem_alErase_fst_ne {α β : Type} [DecidableEq α] {l : List (α × β)} {k : α} {kv : α × β}
    (hnd : (l.map Prod.fst).Nodup) (h : kv ∈ alErase l k) : kv.1 ≠ k := by
  intro hk
  have : kv.1 ∈ (alErase l k).map Prod.fst := List.mem_map_of_mem Prod.fst h
  rw [alErase_map_fst] at this
  exact ((List.Nodup.mem_erase_iff hnd).mp this).1 hk

/-- An order resting in some bucket of a side's ledger sits in the bucket
keyed by its own price. -/
theorem resting_bucket_lookup {s : OrderBook} (hInv : Inv s) {i : Nat} {o : Order}
    (hl : lookupOrder s i = some o) :
    ∃ v, alLookup (ledgerOf s o.side) o.price = some v ∧ i ∈ v := by
  have hmem : (i, o) ∈ s.orders := alLookup_mem hl
  have hjoin : i ∈ joinBuckets (ledgerOf s o.side) := hInv.resting_in_bucket (i, o) hmem
  obtain ⟨pl, hpl, hipl⟩ := mem_joinBuckets.mp hjoin
  cases hsd : o.side with
  | buy =>
    rw [hsd] at hpl
    obtain ⟨o2, hl2, hside2, hprice2⟩ := hInv.bucket_orders_buy pl hpl i hipl
    rw [hl] at hl2
    obtain rfl : o = o2 := by injection hl2
    obtain ⟨p0, v0⟩ := pl
    refine ⟨v0, ?_, hipl⟩
    rw [hprice2]
    exact mem_alLookup hInv.keys_nodup_buy hpl
  | sell =>
    rw [hsd] at hpl
    obtain ⟨o2, hl2, hside2, hprice2⟩ := hInv.bucket_orders_sell pl hpl i hipl
    rw [hl] at hl2
    obtain rfl : o = o2 := by injection hl2
    obtain ⟨p0, v0⟩ := pl
    refine ⟨v0, ?_, hipl⟩
    rw [hprice2]
    exact mem_alLookup hInv.keys_nodup_sell hpl

theorem inv_empty : Inv emptyBook := by
  constructor <;> simp [emptyBook, joinBuckets, ledgerOf, heapOf]

theorem inv_add {s : OrderBook} (hInv : Inv s) (i : Nat) (sd : Side) (p : Rat) (q : Int) :
    Inv (add_order s i sd p q).2 := by
  cases hl : lookupOrder s i with
  | some o => simpa [add_order, hl] using hInv
  | none =>
    have hki : i ∉ s.orders.map Prod.fst := alLookup_eq_none.mp hl
    have hnotjb : i ∉ joinBuckets s.price_levels_buy := by
      intro hmem
      obtain ⟨pl, hpl, hipl⟩ := mem_joinBuckets.mp hmem
      obtain ⟨o2, hl2, -, -⟩ := hInv.bucket_orders_buy pl hpl i hipl
      rw [hl] at hl2; cases hl2
    have hnotjs : i ∉ joinBuckets s.price_levels_sell := by
      intro hmem
      obtain ⟨pl, hpl, hipl⟩ := mem_joinBuckets.mp hmem
      obtain ⟨o2, hl2, -, -⟩ := hInv.bucket_orders_sell pl hpl i hipl
      rw [hl] at hl2; cases hl2
    have hordnd : ((s.orders ++ [(i, (⟨i, sd, p, q, s.next_ts⟩ : Order))]).map Prod.fst).Nodup := by
      rw [List.map_append, List.nodup_append]
      exact ⟨hInv.orders_nodup, by simp, by intro a ha hb; simp at hb; subst hb; exact hki ha⟩
    have hlook_old : ∀ j o2, alLookup s.orders j = some o2 →
        alLookup (s.orders ++ [(i, (⟨i, sd, p, q, s.next_ts⟩ : Order))]) j = some o2 :=
      fun j o2 hj => alLookup_append_some hj
    have hlook_new :
        alLookup (s.orders ++ [(i, (⟨i, sd, p, q, s.next_ts⟩ : Order))]) i =
          some ⟨i, sd, p, q, s.next_ts⟩ := by
      rw [alLookup_append_none hl]
      simp [alLookup]
    cases sd with
    | buy =>
      simp only [add_order, lookupOrder] at hl ⊢
      rw [show alLookup s.orders i = none from hl]
      constructor
      · exact hordnd
      · intro kv hkv
        rcases List.mem_append.mp hkv with hkv | hkv
        · exact hInv.orders_key kv hkv
        · simp at hkv; subst hkv; rfl
      · exact ddAppend_keys_nodup hInv.keys_nodup_buy
      · exact hInv.keys_nodup_sell
      · intro pl hpl j hj
        rcases mem_ddAppend hpl with hpl | ⟨w, rfl, hw⟩
        · obtain ⟨o2, hl2, hside2, hprice2⟩ := hInv.bucket_orders_buy pl hpl j hj
          exact ⟨o2, hlook_old j o2 hl2, hside2, hprice2⟩
        · simp only at hj
          rcases List.mem_append.mp hj with hj | hj
          · have hwmem : (p, w) ∈ s.price_levels_buy := by
              rcases hw with rfl | hw
              · simp at hj
              · exact hw
            obtain ⟨o2, hl2, hside2, hprice2⟩ := hInv.bucket_orders_buy (p, w) hwmem j hj
            exact ⟨o2, hlook_old j o2 hl2, hside2, hprice2⟩
          · simp at hj; subst hj
            exact ⟨⟨j, Side.buy, p, q, s.next_ts⟩, hlook_new, rfl, rfl⟩
      · intro pl hpl j hj
        obtain ⟨o2, hl2, hside2, hprice2⟩ := hInv.bucket_orders_sell pl hpl j hj
        exact ⟨o2, hlook_old j o2 hl2, hside2, hprice2⟩
      · rw [joinBuckets_ddAppend_perm.nodup_iff, List.nodup_append]
        exact ⟨hInv.ids_nodup_buy, by simp, by intro a ha hb; simp at hb; subst hb; exact hnotjb ha⟩
      · exact hInv.ids_nodup_sell
      · intro kv hkv
        rcases List.mem_append.mp hkv with hkv | hkv
        · have := hInv.resting_in_bucket kv hkv
          cases hsd : kv.2.side with
          | buy =>
            rw [hsd] at this
            simpa [ledgerOf, mem_joinBuckets_ddAppend] using Or.inl this
          | sell =>
            rw [hsd] at this
            simpa [ledgerOf] using this
        · simp at hkv; subst hkv
          simpa [ledgerOf, mem_joinBuckets_ddAppend] using Or.inr rfl
      · exact heapPush_sorted hInv.heap_sorted_buy
      · exact hInv.heap_sorted_sell
      · intro kv hkv
        rcases List.mem_append.mp hkv with hkv | hkv
        · obtain ⟨e, he, hei⟩ := hInv.resting_in_heap kv hkv
          cases hsd : kv.2.side with
          | buy =>
            rw [hsd] at he
            exact ⟨e, by simpa [heapOf, mem_heapPush] using Or.inr (by simpa [heapOf] using he), hei⟩
          | sell =>
            rw [hsd] at he
            exact ⟨e, by simpa [heapOf] using he, hei⟩
        · simp at hkv; subst hkv
          exact ⟨(-p, s.next_ts, i), by simpa [heapOf, mem_heapPush] using Or.inl rfl, rfl⟩
    | sell =>
      simp only [add_order, lookupOrder] at hl ⊢
      rw [show alLookup s.orders i = none from hl]
      constructor
      · exact hordnd
      · intro kv hkv
        rcases List.mem_append.mp hkv with hkv | hkv
        · exact hInv.orders_key kv hkv
        · simp at hkv; subst hkv; rfl
      · exact hInv.keys_nodup_buy
      · exact ddAppend_keys_nodup hInv.keys_nodup_sell
      · intro pl hpl j hj
        obtain ⟨o2, hl2, hside2, hprice2⟩ := hInv.bucket_orders_buy pl hpl j hj
        exact ⟨o2, hlook_old j o2 hl2, hside2, hprice2⟩
      · intro pl hpl j hj
        rcases mem_ddAppend hpl with hpl | ⟨w, rfl, hw⟩
        · obtain ⟨o2, hl2, hside2, hprice2⟩ := hInv.bucket_orders_sell pl hpl j hj
          exact ⟨o2, hlook_old j o2 hl2, hside2, hprice2⟩
        · simp only at hj
          rcases List.mem_append.mp hj with hj | hj
          · have hwmem : (p, w) ∈ s.price_levels_sell := by
              rcases hw with rfl | hw
              · simp at hj
              · exact hw
            obtain ⟨o2, hl2, hside2, hprice2⟩ := hInv.bucket_orders_sell (p, w) hwmem j hj
            exact ⟨o2, hlook_old j o2 hl2, hside2, hprice2⟩
          · simp at hj; subst hj
            exact ⟨⟨j, Side.sell, p, q, s.next_ts⟩, hlook_new, rfl, rfl⟩
      · exact hInv.ids_nodup_buy
      · rw [joinBuckets_ddAppend_perm.nodup_iff, List.nodup_append]
        exact ⟨hInv.ids_nodup_sell, by simp, by intro a ha hb; simp at hb; subst hb; exact hnotjs ha⟩
      · intro kv hkv
        rcases List.mem_append.mp hkv with hkv | hkv
        · have := hInv.resting_in_bucket kv hkv
          cases hsd : kv.2.side with
          | buy =>
            rw [hsd] at this
            simpa [ledgerOf] using this
          | sell =>
            rw [hsd] at this
            simpa [ledgerOf, mem_joinBuckets_ddAppend] using Or.inl this
        · simp at hkv; subst hkv
          simpa [ledgerOf, mem_joinBuckets_ddAppend] using Or.inr rfl
      · exact hInv.heap_sorted_buy
      · exact heapPush_sorted hInv.heap_sorted_sell
      · intro kv hkv
        rcases List.mem_append.mp hkv with hkv | hkv
        · obtain ⟨e, he, hei⟩ := hInv.resting_in_heap kv hkv
          cases hsd : kv.2.side with
          | buy =>
            rw [hsd] at he
            exact ⟨e, by simpa [heapOf] using he, hei⟩
          | sell =>
            rw [hsd] at he
            exact ⟨e, by simpa [heapOf, mem_heapPush] using Or.inr (by simpa [heapOf] using he), hei⟩
        · simp at hkv; subst hkv
          exact ⟨(p, s.next_ts, i), by simpa [heapOf, mem_heapPush] using Or.inl rfl, rfl⟩

theorem inv_cancel {s : OrderBook} (hInv : Inv s) (i : Nat) : Inv (cancel_order s i).2 := by
  cases hl : lookupOrder s i with
  | none => simpa [cancel_order, hl] using hInv
  | some o =>
    obtain ⟨v, hv, hiv⟩ := resting_bucket_lookup hInv hl
    cases hsd : o.side with
    | buy =>
      rw [hsd] at hv
      have hnotmem : i ∉ joinBuckets (bucketRemove s.price_levels_buy o.price i) :=
        bucketRemove_not_mem_join hInv.ids_nodup_buy hv hiv
      simp only [cancel_order, hl, hsd]
      constructor
      · rw [alErase_map_fst]
        exact hInv.orders_nodup.erase i
      · intro kv hkv
        exact hInv.orders_key kv (alErase_sublist.mem hkv)
      · exact List.Nodup.sublist bucketRemove_map_fst_sublist hInv.keys_nodup_buy
      · exact hInv.keys_nodup_sell
      · intro pl hpl j hj
        have hjjoin : j ∈ joinBuckets (bucketRemove s.price_levels_buy o.price i) :=
          mem_joinBuckets.mpr ⟨pl, hpl, hj⟩
        have hji : j ≠ i := fun e => hnotmem (e ▸ hjjoin)
        rcases mem_bucketRemove hpl with hpl | ⟨v0, hv0, rfl⟩
        · obtain ⟨o2, hl2, hside2, hprice2⟩ := hInv.bucket_orders_buy pl hpl j hj
          refine ⟨o2, ?_, hside2, hprice2⟩
          simpa only [lookupOrder, alLookup_alErase_ne hji] using hl2
        · obtain ⟨o2, hl2, hside2, hprice2⟩ :=
            hInv.bucket_orders_buy (o.price, v0) hv0 j (List.mem_of_mem_erase hj)
          refine ⟨o2, ?_, hside2, hprice2⟩
          simpa only [lookupOrder, alLookup_alErase_ne hji] using hl2
      · intro pl hpl j hj
        obtain ⟨o2, hl2, hside2, hprice2⟩ := hInv.bucket_orders_sell pl hpl j hj
        have hji : j ≠ i := by
          rintro rfl
          rw [hl] at hl2
          obtain rfl : o = o2 := by injection hl2
          rw [hsd] at hside2
          cases hside2
        refine ⟨o2, ?_, hside2, hprice2⟩
        simpa only [lookupOrder, alLookup_alErase_ne hji] using hl2
      · exact List.Nodup.sublist joinBuckets_bucketRemove_sublist hInv.ids_nodup_buy
      · exact hInv.ids_nodup_sell
      · intro kv hkv
        have hkvo : kv ∈ s.orders := alErase_sublist.mem hkv
        have hne : kv.1 ≠ i := mem_alErase_fst_ne hInv.orders_nodup hkv
        have hold := hInv.resting_in_bucket kv hkvo
        cases hks : kv.2.side with
        | buy =>
          rw [hks] at hold
          simpa [ledgerOf] using (mem_joinBuckets_bucketRemove hne).mpr hold
        | sell =>
          rw [hks] at hold
          simpa [ledgerOf] using hold
      · exact hInv.heap_sorted_buy
      · exact hInv.heap_sorted_sell
      · intro kv hkv
        obtain ⟨e, he, hei⟩ := hInv.resting_in_heap kv (alErase_sublist.mem hkv)
        cases hks : kv.2.side with
        | buy =>
          rw [hks] at he
          exact ⟨e, by simpa [heapOf] using he, hei⟩
        | sell =>
          rw [hks] at he
          exact ⟨e, by simpa [heapOf] using he, hei⟩
    | sell =>
      rw [hsd] at hv
      have hnotmem : i ∉ joinBuckets (bucketRemove s.price_levels_sell o.price i) :=
        bucketRemove_not_mem_join hInv.ids_nodup_sell hv hiv
      simp only [cancel_order, hl, hsd]
      constructor
      · rw [alErase_map_fst]
        exact hInv.orders_nodup.erase i
      · intro kv hkv
        exact hInv.orders_key kv (alErase_sublist.mem hkv)
      · exact hInv.keys_nodup_buy
      · exact List.Nodup.sublist bucketRemove_map_fst_sublist hInv.keys_nodup_sell
      · intro pl hpl j hj
        obtain ⟨o2, hl2, hside2, hprice2⟩ := hInv.bucket_orders_buy pl hpl j hj
        have hji : j ≠ i := by
          rintro rfl
          rw [hl] at hl2
          obtain rfl : o = o2 := by injection hl2
          rw [hsd] at hside2
          cases hside2
        refine ⟨o2, ?_, hside2, hprice2⟩
        simpa only [lookupOrder, alLookup_alErase_ne hji] using hl2
      · intro pl hpl j hj
        have hjjoin : j ∈ joinBuckets (bucketRemove s.price_levels_sell o.price i) :=
          mem_joinBuckets.mpr ⟨pl, hpl, hj⟩
        have hji : j ≠ i := fun e => hnotmem (e ▸ hjjoin)
        rcases mem_bucketRemove hpl with hpl | ⟨v0, hv0, rfl⟩
        · obtain ⟨o2, hl2, hside2, hprice2⟩ := hInv.bucket_orders_sell pl hpl j hj
          refine ⟨o2, ?_, hside2, hprice2⟩
          simpa only [lookupOrder, alLookup_alErase_ne hji] using hl2
        · obtain ⟨o2, hl2, hside2, hprice2⟩ :=
            hInv.bucket_orders_sell (o.price, v0) hv0 j (List.mem_of_mem_erase hj)
          refine ⟨o2, ?_, hside2, hprice2⟩
          simpa only [lookupOrder, alLookup_alErase_ne hji] using hl2
      · exact hInv.ids_nodup_buy
      · exact List.Nodup.sublist joinBuckets_bucketRemove_sublist hInv.ids_nodup_sell
      · intro kv hkv
        have hkvo : kv ∈ s.orders := alErase_sublist.mem hkv
        have hne : kv.1 ≠ i := mem_alErase_fst_ne hInv.orders_nodup hkv
        have hold := hInv.resting_in_bucket kv hkvo
        cases hks : kv.2.side with
        | buy =>
          rw [hks] at hold
          simpa [ledgerOf] using hold
        | sell =>
          rw [hks] at hold
          simpa [ledgerOf] using (mem_joinBuckets_bucketRemove hne).mpr hold
      · exact hInv.heap_sorted_buy
      · exact hInv.heap_sorted_sell
      · intro kv hkv
        obtain ⟨e, he, hei⟩ := hInv.resting_in_heap kv (alErase_sublist.mem hkv)
        cases hks : kv.2.side with
        | buy =>
          rw [hks] at he
          exact ⟨e, by simpa [heapOf] using he, hei⟩
        | sell =>
          rw [hks] at he
          exact ⟨e, by simpa [heapOf] using he, hei⟩

/-- The observable effect of a successful cancellation. -/
theorem cancel_spec {s : OrderBook} {i : Nat} {o : Order} (hInv : Inv s)
    (hl : lookupOrder s i = some o) :
    (cancel_order s i).1 = true ∧
    lookupOrder (cancel_order s i).2 i = none ∧
    i ∉ joinBuckets (cancel_order s i).2.price_levels_buy ∧
    i ∉ joinBuckets (cancel_order s i).2.price_levels_sell ∧
    (∀ j, j ≠ i → lookupOrder (cancel_order s i).2 j = lookupOrder s j) ∧
    (cancel_order s i).2.orders.length + 1 = s.orders.length ∧
    (cancel_order s i).2.buy_orders = s.buy_orders ∧
    (cancel_order s i).2.sell_orders = s.sell_orders ∧
    (∀ sd p, bucketAt (cancel_order s i).2 sd p = bucketAt s sd p ∨
      bucketAt (cancel_order s i).2 sd p = (bucketAt s sd p).erase i) := by
  obtain ⟨v, hv, hiv⟩ := resting_bucket_lookup hInv hl
  have hisome : (alLookup s.orders i).isSome := by
    rw [show alLookup s.orders i = lookupOrder s i from rfl, hl]
    rfl
  cases hsd : o.side with
  | buy =>
    rw [hsd] at hv
    have hnotmem : i ∉ joinBuckets (bucketRemove s.price_levels_buy o.price i) :=
      bucketRemove_not_mem_join hInv.ids_nodup_buy hv hiv
    have hnots : i ∉ joinBuckets s.price_levels_sell := by
      intro hmem
      obtain ⟨pl, hpl, hipl⟩ := mem_joinBuckets.mp hmem
      obtain ⟨o2, hl2, hside2, -⟩ := hInv.bucket_orders_sell pl hpl i hipl
      rw [hl] at hl2
      obtain rfl : o = o2 := by injection hl2
      rw [hsd] at hside2
      cases hside2
    simp only [cancel_order, hl, hsd]
    refine ⟨trivial, ?_, hnotmem, hnots, ?_, ?_, trivial, trivial, ?_⟩
    · simp only [lookupOrder]
      exact alLookup_alErase_self hInv.orders_nodup
    · intro j hj
      simp only [lookupOrder]
      exact alLookup_alErase_ne hj
    · exact alErase_length hisome
    · intro sd p
      cases sd with
      | buy =>
        by_cases hp : p = o.price
        · subst hp
          right
          simp only [bucketAt, ledgerOf]
          exact getD_alLookup_bucketRemove_self hInv.keys_nodup_buy
        · left
          simp only [bucketAt, ledgerOf]
          rw [alLookup_bucketRemove_ne hp]
      | sell => left; simp [bucketAt, ledgerOf]
  | sell =>
    rw [hsd] at hv
    have hnotmem : i ∉ joinBuckets (bucketRemove s.price_levels_sell o.price i) :=
      bucketRemove_not_mem_join hInv.ids_nodup_sell hv hiv
    have hnotb : i ∉ joinBuckets s.price_levels_buy := by
      intro hmem
      obtain ⟨pl, hpl, hipl⟩ := mem_joinBuckets.mp hmem
      obtain ⟨o2, hl2, hside2, -⟩ := hInv.bucket_orders_buy pl hpl i hipl
      rw [hl] at hl2
      obtain rfl : o = o2 := by injection hl2
      rw [hsd] at hside2
      cases hside2
    simp only [cancel_order, hl, hsd]
    refine ⟨trivial, ?_, hnotb, hnotmem, ?_, ?_, trivial, trivial, ?_⟩
    · simp only [lookupOrder]
      exact alLookup_alErase_self hInv.orders_nodup
    · intro j hj
      simp only [lookupOrder]
      exact alLookup_alErase_ne hj
    · exact alErase_length hisome
    · intro sd p
      cases sd with
      | buy => left; simp [bucketAt, ledgerOf]
      | sell =>
        by_cases hp : p = o.price
        · subst hp
          right
          simp only [bucketAt, ledgerOf]
          exact getD_alLookup_bucketRemove_self hInv.keys_nodup_sell
        · left
          simp only [bucketAt, ledgerOf]
          rw [alLookup_bucketRemove_ne hp]

theorem inv_set_quantity {s : OrderBook} {i : Nat} {o2 : Order} {nq : Int} (hInv : Inv s)
    (hl : lookupOrder s i = some o2) :
    Inv { s with orders := alSet s.orders i { o2 with quantity := nq } } := by
  have hisome : (alLookup s.orders i).isSome := by
    rw [show alLookup s.orders i = lookupOrder s i from rfl, hl]; rfl
  have hmem2 : (i, o2) ∈ s.orders := alLookup_mem hl
  constructor
  · rw [show ((alSet s.orders i { o2 with quantity := nq }).map Prod.fst) =
      s.orders.map Prod.fst from alSet_map_fst]
    exact hInv.orders_nodup
  · intro kv hkv
    rcases mem_alSet hkv with hkv | rfl
    · exact hInv.orders_key kv hkv
    · exact hInv.orders_key (i, o2) hmem2
  · exact hInv.keys_nodup_buy
  · exact hInv.keys_nodup_sell
  · intro pl hpl j hj
    obtain ⟨o3, hl3, hs3, hp3⟩ := hInv.bucket_orders_buy pl hpl j hj
    by_cases hji : j = i
    · subst hji
      rw [hl] at hl3
      obtain rfl : o2 = o3 := by injection hl3
      exact ⟨{ o2 with quantity := nq }, by
        simpa only [lookupOrder] using alLookup_alSet_self hisome, hs3, hp3⟩
    · exact ⟨o3, by simpa only [lookupOrder, alLookup_alSet_ne hji] using hl3, hs3, hp3⟩
  · intro pl hpl j hj
    obtain ⟨o3, hl3, hs3, hp3⟩ := hInv.bucket_orders_sell pl hpl j hj
    by_cases hji : j = i
    · subst hji
      rw [hl] at hl3
      obtain rfl : o2 = o3 := by injection hl3
      exact ⟨{ o2 with quantity := nq }, by
        simpa only [lookupOrder] using alLookup_alSet_self hisome, hs3, hp3⟩
    · exact ⟨o3, by simpa only [lookupOrder, alLookup_alSet_ne hji] using hl3, hs3, hp3⟩
  · exact hInv.ids_nodup_buy
  · exact hInv.ids_nodup_sell
  · intro kv hkv
    rcases mem_alSet hkv with hkv | rfl
    · have := hInv.resting_in_bucket kv hkv
      cases hks : kv.2.side with
      | buy => rw [hks] at this; simpa [ledgerOf] using this
      | sell => rw [hks] at this; simpa [ledgerOf] using this
    · have := hInv.resting_in_bucket (i, o2) hmem2
      cases hks : o2.side with
      | buy => rw [hks] at this; simpa [ledgerOf, hks] using this
      | sell => rw [hks] at this; simpa [ledgerOf, hks] using this
  · exact hInv.heap_sorted_buy
  · exact hInv.heap_sorted_sell
  · intro kv hkv
    rcases mem_alSet hkv with hkv | rfl
    · obtain ⟨e, he, hei⟩ := hInv.resting_in_heap kv hkv
      cases hks : kv.2.side with
      | buy => rw [hks] at he; exact ⟨e, by simpa [heapOf] using he, hei⟩
      | sell => rw [hks] at he; exact ⟨e, by simpa [heapOf] using he, hei⟩
    · obtain ⟨e, he, hei⟩ := hInv.resting_in_heap (i, o2) hmem2
      cases hks : o2.side with
      | buy => rw [hks] at he; exact ⟨e, by simpa [heapOf, hks] using he, hei⟩
      | sell => rw [hks] at he; exact ⟨e, by simpa [heapOf, hks] using he, hei⟩

/-- Invariant preservation for the price-change branch of `modify_order`
(buy side): the state built there is well-formed and the amended order is
found at its new price. -/
theorem inv_modify_price_buy {s : OrderBook} {i : Nat} {o : Order} (np : Rat) (hInv : Inv s)
    (hl : lookupOrder s i = some o) (hsd : o.side = Side.buy) :
    Inv { s with
      price_levels_buy := ddAppend (bucketRemove s.price_levels_buy o.price i) np i,
      orders := alSet s.orders i { o with price := np },
      buy_orders := heapPush s.buy_orders (-np, o.timestamp, i) } ∧
    lookupOrder { s with
      price_levels_buy := ddAppend (bucketRemove s.price_levels_buy o.price i) np i,
      orders := alSet s.orders i { o with price := np },
      buy_orders := heapPush s.buy_orders (-np, o.timestamp, i) } i =
        some { o with price := np } := by
  have hisome : (alLookup s.orders i).isSome := by
    rw [show alLookup s.orders i = lookupOrder s i from rfl, hl]; rfl
  have hmem2 : (i, o) ∈ s.orders := alLookup_mem hl
  obtain ⟨v, hv, hiv⟩ := resting_bucket_lookup hInv hl
  rw [hsd] at hv
  have hnotmem : i ∉ joinBuckets (bucketRemove s.price_levels_buy o.price i) :=
    bucketRemove_not_mem_join hInv.ids_nodup_buy hv hiv
  have hlookupi : lookupOrder { s with
      price_levels_buy := ddAppend (bucketRemove s.price_levels_buy o.price i) np i,
      orders := alSet s.orders i { o with price := np },
      buy_orders := heapPush s.buy_orders (-np, o.timestamp, i) } i =
        some { o with price := np } := by
    simpa only [lookupOrder] using alLookup_alSet_self hisome
  refine ⟨?_, hlookupi⟩
  constructor
  · rw [show ((alSet s.orders i { o with price := np }).map Prod.fst) =
      s.orders.map Prod.fst from alSet_map_fst]
    exact hInv.orders_nodup
  · intro kv hkv
    rcases mem_alSet hkv with hkv | rfl
    · exact hInv.orders_key kv hkv
    · exact hInv.orders_key (i, o) hmem2
  · exact ddAppend_keys_nodup (List.Nodup.sublist bucketRemove_map_fst_sublist hInv.keys_nodup_buy)
  · exact hInv.keys_nodup_sell
  · intro pl hpl j hj
    rcases mem_ddAppend hpl with hpl | ⟨w, rfl, hw⟩
    · have hjjoin : j ∈ joinBuckets (bucketRemove s.price_levels_buy o.price i) :=
        mem_joinBuckets.mpr ⟨pl, hpl, hj⟩
      have hji : j ≠ i := fun e => hnotmem (e ▸ hjjoin)
      rcases mem_bucketRemove hpl with hpl | ⟨v0, hv0, rfl⟩
      · obtain ⟨o3, hl3, hs3, hp3⟩ := hInv.bucket_orders_buy pl hpl j hj
        exact ⟨o3, by simpa only [lookupOrder, alLookup_alSet_ne hji] using hl3, hs3, hp3⟩
      · obtain ⟨o3, hl3, hs3, hp3⟩ :=
          hInv.bucket_orders_buy (o.price, v0) hv0 j (List.mem_of_mem_erase hj)
        exact ⟨o3, by simpa only [lookupOrder, alLookup_alSet_ne hji] using hl3, hs3, hp3⟩
    · simp only at hj
      rcases List.mem_append.mp hj with hj | hj
      · have hwb : (np, w) ∈ bucketRemove s.price_levels_buy o.price i := by
          rcases hw with rfl | hw
          · simp at hj
          · exact hw
        have hjjoin : j ∈ joinBuckets (bucketRemove s.price_levels_buy o.price i) :=
          mem_joinBuckets.mpr ⟨(np, w), hwb, hj⟩
        have hji : j ≠ i := fun e => hnotmem (e ▸ hjjoin)
        rcases mem_bucketRemove hwb with hwb | ⟨v0, hv0, heq⟩
        · obtain ⟨o3, hl3, hs3, hp3⟩ := hInv.bucket_orders_buy (np, w) hwb j hj
          exact ⟨o3, by simpa only [lookupOrder, alLookup_alSet_ne hji] using hl3, hs3, hp3⟩
        · have hnp : np = o.price := by injection heq with h1 h2
          have hwv : w = v0.erase i := by injection heq with h1 h2
          obtain ⟨o3, hl3, hs3, hp3⟩ :=
            hInv.bucket_orders_buy (o.price, v0) hv0 j (List.mem_of_mem_erase (hwv ▸ hj))
          refine ⟨o3, by simpa only [lookupOrder, alLookup_alSet_ne hji] using hl3, hs3, ?_⟩
          simpa [hnp] using hp3
      · simp at hj
        subst hj
        exact ⟨{ o with price := np }, hlookupi, by simpa using hsd, rfl⟩
  · intro pl hpl j hj
    obtain ⟨o3, hl3, hs3, hp3⟩ := hInv.bucket_orders_sell pl hpl j hj
    have hji : j ≠ i := by
      rintro rfl
      rw [hl] at hl3
      obtain rfl : o = o3 := by injection hl3
      rw [hsd] at hs3
      cases hs3
    exact ⟨o3, by simpa only [lookupOrder, alLookup_alSet_ne hji] using hl3, hs3, hp3⟩
  · rw [joinBuckets_ddAppend_perm.nodup_iff, List.nodup_append]
    refine ⟨List.Nodup.sublist joinBuckets_bucketRemove_sublist hInv.ids_nodup_buy, by simp, ?_⟩
    intro a ha hb
    simp at hb
    subst hb
    exact hnotmem ha
  · exact hInv.ids_nodup_sell
  · intro kv hkv
    rcases mem_alSet hkv with hkv | rfl
    · by_cases hji : kv.1 = i
      · have h3 := mem_alLookup hInv.orders_nodup (show (kv.1, kv.2) ∈ s.orders from hkv)
        rw [hji, show alLookup s.orders i = lookupOrder s i from rfl, hl] at h3
        have hkv2 : kv.2 = o := (Option.some.inj h3).symm
        rw [hkv2, hsd, hji]
        exact mem_joinBuckets_ddAppend.mpr (Or.inr rfl)
      · have hold := hInv.resting_in_bucket kv hkv
        cases hks : kv.2.side with
        | buy =>
          rw [hks] at hold
          have : kv.1 ∈ joinBuckets (bucketRemove s.price_levels_buy o.price i) :=
            (mem_joinBuckets_bucketRemove hji).mpr hold
          simpa [ledgerOf, mem_joinBuckets_ddAppend] using Or.inl this
        | sell =>
          rw [hks] at hold
          simpa [ledgerOf] using hold
    · show i ∈ joinBuckets (ledgerOf _ ({ o with price := np } : Order).side)
      have hside : ({ o with price := np } : Order).side = Side.buy := hsd
      rw [hside]
      exact mem_joinBuckets_ddAppend.mpr (Or.inr rfl)
  · exact heapPush_sorted hInv.heap_sorted_buy
  · exact hInv.heap_sorted_sell
  · intro kv hkv
    rcases mem_alSet hkv with hkv | rfl
    · obtain ⟨e, he, hei⟩ := hInv.resting_in_heap kv hkv
      cases hks : kv.2.side with
      | buy =>
        rw [hks] at he
        exact ⟨e, by simpa [heapOf, mem_heapPush] using Or.inr (by simpa [heapOf] using he), hei⟩
      | sell =>
        rw [hks] at he
        exact ⟨e, by simpa [heapOf] using he, hei⟩
    · refine ⟨(-np, o.timestamp, i), ?_, rfl⟩
      show _ ∈ heapOf _ ({ o with price := np } : Order).side
      have hside : ({ o with price := np } : Order).side = Side.buy := hsd
      rw [hside]
      exact mem_heapPush.mpr (Or.inl rfl)

/-- Invariant preservation for the price-change branch of `modify_order`
(sell side). -/
theorem inv_modify_price_sell {s : OrderBook} {i : Nat} {o : Order} (np : Rat) (hInv : Inv s)
    (hl : lookupOrder s i = some o) (hsd : o.side = Side.sell) :
    Inv { s with
      price_levels_sell := ddAppend (bucketRemove s.price_levels_sell o.price i) np i,
      orders := alSet s.orders i { o with price := np },
      sell_orders := heapPush s.sell_orders (np, o.timestamp, i) } ∧
    lookupOrder { s with
      price_levels_sell := ddAppend (bucketRemove s.price_levels_sell o.price i) np i,
      orders := alSet s.orders i { o with price := np },
      sell_orders := heapPush s.sell_orders (np, o.timestamp, i) } i =
        some { o with price := np } := by
  have hisome : (alLookup s.orders i).isSome := by
    rw [show alLookup s.orders i = lookupOrder s i from rfl, hl]; rfl
  have hmem2 : (i, o) ∈ s.orders := alLookup_mem hl
  obtain ⟨v, hv, hiv⟩ := resting_bucket_lookup hInv hl
  rw [hsd] at hv
  have hnotmem : i ∉ joinBuckets (bucketRemove s.price_levels_sell o.price i) :=
    bucketRemove_not_mem_join hInv.ids_nodup_sell hv hiv
  have hlookupi : lookupOrder { s with
      price_levels_sell := ddAppend (bucketRemove s.price_levels_sell o.price i) np i,
      orders := alSet s.orders i { o with price := np },
      sell_orders := heapPush s.sell_orders (np, o.timestamp, i) } i =
        some { o with price := np } := by
    simpa only [lookupOrder] using alLookup_alSet_self hisome
  refine ⟨?_, hlookupi⟩
  constructor
  · rw [show ((alSet s.orders i { o with price := np }).map Prod.fst) =
      s.orders.map Prod.fst from alSet_map_fst]
    exact hInv.orders_nodup
  · intro kv hkv
    rcases mem_alSet hkv with hkv | rfl
    · exact hInv.orders_key kv hkv
    · exact hInv.orders_key (i, o) hmem2
  · exact hInv.keys_nodup_buy
  · exact ddAppend_keys_nodup (List.Nodup.sublist bucketRemove_map_fst_sublist hInv.keys_nodup_sell)
  · intro pl hpl j hj
    obtain ⟨o3, hl3, hs3, hp3⟩ := hInv.bucket_orders_buy pl hpl j hj
    have hji : j ≠ i := by
      rintro rfl
      rw [hl] at hl3
      obtain rfl : o = o3 := by injection hl3
      rw [hsd] at hs3
      cases hs3
    exact ⟨o3, by simpa only [lookupOrder, alLookup_alSet_ne hji] using hl3, hs3, hp3⟩
  · intro pl hpl j hj
    rcases mem_ddAppend hpl with hpl | ⟨w, rfl, hw⟩
    · have hjjoin : j ∈ joinBuckets (bucketRemove s.price_levels_sell o.price i) :=
        mem_joinBuckets.mpr ⟨pl, hpl, hj⟩
      have hji : j ≠ i := fun e => hnotmem (e ▸ hjjoin)
      rcases mem_bucketRemove hpl with hpl | ⟨v0, hv0, rfl⟩
      · obtain ⟨o3, hl3, hs3, hp3⟩ := hInv.bucket_orders_sell pl hpl j hj
        exact ⟨o3, by simpa only [lookupOrder, alLookup_alSet_ne hji] using hl3, hs3, hp3⟩
      · obtain ⟨o3, hl3, hs3, hp3⟩ :=
          hInv.bucket_orders_sell (o.price, v0) hv0 j (List.mem_of_mem_erase hj)
        exact ⟨o3, by simpa only [lookupOrder, alLookup_alSet_ne hji] using hl3, hs3, hp3⟩
    · simp only at hj
      rcases List.mem_append.mp hj with hj | hj
      · have hwb : (np, w) ∈ bucketRemove s.price_levels_sell o.price i := by
          rcases hw with rfl | hw
          · simp at hj
          · exact hw
        have hjjoin : j ∈ joinBuckets (bucketRemove s.price_levels_sell o.price i) :=
          mem_joinBuckets.mpr ⟨(np, w), hwb, hj⟩
        have hji : j ≠ i := fun e => hnotmem (e ▸ hjjoin)
        rcases mem_bucketRemove hwb with hwb | ⟨v0, hv0, heq⟩
        · obtain ⟨o3, hl3, hs3, hp3⟩ := hInv.bucket_orders_sell (np, w) hwb j hj
          exact ⟨o3, by simpa only [lookupOrder, alLookup_alSet_ne hji] using hl3, hs3, hp3⟩
        · have hnp : np = o.price := by injection heq with h1 h2
          have hwv : w = v0.erase i := by injection heq with h1 h2
          obtain ⟨o3, hl3, hs3, hp3⟩ :=
            hInv.bucket_orders_sell (o.price, v0) hv0 j (List.mem_of_mem_erase (hwv ▸ hj))
          refine ⟨o3, by simpa only [lookupOrder, alLookup_alSet_ne hji] using hl3, hs3, ?_⟩
          simpa [hnp] using hp3
      · simp at hj
        subst hj
        exact ⟨{ o with price := np }, hlookupi, by simpa using hsd, rfl⟩
  · exact hInv.ids_nodup_buy
  · rw [joinBuckets_ddAppend_perm.nodup_iff, List.nodup_append]
    refine ⟨List.Nodup.sublist joinBuckets_bucketRemove_sublist hInv.ids_nodup_sell, by simp, ?_⟩
    intro a ha hb
    simp at hb
    subst hb
    exact hnotmem ha
  · intro kv hkv
    rcases mem_alSet hkv with hkv | rfl
    · by_cases hji : kv.1 = i
      · have h3 := mem_alLookup hInv.orders_nodup (show (kv.1, kv.2) ∈ s.orders from hkv)
        rw [hji, show alLookup s.orders i = lookupOrder s i from rfl, hl] at h3
        have hkv2 : kv.2 = o := (Option.some.inj h3).symm
        rw [hkv2, hsd, hji]
        exact mem_joinBuckets_ddAppend.mpr (Or.inr rfl)
      · have hold := hInv.resting_in_bucket kv hkv
        cases hks : kv.2.side with
        | buy =>
          rw [hks] at hold
          simpa [ledgerOf] using hold
        | sell =>
          rw [hks] at hold
          have : kv.1 ∈ joinBuckets (bucketRemove s.price_levels_sell o.price i) :=
            (mem_joinBuckets_bucketRemove hji).mpr hold
          simpa [ledgerOf, mem_joinBuckets_ddAppend] using Or.inl this
    · show i ∈ joinBuckets (ledgerOf _ ({ o with price := np } : Order).side)
      have hside : ({ o with price := np } : Order).side = Side.sell := hsd
      rw [hside]
      exact mem_joinBuckets_ddAppend.mpr (Or.inr rfl)
  · exact hInv.heap_sorted_buy
  · exact heapPush_sorted hInv.heap_sorted_sell
  · intro kv hkv
    rcases mem_alSet hkv with hkv | rfl
    · obtain ⟨e, he, hei⟩ := hInv.resting_in_heap kv hkv
      cases hks : kv.2.side with
      | buy =>
        rw [hks] at he
        exact ⟨e, by simpa [heapOf] using he, hei⟩
      | sell =>
        rw [hks] at he
        exact ⟨e, by simpa [heapOf, mem_heapPush] using Or.inr (by simpa [heapOf] using he), hei⟩
    · refine ⟨(np, o.timestamp, i), ?_, rfl⟩
      show _ ∈ heapOf _ ({ o with price := np } : Order).side
      have hside : ({ o with price := np } : Order).side = Side.sell := hsd
      rw [hside]
      exact mem_heapPush.mpr (Or.inl rfl)

theorem inv_modify {s : OrderBook} (hInv : Inv s) (i : Nat) (np : Option Rat)
    (nq : Option Int) : Inv (modify_order s i np nq).2 := by
  cases hl : lookupOrder s i with
  | none => simpa [modify_order, hl] using hInv
  | some o =>
    cases np with
    | none =>
      cases nq with
      | none => simpa [modify_order, hl] using hInv
      | some q =>
        simp only [modify_order, hl]
        exact inv_set_quantity hInv hl
    | some p2 =>
      cases hsd : o.side with
      | buy =>
        obtain ⟨hInv2, hlook2⟩ := inv_modify_price_buy p2 hInv hl hsd
        have hsubst : ({ o with price := p2 } : Order) =
            ⟨o.order_id, Side.buy, p2, o.quantity, o.timestamp⟩ := by rw [← hsd]
        rw [hsubst] at hInv2 hlook2
        cases nq with
        | none =>
          simp only [modify_order, hl, hsd]
          exact hInv2
        | some q =>
          simp only [modify_order, hl, hsd, hlook2]
          exact inv_set_quantity hInv2 hlook2
      | sell =>
        obtain ⟨hInv2, hlook2⟩ := inv_modify_price_sell p2 hInv hl hsd
        have hsubst : ({ o with price := p2 } : Order) =
            ⟨o.order_id, Side.sell, p2, o.quantity, o.timestamp⟩ := by rw [← hsd]
        rw [hsubst] at hInv2 hlook2
        cases nq with
        | none =>
          simp only [modify_order, hl, hsd]
          exact hInv2
        | some q =>
          simp only [modify_order, hl, hsd, hlook2]
          exact inv_set_quantity hInv2 hlook2

theorem inv_scan_buy {s : OrderBook} (hInv : Inv s) :
    Inv { s with buy_orders := (scanBest s.orders s.buy_orders).2 } := by
  constructor
  · exact hInv.orders_nodup
  · exact hInv.orders_key
  · exact hInv.keys_nodup_buy
  · exact hInv.keys_nodup_sell
  · intro pl hpl j hj
    exact hInv.bucket_orders_buy pl hpl j hj
  · intro pl hpl j hj
    exact hInv.bucket_orders_sell pl hpl j hj
  · exact hInv.ids_nodup_buy
  · exact hInv.ids_nodup_sell
  · intro kv hkv
    have := hInv.resting_in_bucket kv hkv
    cases hks : kv.2.side with
    | buy => rw [hks] at this; simpa [ledgerOf] using this
    | sell => rw [hks] at this; simpa [ledgerOf] using this
  · exact List.Pairwise.sublist scanBest_suffix.sublist hInv.heap_sorted_buy
  · exact hInv.heap_sorted_sell
  · intro kv hkv
    obtain ⟨e, he, hei⟩ := hInv.resting_in_heap kv hkv
    have hlive : (alLookup s.orders e.2.2).isSome := by
      rw [hei, show alLookup s.orders kv.1 = some kv.2 from mem_alLookup hInv.orders_nodup hkv]
      rfl
    cases hks : kv.2.side with
    | buy =>
      rw [hks] at he
      refine ⟨e, ?_, hei⟩
      show e ∈ (scanBest s.orders s.buy_orders).2
      exact mem_scanBest_of_live (by simpa [heapOf] using he) hlive
    | sell =>
      rw [hks] at he
      exact ⟨e, by simpa [heapOf] using he, hei⟩

theorem inv_scan_sell {s : OrderBook} (hInv : Inv s) :
    Inv { s with sell_orders := (scanBest s.orders s.sell_orders).2 } := by
  constructor
  · exact hInv.orders_nodup
  · exact hInv.orders_key
  · exact hInv.keys_nodup_buy
  · exact hInv.keys_nodup_sell
  · intro pl hpl j hj
    exact hInv.bucket_orders_buy pl hpl j hj
  · intro pl hpl j hj
    exact hInv.bucket_orders_sell pl hpl j hj
  · exact hInv.ids_nodup_buy
  · exact hInv.ids_nodup_sell
  · intro kv hkv
    have := hInv.resting_in_bucket kv hkv
    cases hks : kv.2.side with
    | buy => rw [hks] at this; simpa [ledgerOf] using this
    | sell => rw [hks] at this; simpa [ledgerOf] using this
  · exact hInv.heap_sorted_buy
  · exact List.Pairwise.sublist scanBest_suffix.sublist hInv.heap_sorted_sell
  · intro kv hkv
    obtain ⟨e, he, hei⟩ := hInv.resting_in_heap kv hkv
    have hlive : (alLookup s.orders e.2.2).isSome := by
      rw [hei, show alLookup s.orders kv.1 = some kv.2 from mem_alLookup hInv.orders_nodup hkv]
      rfl
    cases hks : kv.2.side with
    | buy =>
      rw [hks] at he
      exact ⟨e, by simpa [heapOf] using he, hei⟩
    | sell =>
      rw [hks] at he
      refine ⟨e, ?_, hei⟩
      show e ∈ (scanBest s.orders s.sell_orders).2
      exact mem_scanBest_of_live (by simpa [heapOf] using he) hlive

theorem inv_get_best_bid {s : OrderBook} (hInv : Inv s) : Inv (get_best_bid s).2 :=
  inv_scan_buy hInv

theorem inv_get_best_ask {s : OrderBook} (hInv : Inv s) : Inv (get_best_ask s).2 :=
  inv_scan_sell hInv

theorem get_spread_snd {s : OrderBook} :
    (get_spread s).2 = (get_best_ask (get_best_bid s).2).2 := by
  cases h1 : (get_best_bid s).1 with
  | none => simp [get_spread, h1]
  | some b =>
    cases h2 : (get_best_ask (get_best_bid s).2).1 with
    | none => simp [get_spread, h1, h2]
    | some a => simp [get_spread, h1, h2]

theorem inv_get_spread {s : OrderBook} (hInv : Inv s) : Inv (get_spread s).2 := by
  rw [get_spread_snd]
  exact inv_get_best_ask (inv_get_best_bid hInv)

/-- The snapshot loops only ever extend the price ledger with empty
buckets created by `defaultdict` accesses. -/
theorem snapLoop_ledger (orders : List (Nat × Order)) (neg : Bool) (depth : Nat) :
    ∀ (temp : List HeapEntry) (seen : List Rat) (acc : List (Rat × Int))
      (L : List (Rat × List Nat)),
      (∀ pl ∈ (snapLoop orders neg depth temp seen acc L).2, pl ∈ L ∨ pl.2 = []) ∧
      joinBuckets (snapLoop orders neg depth temp seen acc L).2 = joinBuckets L ∧
      ((L.map Prod.fst).Nodup → (((snapLoop orders neg depth temp seen acc L).2).map Prod.fst).Nodup) := by
  intro temp
  induction temp with
  | nil =>
    intro seen acc L
    exact ⟨fun pl hpl => Or.inl hpl, rfl, fun h => h⟩
  | cons e rest ih =>
    intro seen acc L
    obtain ⟨k, t, i⟩ := e
    by_cases hd : depth ≤ acc.length
    · simp only [snapLoop, if_pos hd]
      exact ⟨fun pl hpl => Or.inl hpl, trivial, fun h => h⟩
    · by_cases hseen : (if neg then -k else k) ∈ seen
      · simp only [snapLoop, if_neg hd, if_pos hseen]
        exact ih seen acc L
      · by_cases hlive : (alLookup orders i).isSome
        · simp only [snapLoop, if_neg hd, if_neg hseen, if_pos hlive]
          obtain ⟨hmem, hjoin, hnd⟩ := ih ((if neg then -k else k) :: seen)
            (acc ++ [((if neg then -k else k),
              bucketTotal orders (ddGet L (if neg then -k else k)).1)])
            (ddGet L (if neg then -k else k)).2
          refine ⟨?_, ?_, ?_⟩
          · intro pl hpl
            rcases hmem pl hpl with hpl | hpl
            · rcases mem_ddGet_snd hpl with hpl | hpl
              · exact Or.inl hpl
              · exact Or.inr (by rw [hpl])
            · exact Or.inr hpl
          · rw [hjoin, joinBuckets_ddGet]
          · intro h
            exact hnd (ddGet_keys_nodup h)
        · simp only [snapLoop, if_neg hd, if_neg hseen, if_neg hlive]
          exact ih seen acc L

theorem inv_snapshot {s : OrderBook} (hInv : Inv s) (d : Nat) :
    Inv (get_order_book_snapshot s d).2 := by
  obtain ⟨hmb, hjb, hnb⟩ :=
    snapLoop_ledger s.orders true d s.buy_orders [] [] s.price_levels_buy
  obtain ⟨hms, hjs, hns⟩ :=
    snapLoop_ledger s.orders false d s.sell_orders [] [] s.price_levels_sell
  constructor
  · exact hInv.orders_nodup
  · exact hInv.orders_key
  · exact hnb hInv.keys_nodup_buy
  · exact hns hInv.keys_nodup_sell
  · intro pl hpl j hj
    rcases hmb pl hpl with hpl | hpl
    · exact hInv.bucket_orders_buy pl hpl j hj
    · rw [hpl] at hj; simp at hj
  · intro pl hpl j hj
    rcases hms pl hpl with hpl | hpl
    · exact hInv.bucket_orders_sell pl hpl j hj
    · rw [hpl] at hj; simp at hj
  · rw [show joinBuckets (get_order_book_snapshot s d).2.price_levels_buy =
      joinBuckets s.price_levels_buy from hjb]
    exact hInv.ids_nodup_buy
  · rw [show joinBuckets (get_order_book_snapshot s d).2.price_levels_sell =
      joinBuckets s.price_levels_sell from hjs]
    exact hInv.ids_nodup_sell
  · intro kv hkv
    have := hInv.resting_in_bucket kv hkv
    cases hks : kv.2.side with
    | buy =>
      rw [hks] at this
      show kv.1 ∈ joinBuckets (snapLoop s.orders true d s.buy_orders [] [] s.price_levels_buy).2
      rw [hjb]
      exact this
    | sell =>
      rw [hks] at this
      show kv.1 ∈
        joinBuckets (snapLoop s.orders false d s.sell_orders [] [] s.price_levels_sell).2
      rw [hjs]
      exact this
  · exact hInv.heap_sorted_buy
  · exact hInv.heap_sorted_sell
  · intro kv hkv
    obtain ⟨e, he, hei⟩ := hInv.resting_in_heap kv hkv
    cases hks : kv.2.side with
    | buy =>
      rw [hks] at he
      exact ⟨e, by simpa [heapOf] using he, hei⟩
    | sell =>
      rw [hks] at he
      exact ⟨e, by simpa [heapOf] using he, hei⟩

/-! ## The matching engine -/

theorem get_best_bid_of_scanned (s s2 : OrderBook) (ho : s2.orders = s.orders)
    (hh : s2.buy_orders = (scanBest s.orders s.buy_orders).2) :
    (get_best_bid s2).1 = (get_best_bid s).1 ∧ (get_best_bid s2).2 = s2 := by
  have h1 : scanBest s2.orders s2.buy_orders = scanBest s.orders s.buy_orders := by
    rw [ho, hh, scanBest_idem]
  constructor
  · show (scanBest s2.orders s2.buy_orders).1.map _ = (scanBest s.orders s.buy_orders).1.map _
    rw [h1]
  · show ({ s2 with buy_orders := (scanBest s2.orders s2.buy_orders).2 }) = s2
    rw [h1, ← hh]

theorem get_best_ask_of_scanned (s s2 : OrderBook) (ho : s2.orders = s.orders)
    (hh : s2.sell_orders = (scanBest s.orders s.sell_orders).2) :
    (get_best_ask s2).1 = (get_best_ask s).1 ∧ (get_best_ask s2).2 = s2 := by
  have h1 : scanBest s2.orders s2.sell_orders = scanBest s.orders s.sell_orders := by
    rw [ho, hh, scanBest_idem]
  constructor
  · show (scanBest s2.orders s2.sell_orders).1 = (scanBest s.orders s.sell_orders).1
    rw [h1]
  · show ({ s2 with sell_orders := (scanBest s2.orders s2.sell_orders).2 }) = s2
    rw [h1, ← hh]

/-- A side with a resting order always discovers some best price. -/
theorem scan_some_of_resting {s : OrderBook} (hInv : Inv s) {kv : Nat × Order}
    (hkv : kv ∈ s.orders) (hsd : kv.2.side = Side.buy) :
    (scanBest s.orders s.buy_orders).1 ≠ none := by
  intro hnone
  obtain ⟨e, he, hei⟩ := hInv.resting_in_heap kv hkv
  rw [hsd] at he
  have hstale := scanBest_none_iff.mp hnone e (by simpa [heapOf] using he)
  rw [hei, show alLookup s.orders kv.1 = some kv.2 from mem_alLookup hInv.orders_nodup hkv]
    at hstale
  cases hstale

theorem scan_some_of_resting_sell {s : OrderBook} (hInv : Inv s) {kv : Nat × Order}
    (hkv : kv ∈ s.orders) (hsd : kv.2.side = Side.sell) :
    (scanBest s.orders s.sell_orders).1 ≠ none := by
  intro hnone
  obtain ⟨e, he, hei⟩ := hInv.resting_in_heap kv hkv
  rw [hsd] at he
  have hstale := scanBest_none_iff.mp hnone e (by simpa [heapOf] using he)
  rw [hei, show alLookup s.orders kv.1 = some kv.2 from mem_alLookup hInv.orders_nodup hkv]
    at hstale
  cases hstale

theorem inv_ddGet2 {S : OrderBook} (hInv : Inv S) (p q : Rat) :
    Inv { S with price_levels_buy := (ddGet S.price_levels_buy p).2,
                 price_levels_sell := (ddGet S.price_levels_sell q).2 } := by
  constructor
  · exact hInv.orders_nodup
  · exact hInv.orders_key
  · exact ddGet_keys_nodup hInv.keys_nodup_buy
  · exact ddGet_keys_nodup hInv.keys_nodup_sell
  · intro pl hpl j hj
    rcases mem_ddGet_snd hpl with hpl | rfl
    · exact hInv.bucket_orders_buy pl hpl j hj
    · simp at hj
  · intro pl hpl j hj
    rcases mem_ddGet_snd hpl with hpl | rfl
    · exact hInv.bucket_orders_sell pl hpl j hj
    · simp at hj
  · show (joinBuckets (ddGet S.price_levels_buy p).2).Nodup
    rw [joinBuckets_ddGet]
    exact hInv.ids_nodup_buy
  · show (joinBuckets (ddGet S.price_levels_sell q).2).Nodup
    rw [joinBuckets_ddGet]
    exact hInv.ids_nodup_sell
  · intro kv hkv
    have := hInv.resting_in_bucket kv hkv
    cases hks : kv.2.side with
    | buy =>
      rw [hks] at this
      show kv.1 ∈ joinBuckets (ddGet S.price_levels_buy p).2
      rw [joinBuckets_ddGet]
      exact this
    | sell =>
      rw [hks] at this
      show kv.1 ∈ joinBuckets (ddGet S.price_levels_sell q).2
      rw [joinBuckets_ddGet]
      exact this
  · exact hInv.heap_sorted_buy
  · exact hInv.heap_sorted_sell
  · intro kv hkv
    obtain ⟨e, he, hei⟩ := hInv.resting_in_heap kv hkv
    cases hks : kv.2.side with
    | buy => rw [hks] at he; exact ⟨e, by simpa [heapOf] using he, hei⟩
    | sell => rw [hks] at he; exact ⟨e, by simpa [heapOf] using he, hei⟩

theorem bestask_bestbid_state (s : OrderBook) : (get_best_ask (get_best_bid s).2).2 =
    { s with buy_orders := (scanBest s.orders s.buy_orders).2,
             sell_orders := (scanBest s.orders s.sell_orders).2 } := rfl

/-- When one iteration of the matching loop `break`s, the resulting state
satisfies the loop's exit condition: a side is empty, or there is no
cross, or a best-price bucket is empty (stale-price discovery). -/
theorem matchIter_none_spec {s s2 : OrderBook} (hInv : Inv s)
    (h : matchIter s = (none, s2)) : Inv s2 ∧ noCross s2 ∧ s2.orders = s.orders := by
  have hInvS : Inv { s with
      buy_orders := (scanBest s.orders s.buy_orders).2,
      sell_orders := (scanBest s.orders s.sell_orders).2 } := by
    have h1 := inv_scan_buy hInv
    have h2 := inv_scan_sell h1
    simpa using h2
  cases hbb : (get_best_bid s).1 with
  | none =>
    have hscan : (scanBest s.orders s.buy_orders).1 = none := by
      have : ((scanBest s.orders s.buy_orders).1.map (fun k => -k)) = none := hbb
      exact Option.map_eq_none'.mp this
    simp only [matchIter, hbb] at h
    obtain ⟨-, rfl⟩ : (none : Option Trade) = none ∧ (get_best_ask (get_best_bid s).2).2 = s2 :=
      Prod.mk.injEq .. ▸ h
    rw [bestask_bestbid_state]
    refine ⟨hInvS, Or.inl ?_, rfl⟩
    rintro ⟨kv, hkv, hsd⟩
    exact scan_some_of_resting hInv hkv hsd hscan
  | some bb =>
    cases hba : (get_best_ask (get_best_bid s).2).1 with
    | none =>
      have hscan : (scanBest s.orders s.sell_orders).1 = none := hba
      simp only [matchIter, hbb, hba] at h
      obtain ⟨-, rfl⟩ : (none : Option Trade) = none ∧ (get_best_ask (get_best_bid s).2).2 = s2 :=
        Prod.mk.injEq .. ▸ h
      rw [bestask_bestbid_state]
      refine ⟨hInvS, Or.inr (Or.inl ?_), rfl⟩
      rintro ⟨kv, hkv, hsd⟩
      exact scan_some_of_resting_sell hInv hkv hsd hscan
    | some ba =>
      have hSbid := get_best_bid_of_scanned s (get_best_ask (get_best_bid s).2).2 rfl rfl
      have hSask := get_best_ask_of_scanned s (get_best_ask (get_best_bid s).2).2 rfl rfl
      by_cases hlt : bb < ba
      · simp only [matchIter, hbb, hba, if_pos hlt] at h
        obtain ⟨-, rfl⟩ : (none : Option Trade) = none ∧
            (get_best_ask (get_best_bid s).2).2 = s2 := Prod.mk.injEq .. ▸ h
        refine ⟨hInvS, Or.inr (Or.inr ⟨bb, ba, ?_, ?_, Or.inl hlt⟩), rfl⟩
        · exact hSbid.1.trans hbb
        · exact hSask.1.trans hba
      · simp only [matchIter, hbb, hba, if_neg hlt] at h
        -- the two defaultdict bucket reads
        cases hgb : (ddGet s.price_levels_buy bb).1 with
        | nil =>
          rw [show (ddGet (get_best_ask (get_best_bid s).2).2.price_levels_buy bb) =
            (ddGet s.price_levels_buy bb) from rfl] at h
          simp only [hgb] at h
          obtain ⟨-, rfl⟩ := Prod.mk.injEq .. ▸ h
          refine ⟨?_, ?_, rfl⟩
          · have := inv_ddGet2 hInvS bb ba
            simpa using this
          · refine Or.inr (Or.inr ⟨bb, ba, ?_, ?_, Or.inr (Or.inl ?_)⟩)
            · exact (get_best_bid_of_scanned s { s with
                buy_orders := (scanBest s.orders s.buy_orders).2,
                sell_orders := (scanBest s.orders s.sell_orders).2,
                price_levels_buy := (ddGet s.price_levels_buy bb).2,
                price_levels_sell := (ddGet s.price_levels_sell ba).2 } rfl rfl).1.trans hbb
            · exact (get_best_ask_of_scanned s { s with
                buy_orders := (scanBest s.orders s.buy_orders).2,
                sell_orders := (scanBest s.orders s.sell_orders).2,
                price_levels_buy := (ddGet s.price_levels_buy bb).2,
                price_levels_sell := (ddGet s.price_levels_sell ba).2 } rfl rfl).1.trans hba
            · show (alLookup (ddGet s.price_levels_buy bb).2 bb).getD [] = []
              rw [alLookup_ddGet_self]
              simpa [ddGet_fst] using hgb
        | cons b_id bt =>
          cases hgs : (ddGet s.price_levels_sell ba).1 with
          | nil =>
            rw [show (ddGet (get_best_ask (get_best_bid s).2).2.price_levels_buy bb) =
              (ddGet s.price_levels_buy bb) from rfl,
              show (ddGet (get_best_ask (get_best_bid s).2).2.price_levels_sell ba) =
              (ddGet s.price_levels_sell ba) from rfl] at h
            simp only [hgb, hgs] at h
            obtain ⟨-, rfl⟩ := Prod.mk.injEq .. ▸ h
            refine ⟨?_, ?_, rfl⟩
            · have := inv_ddGet2 hInvS bb ba
              simpa using this
            · refine Or.inr (Or.inr ⟨bb, ba, ?_, ?_, Or.inr (Or.inr ?_)⟩)
              · exact (get_best_bid_of_scanned s { s with
                buy_orders := (scanBest s.orders s.buy_orders).2,
                sell_orders := (scanBest s.orders s.sell_orders).2,
                price_levels_buy := (ddGet s.price_levels_buy bb).2,
                price_levels_sell := (ddGet s.price_levels_sell ba).2 } rfl rfl).1.trans hbb
              · exact (get_best_ask_of_scanned s { s with
                buy_orders := (scanBest s.orders s.buy_orders).2,
                sell_orders := (scanBest s.orders s.sell_orders).2,
                price_levels_buy := (ddGet s.price_levels_buy bb).2,
                price_levels_sell := (ddGet s.price_levels_sell ba).2 } rfl rfl).1.trans hba
              · show (alLookup (ddGet s.price_levels_sell ba).2 ba).getD [] = []
                rw [alLookup_ddGet_self]
                simpa [ddGet_fst] using hgs
          | cons s_id st =>
            -- both buckets are non-empty: the front orders are resting and
            -- a trade is produced, contradicting the `none` result
            exfalso
            have hlbb : alLookup s.price_levels_buy bb = some (b_id :: bt) := by
              have : (ddGet s.price_levels_buy bb).1 =
                  (alLookup s.price_levels_buy bb).getD [] := ddGet_fst
              rw [hgb] at this
              cases hx : alLookup s.price_levels_buy bb with
              | none => rw [hx] at this; simp at this
              | some v => rw [hx] at this; simp at this; rw [this]
            have hlba : alLookup s.price_levels_sell ba = some (s_id :: st) := by
              have : (ddGet s.price_levels_sell ba).1 =
                  (alLookup s.price_levels_sell ba).getD [] := ddGet_fst
              rw [hgs] at this
              cases hx : alLookup s.price_levels_sell ba with
              | none => rw [hx] at this; simp at this
              | some v => rw [hx] at this; simp at this; rw [this]
            obtain ⟨bo, hbo, -, -⟩ := hInv.bucket_orders_buy (bb, b_id :: bt)
              (alLookup_mem hlbb) b_id (List.mem_cons_self _ _)
            obtain ⟨so, hso, -, -⟩ := hInv.bucket_orders_sell (ba, s_id :: st)
              (alLookup_mem hlba) s_id (List.mem_cons_self _ _)
            rw [show (ddGet (get_best_ask (get_best_bid s).2).2.price_levels_buy bb) =
              (ddGet s.price_levels_buy bb) from rfl,
              show (ddGet (get_best_ask (get_best_bid s).2).2.price_levels_sell ba) =
              (ddGet s.price_levels_sell ba) from rfl] at h
            simp only [hgb, hgs] at h
            rw [show (lookupOrder
                { (get_best_ask (get_best_bid s).2).2 with
                  price_levels_buy := (ddGet s.price_levels_buy bb).2,
                  price_levels_sell := (ddGet s.price_levels_sell ba).2 } b_id) =
              lookupOrder s b_id from rfl] at h
            rw [hbo] at h
            rw [show (lookupOrder
                { (get_best_ask (get_best_bid s).2).2 with
                  price_levels_buy := (ddGet s.price_levels_buy bb).2,
                  price_levels_sell := (ddGet s.price_levels_sell ba).2 } s_id) =
              lookupOrder s s_id from rfl] at h
            rw [hso] at h
            simp at h

theorem lookupOrder_mk (A B : List HeapEntry) (O : List (Nat × Order))
    (P Q : List (Rat × List Nat)) (T : Nat) (i : Nat) :
    lookupOrder ⟨A, B, O, P, Q, T⟩ i = alLookup O i := rfl

theorem scanned_orders (s : OrderBook) :
    (get_best_ask (get_best_bid s).2).2.orders = s.orders := rfl

theorem scanned_plb (s : OrderBook) :
    (get_best_ask (get_best_bid s).2).2.price_levels_buy = s.price_levels_buy := rfl

theorem scanned_pls (s : OrderBook) :
    (get_best_ask (get_best_bid s).2).2.price_levels_sell = s.price_levels_sell := rfl

theorem scanned_next_ts (s : OrderBook) :
    (get_best_ask (get_best_bid s).2).2.next_ts = s.next_ts := rfl

theorem scanned_buy (s : OrderBook) :
    (get_best_ask (get_best_bid s).2).2.buy_orders = (scanBest s.orders s.buy_orders).2 := rfl

theorem scanned_sell (s : OrderBook) :
    (get_best_ask (get_best_bid s).2).2.sell_orders = (scanBest s.orders s.sell_orders).2 := rfl

/-- The exact effect of one trading iteration of `match_orders`, fully
evaluated: the trade record and the resulting state (quantity updates in
the id-map, and the cancellation path for any order filled to exactly
zero). -/
theorem matchIter_trade_eq {s : OrderBook} {bb ba : Rat} {b_id s_id : Nat}
    {bt st : List Nat} {bo so : Order}
    (hbb : (get_best_bid s).1 = some bb)
    (hba : (get_best_ask (get_best_bid s).2).1 = some ba)
    (hlt : ¬ bb < ba)
    (hlbb : alLookup s.price_levels_buy bb = some (b_id :: bt))
    (hlba : alLookup s.price_levels_sell ba = some (s_id :: st))
    (hbo : lookupOrder s b_id = some bo)
    (hso : lookupOrder s s_id = some so)
    (hbs : b_id ≠ s_id)
    (hbsd : bo.side = Side.buy)
    (hssd : so.side = Side.sell) :
    matchIter s =
      (some { buy_order_id := b_id, sell_order_id := s_id, price := so.price,
              quantity := min bo.quantity so.quantity },
       { s with
         buy_orders := (scanBest s.orders s.buy_orders).2,
         sell_orders := (scanBest s.orders s.sell_orders).2,
         orders :=
           (if so.quantity - min bo.quantity so.quantity = 0 then
             alErase
               (if bo.quantity - min bo.quantity so.quantity = 0 then
                 alErase
                   (alSet (alSet s.orders b_id
                       { bo with quantity := bo.quantity - min bo.quantity so.quantity }) s_id
                     { so with quantity := so.quantity - min bo.quantity so.quantity }) b_id
               else
                 alSet (alSet s.orders b_id
                     { bo with quantity := bo.quantity - min bo.quantity so.quantity }) s_id
                   { so with quantity := so.quantity - min bo.quantity so.quantity }) s_id
           else
             (if bo.quantity - min bo.quantity so.quantity = 0 then
               alErase
                 (alSet (alSet s.orders b_id
                     { bo with quantity := bo.quantity - min bo.quantity so.quantity }) s_id
                   { so with quantity := so.quantity - min bo.quantity so.quantity }) b_id
             else
               alSet (alSet s.orders b_id
                   { bo with quantity := bo.quantity - min bo.quantity so.quantity }) s_id
                 { so with quantity := so.quantity - min bo.quantity so.quantity })),
         price_levels_buy :=
           (if bo.quantity - min bo.quantity so.quantity = 0 then
             bucketRemove s.price_levels_buy bo.price b_id
           else s.price_levels_buy),
         price_levels_sell :=
           (if so.quantity - min bo.quantity so.quantity = 0 then
             bucketRemove s.price_levels_sell so.price s_id
           else s.price_levels_sell) }) := by
  have hbo2 : alLookup s.orders b_id = some bo := hbo
  have hso2 : alLookup s.orders s_id = some so := hso
  have hbi : (alLookup s.orders b_id).isSome := by rw [hbo2]; rfl
  have hsi : (alLookup s.orders s_id).isSome := by rw [hso2]; rfl
  have hsb : s_id ≠ b_id := hbs.symm
  have hgbE : ddGet s.price_levels_buy bb = (b_id :: bt, s.price_levels_buy) := ddGet_some hlbb
  have hgsE : ddGet s.price_levels_sell ba = (s_id :: st, s.price_levels_sell) := ddGet_some hlba
  have hlook4 : alLookup (alSet s.orders b_id
      ⟨bo.order_id, Side.buy, bo.price, bo.quantity - min bo.quantity so.quantity,
        bo.timestamp⟩) s_id = some so := by
    rw [alLookup_alSet_ne hsb, hso2]
  have hlook5 : alLookup (alSet (alSet s.orders b_id
      ⟨bo.order_id, Side.buy, bo.price, bo.quantity - min bo.quantity so.quantity,
        bo.timestamp⟩) s_id
      ⟨so.order_id, Side.sell, so.price, so.quantity - min bo.quantity so.quantity,
        so.timestamp⟩) b_id =
      some ⟨bo.order_id, Side.buy, bo.price, bo.quantity - min bo.quantity so.quantity,
        bo.timestamp⟩ := by
    rw [alLookup_alSet_ne hbs, alLookup_alSet_self hbi]
  have hlook5s : alLookup (alSet (alSet s.orders b_id
      ⟨bo.order_id, Side.buy, bo.price, bo.quantity - min bo.quantity so.quantity,
        bo.timestamp⟩) s_id
      ⟨so.order_id, Side.sell, so.price, so.quantity - min bo.quantity so.quantity,
        so.timestamp⟩) s_id =
      some ⟨so.order_id, Side.sell, so.price, so.quantity - min bo.quantity so.quantity,
        so.timestamp⟩ := by
    rw [alLookup_alSet_self (by rw [hlook4]; rfl)]
  simp only [matchIter, hbb, hba, if_neg hlt, scanned_plb, scanned_pls, hgbE, hgsE,
    lookupOrder, scanned_orders, hbo2, hso2, hbsd, hssd]
  simp only [lookupOrder_mk, scanned_orders, hbsd, hssd, hlook4, hlook5, hlook5s]
  by_cases hz1 : bo.quantity - min bo.quantity so.quantity = 0
  · by_cases hz2 : so.quantity - min bo.quantity so.quantity = 0
    · simp only [if_pos hz1, if_pos hz2, cancel_order, lookupOrder_mk, hbsd, hssd, hlook5,
        alLookup_alErase_ne hsb, hlook5s, scanned_buy, scanned_sell, scanned_next_ts,
        scanned_plb, scanned_pls]
    · simp only [if_pos hz1, if_neg hz2, cancel_order, lookupOrder_mk, hbsd, hssd, hlook5,
        alLookup_alErase_ne hsb, hlook5s, scanned_buy, scanned_sell, scanned_next_ts,
        scanned_plb, scanned_pls]
  · by_cases hz2 : so.quantity - min bo.quantity so.quantity = 0
    · simp only [if_neg hz1, if_pos hz2, cancel_order, lookupOrder_mk, hbsd, hssd, hlook5,
        hlook5s, scanned_buy, scanned_sell, scanned_next_ts, scanned_plb, scanned_pls]
    · simp only [if_neg hz1, if_neg hz2, cancel_order, lookupOrder_mk, hbsd, hssd, hlook5,
        hlook5s, scanned_buy, scanned_sell, scanned_next_ts, scanned_plb, scanned_pls]

/-- Case extraction for a trading iteration: the discovered best prices,
the two front orders, and the produced trade, together with the exact
resulting state. -/
theorem matchIter_some_cases {s : OrderBook} {tr : Trade} {s2 : OrderBook} (hInv : Inv s)
    (h : matchIter s = (some tr, s2)) :
    ∃ bb ba bt st bo so,
      (get_best_bid s).1 = some bb ∧
      (get_best_ask (get_best_bid s).2).1 = some ba ∧
      ¬ bb < ba ∧
      alLookup s.price_levels_buy bb = some (tr.buy_order_id :: bt) ∧
      alLookup s.price_levels_sell ba = some (tr.sell_order_id :: st) ∧
      lookupOrder s tr.buy_order_id = some bo ∧
      lookupOrder s tr.sell_order_id = some so ∧
      bo.side = Side.buy ∧ so.side = Side.sell ∧ bo.price = bb ∧ so.price = ba ∧
      tr.buy_order_id ≠ tr.sell_order_id ∧
      tr.price = so.price ∧
      tr.quantity = min bo.quantity so.quantity ∧
      s2 = { s with
        buy_orders := (scanBest s.orders s.buy_orders).2,
        sell_orders := (scanBest s.orders s.sell_orders).2,
        orders :=
          (if so.quantity - min bo.quantity so.quantity = 0 then
            alErase
              (if bo.quantity - min bo.quantity so.quantity = 0 then
                alErase
                  (alSet (alSet s.orders tr.buy_order_id
                      { bo with quantity := bo.quantity - min bo.quantity so.quantity })
                    tr.sell_order_id
                    { so with quantity := so.quantity - min bo.quantity so.quantity })
                  tr.buy_order_id
              else
                alSet (alSet s.orders tr.buy_order_id
                    { bo with quantity := bo.quantity - min bo.quantity so.quantity })
                  tr.sell_order_id
                  { so with quantity := so.quantity - min bo.quantity so.quantity }) tr.sell_order_id
          else
            (if bo.quantity - min bo.quantity so.quantity = 0 then
              alErase
                (alSet (alSet s.orders tr.buy_order_id
                    { bo with quantity := bo.quantity - min bo.quantity so.quantity })
                  tr.sell_order_id
                  { so with quantity := so.quantity - min bo.quantity so.quantity })
                tr.buy_order_id
            else
              alSet (alSet s.orders tr.buy_order_id
                  { bo with quantity := bo.quantity - min bo.quantity so.quantity })
                tr.sell_order_id
                { so with quantity := so.quantity - min bo.quantity so.quantity })),
        price_levels_buy :=
          (if bo.quantity - min bo.quantity so.quantity = 0 then
            bucketRemove s.price_levels_buy bo.price tr.buy_order_id
          else s.price_levels_buy),
        price_levels_sell :=
          (if so.quantity - min bo.quantity so.quantity = 0 then
            bucketRemove s.price_levels_sell so.price tr.sell_order_id
          else s.price_levels_sell) } := by
  cases hbb : (get_best_bid s).1 with
  | none =>
    exfalso
    simp only [matchIter, hbb] at h
    obtain ⟨h1, -⟩ := Prod.mk.injEq .. ▸ h
    cases h1
  | some bb =>
    cases hba : (get_best_ask (get_best_bid s).2).1 with
    | none =>
      exfalso
      simp only [matchIter, hbb, hba] at h
      obtain ⟨h1, -⟩ := Prod.mk.injEq .. ▸ h
      cases h1
    | some ba =>
      by_cases hlt : bb < ba
      · exfalso
        simp only [matchIter, hbb, hba, if_pos hlt] at h
        obtain ⟨h1, -⟩ := Prod.mk.injEq .. ▸ h
        cases h1
      · cases hgbv : alLookup s.price_levels_buy bb with
        | none =>
          exfalso
          simp only [matchIter, hbb, hba, if_neg hlt] at h
          rw [show (ddGet (get_best_ask (get_best_bid s).2).2.price_levels_buy bb) =
            (ddGet s.price_levels_buy bb) from rfl, ddGet_none hgbv] at h
          obtain ⟨h1, -⟩ := Prod.mk.injEq .. ▸ h
          cases h1
        | some vb =>
          cases vb with
          | nil =>
            exfalso
            simp only [matchIter, hbb, hba, if_neg hlt] at h
            rw [show (ddGet (get_best_ask (get_best_bid s).2).2.price_levels_buy bb) =
              (ddGet s.price_levels_buy bb) from rfl, ddGet_some hgbv] at h
            obtain ⟨h1, -⟩ := Prod.mk.injEq .. ▸ h
            cases h1
          | cons b_id bt =>
            cases hgsv : alLookup s.price_levels_sell ba with
            | none =>
              exfalso
              simp only [matchIter, hbb, hba, if_neg hlt] at h
              rw [show (ddGet (get_best_ask (get_best_bid s).2).2.price_levels_buy bb) =
                (ddGet s.price_levels_buy bb) from rfl, ddGet_some hgbv,
                show (ddGet (get_best_ask (get_best_bid s).2).2.price_levels_sell ba) =
                (ddGet s.price_levels_sell ba) from rfl, ddGet_none hgsv] at h
              obtain ⟨h1, -⟩ := Prod.mk.injEq .. ▸ h
              cases h1
            | some vs =>
              cases vs with
              | nil =>
                exfalso
                simp only [matchIter, hbb, hba, if_neg hlt] at h
                rw [show (ddGet (get_best_ask (get_best_bid s).2).2.price_levels_buy bb) =
                  (ddGet s.price_levels_buy bb) from rfl, ddGet_some hgbv,
                  show (ddGet (get_best_ask (get_best_bid s).2).2.price_levels_sell ba) =
                  (ddGet s.price_levels_sell ba) from rfl, ddGet_some hgsv] at h
                obtain ⟨h1, -⟩ := Prod.mk.injEq .. ▸ h
                cases h1
              | cons s_id st =>
                obtain ⟨bo, hbo, hbsd, hbprice⟩ := hInv.bucket_orders_buy (bb, b_id :: bt)
                  (alLookup_mem hgbv) b_id (List.mem_cons_self _ _)
                obtain ⟨so, hso, hssd, hsprice⟩ := hInv.bucket_orders_sell (ba, s_id :: st)
                  (alLookup_mem hgsv) s_id (List.mem_cons_self _ _)
                have hbs : b_id ≠ s_id := by
                  rintro rfl
                  rw [hbo] at hso
                  obtain rfl : bo = so := by injection hso
                  rw [hbsd] at hssd
                  cases hssd
                rw [matchIter_trade_eq hbb hba hlt hgbv hgsv hbo hso hbs hbsd hssd] at h
                obtain ⟨h1, h2⟩ := Prod.mk.injEq .. ▸ h
                obtain rfl : tr = ⟨b_id, s_id, so.price, min bo.quantity so.quantity⟩ :=
                  (Option.some.inj h1).symm
                exact ⟨bb, ba, bt, st, bo, so, rfl, rfl, hlt, hgbv, hgsv, hbo, hso,
                  hbsd, hssd, hbprice, hsprice, hbs, rfl, rfl, h2.symm⟩

theorem cancel_eq_buy {S : OrderBook} {i : Nat} {o : Order} (hl : lookupOrder S i = some o)
    (hsd : o.side = Side.buy) :
    cancel_order S i = (true, { S with
      price_levels_buy := bucketRemove S.price_levels_buy o.price i,
      orders := alErase S.orders i }) := by
  simp only [cancel_order, hl, hsd]

theorem cancel_eq_sell {S : OrderBook} {i : Nat} {o : Order} (hl : lookupOrder S i = some o)
    (hsd : o.side = Side.sell) :
    cancel_order S i = (true, { S with
      price_levels_sell := bucketRemove S.price_levels_sell o.price i,
      orders := alErase S.orders i }) := by
  simp only [cancel_order, hl, hsd]

/-- Invariant preservation and the size decrease for one trading
iteration. -/
theorem matchIter_some_inv {s : OrderBook} {tr : Trade} {s2 : OrderBook} (hInv : Inv s)
    (h : matchIter s = (some tr, s2)) :
    Inv s2 ∧ s2.orders.length < s.orders.length := by
  obtain ⟨bb, ba, bt, st, bo, so, hbb, hba, hlt, hlbb, hlba, hbo, hso, hbsd, hssd,
    hbprice, hsprice, hbs, htp, htq, hs2⟩ := matchIter_some_cases hInv h
  have hsb : tr.sell_order_id ≠ tr.buy_order_id := hbs.symm
  have hbo2 : alLookup s.orders tr.buy_order_id = some bo := hbo
  have hso2 : alLookup s.orders tr.sell_order_id = some so := hso
  have hbi : (alLookup s.orders tr.buy_order_id).isSome := by rw [hbo2]; rfl
  -- invariant after the two discovery scans
  have hInvA : Inv { s with
      buy_orders := (scanBest s.orders s.buy_orders).2,
      sell_orders := (scanBest s.orders s.sell_orders).2 } := by
    have h1 := inv_scan_buy hInv
    have h2 := inv_scan_sell h1
    simpa using h2
  -- quantity update of the front buy order
  have hInvB : Inv { s with
      buy_orders := (scanBest s.orders s.buy_orders).2,
      sell_orders := (scanBest s.orders s.sell_orders).2,
      orders := alSet s.orders tr.buy_order_id
        { bo with quantity := bo.quantity - min bo.quantity so.quantity } } := by
    exact inv_set_quantity hInvA
      (show lookupOrder { s with
        buy_orders := (scanBest s.orders s.buy_orders).2,
        sell_orders := (scanBest s.orders s.sell_orders).2 } tr.buy_order_id = some bo from hbo)
  -- quantity update of the front sell order
  have hlookB : lookupOrder { s with
      buy_orders := (scanBest s.orders s.buy_orders).2,
      sell_orders := (scanBest s.orders s.sell_orders).2,
      orders := alSet s.orders tr.buy_order_id
        { bo with quantity := bo.quantity - min bo.quantity so.quantity } }
      tr.sell_order_id = some so := by
    show alLookup (alSet s.orders tr.buy_order_id
      { bo with quantity := bo.quantity - min bo.quantity so.quantity }) tr.sell_order_id =
      some so
    rw [alLookup_alSet_ne hsb, hso2]
  have hInvC : Inv { s with
      buy_orders := (scanBest s.orders s.buy_orders).2,
      sell_orders := (scanBest s.orders s.sell_orders).2,
      orders := alSet (alSet s.orders tr.buy_order_id
          { bo with quantity := bo.quantity - min bo.quantity so.quantity }) tr.sell_order_id
        { so with quantity := so.quantity - min bo.quantity so.quantity } } := by
    exact inv_set_quantity hInvB hlookB
  have hlookCb : lookupOrder { s with
      buy_orders := (scanBest s.orders s.buy_orders).2,
      sell_orders := (scanBest s.orders s.sell_orders).2,
      orders := alSet (alSet s.orders tr.buy_order_id
          { bo with quantity := bo.quantity - min bo.quantity so.quantity }) tr.sell_order_id
        { so with quantity := so.quantity - min bo.quantity so.quantity } }
      tr.buy_order_id =
      some { bo with quantity := bo.quantity - min bo.quantity so.quantity } := by
    show alLookup (alSet (alSet s.orders tr.buy_order_id
        { bo with quantity := bo.quantity - min bo.quantity so.quantity }) tr.sell_order_id
      { so with quantity := so.quantity - min bo.quantity so.quantity }) tr.buy_order_id = _
    rw [alLookup_alSet_ne hbs, alLookup_alSet_self hbi]
  have hlookCs : lookupOrder { s with
      buy_orders := (scanBest s.orders s.buy_orders).2,
      sell_orders := (scanBest s.orders s.sell_orders).2,
      orders := alSet (alSet s.orders tr.buy_order_id
          { bo with quantity := bo.quantity - min bo.quantity so.quantity }) tr.sell_order_id
        { so with quantity := so.quantity - min bo.quantity so.quantity } }
      tr.sell_order_id =
      some { so with quantity := so.quantity - min bo.quantity so.quantity } := by
    show alLookup (alSet (alSet s.orders tr.buy_order_id
        { bo with quantity := bo.quantity - min bo.quantity so.quantity }) tr.sell_order_id
      { so with quantity := so.quantity - min bo.quantity so.quantity }) tr.sell_order_id = _
    rw [alLookup_alSet_self (by rw [show alLookup (alSet s.orders tr.buy_order_id
      { bo with quantity := bo.quantity - min bo.quantity so.quantity }) tr.sell_order_id =
      some so from by rw [alLookup_alSet_ne hsb, hso2]]; rfl)]
  have hzor : bo.quantity - min bo.quantity so.quantity = 0 ∨
      so.quantity - min bo.quantity so.quantity = 0 := by
    rcases min_choice bo.quantity so.quantity with hm | hm
    · left; rw [hm, sub_self]
    · right; rw [hm, sub_self]
  have hlenO2 : (alSet (alSet s.orders tr.buy_order_id
      { bo with quantity := bo.quantity - min bo.quantity so.quantity }) tr.sell_order_id
      { so with quantity := so.quantity - min bo.quantity so.quantity }).length =
      s.orders.length := by
    rw [alSet_length, alSet_length]
  have hsi2 : (alLookup (alSet s.orders tr.buy_order_id
      { bo with quantity := bo.quantity - min bo.quantity so.quantity })
      tr.sell_order_id).isSome := by
    rw [alLookup_alSet_ne hsb, hso2]; rfl
  have hO2bi : (alLookup (alSet (alSet s.orders tr.buy_order_id
      { bo with quantity := bo.quantity - min bo.quantity so.quantity }) tr.sell_order_id
      { so with quantity := so.quantity - min bo.quantity so.quantity })
      tr.buy_order_id).isSome := by
    rw [alLookup_alSet_ne hbs, alLookup_alSet_self hbi]; rfl
  have hO2si : (alLookup (alSet (alSet s.orders tr.buy_order_id
      { bo with quantity := bo.quantity - min bo.quantity so.quantity }) tr.sell_order_id
      { so with quantity := so.quantity - min bo.quantity so.quantity })
      tr.sell_order_id).isSome := by
    rw [alLookup_alSet_self hsi2]; rfl
  have hEsi : (alLookup (alErase (alSet (alSet s.orders tr.buy_order_id
      { bo with quantity := bo.quantity - min bo.quantity so.quantity }) tr.sell_order_id
      { so with quantity := so.quantity - min bo.quantity so.quantity }) tr.buy_order_id)
      tr.sell_order_id).isSome := by
    rw [alLookup_alErase_ne hsb]
    exact hO2si
  by_cases hz1 : bo.quantity - min bo.quantity so.quantity = 0
  · -- the buy order fills to zero and is cancelled
    have hcb := cancel_eq_buy hlookCb (show ({ bo with
      quantity := bo.quantity - min bo.quantity so.quantity } : Order).side = Side.buy from hbsd)
    have hInvD := inv_cancel hInvC tr.buy_order_id
    rw [hcb] at hInvD
    have hlookDs : lookupOrder { s with
        buy_orders := (scanBest s.orders s.buy_orders).2,
        sell_orders := (scanBest s.orders s.sell_orders).2,
        orders := alErase (alSet (alSet s.orders tr.buy_order_id
            { bo with quantity := bo.quantity - min bo.quantity so.quantity }) tr.sell_order_id
          { so with quantity := so.quantity - min bo.quantity so.quantity }) tr.buy_order_id,
        price_levels_buy := bucketRemove s.price_levels_buy
          ({ bo with quantity := bo.quantity - min bo.quantity so.quantity } : Order).price
          tr.buy_order_id }
        tr.sell_order_id =
        some { so with quantity := so.quantity - min bo.quantity so.quantity } := by
      show alLookup (alErase (alSet (alSet s.orders tr.buy_order_id
          { bo with quantity := bo.quantity - min bo.quantity so.quantity }) tr.sell_order_id
        { so with quantity := so.quantity - min bo.quantity so.quantity }) tr.buy_order_id)
        tr.sell_order_id = _
      rw [alLookup_alErase_ne hsb]
      exact hlookCs
    by_cases hz2 : so.quantity - min bo.quantity so.quantity = 0
    · have hcs := cancel_eq_sell hlookDs (show ({ so with
        quantity := so.quantity - min bo.quantity so.quantity } : Order).side = Side.sell
        from hssd)
      have hInvE := inv_cancel hInvD tr.sell_order_id
      rw [hcs] at hInvE
      constructor
      · rw [hs2]
        simp only [if_pos hz1, if_pos hz2]
        exact hInvE
      · rw [hs2]
        simp only [if_pos hz1, if_pos hz2]
        have h1 : (alErase (alSet (alSet s.orders tr.buy_order_id
            { bo with quantity := bo.quantity - min bo.quantity so.quantity }) tr.sell_order_id
            { so with quantity := so.quantity - min bo.quantity so.quantity })
            tr.buy_order_id).length + 1 = s.orders.length := by
          rw [← hlenO2]
          exact alErase_length hO2bi
        have h2 : (alErase (alErase (alSet (alSet s.orders tr.buy_order_id
            { bo with quantity := bo.quantity - min bo.quantity so.quantity }) tr.sell_order_id
            { so with quantity := so.quantity - min bo.quantity so.quantity })
            tr.buy_order_id) tr.sell_order_id).length + 1 =
            (alErase (alSet (alSet s.orders tr.buy_order_id
            { bo with quantity := bo.quantity - min bo.quantity so.quantity }) tr.sell_order_id
            { so with quantity := so.quantity - min bo.quantity so.quantity })
            tr.buy_order_id).length := by
          exact alErase_length hEsi
        omega
    · constructor
      · rw [hs2]
        simp only [if_pos hz1, if_neg hz2]
        exact hInvD
      · rw [hs2]
        simp only [if_pos hz1, if_neg hz2]
        have h1 : (alErase (alSet (alSet s.orders tr.buy_order_id
            { bo with quantity := bo.quantity - min bo.quantity so.quantity }) tr.sell_order_id
            { so with quantity := so.quantity - min bo.quantity so.quantity })
            tr.buy_order_id).length + 1 = s.orders.length := by
          rw [← hlenO2]
          exact alErase_length hO2bi
        omega
  · -- only the sell side fills to zero
    have hz2 : so.quantity - min bo.quantity so.quantity = 0 := hzor.resolve_left hz1
    have hcs := cancel_eq_sell hlookCs (show ({ so with
      quantity := so.quantity - min bo.quantity so.quantity } : Order).side = Side.sell
      from hssd)
    have hInvD := inv_cancel hInvC tr.sell_order_id
    rw [hcs] at hInvD
    constructor
    · rw [hs2]
      simp only [if_neg hz1, if_pos hz2]
      exact hInvD
    · rw [hs2]
      simp only [if_neg hz1, if_pos hz2]
      have h1 : (alErase (alSet (alSet s.orders tr.buy_order_id
          { bo with quantity := bo.quantity - min bo.quantity so.quantity }) tr.sell_order_id
          { so with quantity := so.quantity - min bo.quantity so.quantity })
          tr.sell_order_id).length + 1 = s.orders.length := by
        rw [← hlenO2]
        exact alErase_length hO2si
      omega

theorem matchLoop_acc : ∀ (fuel : Nat) (s : OrderBook) (acc : List Trade),
    matchLoop fuel s acc = (acc ++ (matchLoop fuel s []).1, (matchLoop fuel s []).2) := by
  intro fuel
  induction fuel with
  | zero => intro s acc; simp [matchLoop]
  | succ n ih =>
    intro s acc
    cases hit : matchIter s with
    | mk r s3 =>
      cases r with
      | none => simp [matchLoop, hit]
      | some tr =>
        simp only [matchLoop, hit, List.nil_append]
        rw [ih s3 (acc ++ [tr]), ih s3 [tr]]
        simp

theorem inv_matchLoop : ∀ (fuel : Nat) (s : OrderBook) (acc : List Trade), Inv s →
    Inv (matchLoop fuel s acc).2 := by
  intro fuel
  induction fuel with
  | zero => intro s acc hInv; exact hInv
  | succ n ih =>
    intro s acc hInv
    cases hit : matchIter s with
    | mk r s3 =>
      cases r with
      | none =>
        simp only [matchLoop, hit]
        exact (matchIter_none_spec hInv hit).1
      | some tr =>
        simp only [matchLoop, hit]
        exact ih s3 (acc ++ [tr]) (matchIter_some_inv hInv hit).1

theorem matchLoop_noCross : ∀ (fuel : Nat) (s : OrderBook) (acc : List Trade), Inv s →
    s.orders.length < fuel → noCross (matchLoop fuel s acc).2 := by
  intro fuel
  induction fuel with
  | zero => intro s acc hInv hlen; omega
  | succ n ih =>
    intro s acc hInv hlen
    cases hit : matchIter s with
    | mk r s3 =>
      cases r with
      | none =>
        simp only [matchLoop, hit]
        exact (matchIter_none_spec hInv hit).2.1
      | some tr =>
        simp only [matchLoop, hit]
        obtain ⟨hInv3, hlt3⟩ := matchIter_some_inv hInv hit
        exact ih s3 (acc ++ [tr]) hInv3 (by omega)

theorem inv_match_orders {s : OrderBook} (hInv : Inv s) : Inv (match_orders s).2 :=
  inv_matchLoop (s.orders.length + 1) s [] hInv

theorem match_orders_noCross {s : OrderBook} (hInv : Inv s) : noCross (match_orders s).2 :=
  matchLoop_noCross (s.orders.length + 1) s [] hInv (by omega)

/-- Every reachable book state is well-formed. -/
theorem reachable_inv {s : OrderBook} (hr : Reachable s) : Inv s := by
  induction hr with
  | empty => exact inv_empty
  | add s2 i sd p q _ ih => exact inv_add ih i sd p q
  | cancel s2 i _ ih => exact inv_cancel ih i
  | modify s2 i np nq _ ih => exact inv_modify ih i np nq
  | bestBid s2 _ ih => exact inv_get_best_bid ih
  | bestAsk s2 _ ih => exact inv_get_best_ask ih
  | spread s2 _ ih => exact inv_get_spread ih
  | snapshot s2 d _ ih => exact inv_snapshot ih d
  | runMatch s2 _ ih => exact inv_match_orders ih

/-- Observable post-state facts for one trading iteration: decremented
quantities, removal via the cancellation path for exactly-zero fills
(bucket removal, id-map removal, stale discovery entries remain), and the
evolution of each price bucket. -/
theorem matchIter_some_post {s : OrderBook} {tr : Trade} {s2 : OrderBook} (hInv : Inv s)
    (h : matchIter s = (some tr, s2)) :
    ∃ bb ba bt st bo so,
      (get_best_bid s).1 = some bb ∧
      (get_best_ask (get_best_bid s).2).1 = some ba ∧
      ¬ bb < ba ∧
      alLookup s.price_levels_buy bb = some (tr.buy_order_id :: bt) ∧
      alLookup s.price_levels_sell ba = some (tr.sell_order_id :: st) ∧
      lookupOrder s tr.buy_order_id = some bo ∧
      lookupOrder s tr.sell_order_id = some so ∧
      bo.side = Side.buy ∧ so.side = Side.sell ∧ bo.price = bb ∧ so.price = ba ∧
      tr.buy_order_id ≠ tr.sell_order_id ∧
      tr.price = so.price ∧
      tr.quantity = min bo.quantity so.quantity ∧
      (bo.quantity - tr.quantity = 0 →
        lookupOrder s2 tr.buy_order_id = none ∧
        tr.buy_order_id ∉ joinBuckets s2.price_levels_buy ∧
        tr.buy_order_id ∉ joinBuckets s2.price_levels_sell) ∧
      (bo.quantity - tr.quantity ≠ 0 →
        lookupOrder s2 tr.buy_order_id =
          some { bo with quantity := bo.quantity - tr.quantity } ∧
        tr.buy_order_id ∈ joinBuckets s2.price_levels_buy) ∧
      (so.quantity - tr.quantity = 0 →
        lookupOrder s2 tr.sell_order_id = none ∧
        tr.sell_order_id ∉ joinBuckets s2.price_levels_buy ∧
        tr.sell_order_id ∉ joinBuckets s2.price_levels_sell) ∧
      (so.quantity - tr.quantity ≠ 0 →
        lookupOrder s2 tr.sell_order_id =
          some { so with quantity := so.quantity - tr.quantity } ∧
        tr.sell_order_id ∈ joinBuckets s2.price_levels_sell) ∧
      (∀ e ∈ s.buy_orders, e.2.2 = tr.buy_order_id → e ∈ s2.buy_orders) ∧
      (∀ e ∈ s.sell_orders, e.2.2 = tr.sell_order_id → e ∈ s2.sell_orders) ∧
      (∀ sd p, bucketAt s2 sd p = bucketAt s sd p ∨
        bucketAt s2 sd p = (bucketAt s sd p).erase tr.buy_order_id ∨
        bucketAt s2 sd p = (bucketAt s sd p).erase tr.sell_order_id) := by
  obtain ⟨bb, ba, bt, st, bo, so, hbb, hba, hlt, hlbb, hlba, hbo, hso, hbsd, hssd,
    hbprice, hsprice, hbs, htp, htq, hs2⟩ := matchIter_some_cases hInv h
  have hsb : tr.sell_order_id ≠ tr.buy_order_id := hbs.symm
  have hbo2 : alLookup s.orders tr.buy_order_id = some bo := hbo
  have hso2 : alLookup s.orders tr.sell_order_id = some so := hso
  have hbi : (alLookup s.orders tr.buy_order_id).isSome := by rw [hbo2]; rfl
  have hsi : (alLookup s.orders tr.sell_order_id).isSome := by rw [hso2]; rfl
  have hO2nd : ((alSet (alSet s.orders tr.buy_order_id
      { bo with quantity := bo.quantity - min bo.quantity so.quantity }) tr.sell_order_id
      { so with quantity := so.quantity - min bo.quantity so.quantity }).map Prod.fst).Nodup := by
    rw [alSet_map_fst, alSet_map_fst]
    exact hInv.orders_nodup
  have hO2b : alLookup (alSet (alSet s.orders tr.buy_order_id
      { bo with quantity := bo.quantity - min bo.quantity so.quantity }) tr.sell_order_id
      { so with quantity := so.quantity - min bo.quantity so.quantity }) tr.buy_order_id =
      some { bo with quantity := bo.quantity - min bo.quantity so.quantity } := by
    rw [alLookup_alSet_ne hbs, alLookup_alSet_self hbi]
  have hO2s : alLookup (alSet (alSet s.orders tr.buy_order_id
      { bo with quantity := bo.quantity - min bo.quantity so.quantity }) tr.sell_order_id
      { so with quantity := so.quantity - min bo.quantity so.quantity }) tr.sell_order_id =
      some { so with quantity := so.quantity - min bo.quantity so.quantity } := by
    rw [alLookup_alSet_self (by rw [alLookup_alSet_ne hsb, hso2]; rfl)]
  have hbnotsell : tr.buy_order_id ∉ joinBuckets s.price_levels_sell := by
    intro hmem
    obtain ⟨pl, hpl, hipl⟩ := mem_joinBuckets.mp hmem
    obtain ⟨o2, hl2, hside2, -⟩ := hInv.bucket_orders_sell pl hpl _ hipl
    rw [hbo] at hl2
    obtain rfl : bo = o2 := by injection hl2
    rw [hbsd] at hside2
    cases hside2
  have hsnotbuy : tr.sell_order_id ∉ joinBuckets s.price_levels_buy := by
    intro hmem
    obtain ⟨pl, hpl, hipl⟩ := mem_joinBuckets.mp hmem
    obtain ⟨o2, hl2, hside2, -⟩ := hInv.bucket_orders_buy pl hpl _ hipl
    rw [hso] at hl2
    obtain rfl : so = o2 := by injection hl2
    rw [hssd] at hside2
    cases hside2
  have hbmem : tr.buy_order_id ∈ joinBuckets s.price_levels_buy :=
    mem_joinBuckets.mpr ⟨(bb, tr.buy_order_id :: bt), alLookup_mem hlbb, List.mem_cons_self _ _⟩
  have hsmem : tr.sell_order_id ∈ joinBuckets s.price_levels_sell :=
    mem_joinBuckets.mpr ⟨(ba, tr.sell_order_id :: st), alLookup_mem hlba, List.mem_cons_self _ _⟩
  have hbnotrem : tr.buy_order_id ∉
      joinBuckets (bucketRemove s.price_levels_buy bo.price tr.buy_order_id) := by
    have hv : alLookup s.price_levels_buy bo.price = some (tr.buy_order_id :: bt) := by
      rw [hbprice]; exact hlbb
    exact bucketRemove_not_mem_join hInv.ids_nodup_buy hv (List.mem_cons_self _ _)
  have hsnotrem : tr.sell_order_id ∉
      joinBuckets (bucketRemove s.price_levels_sell so.price tr.sell_order_id) := by
    have hv : alLookup s.price_levels_sell so.price = some (tr.sell_order_id :: st) := by
      rw [hsprice]; exact hlba
    exact bucketRemove_not_mem_join hInv.ids_nodup_sell hv (List.mem_cons_self _ _)
  refine ⟨bb, ba, bt, st, bo, so, hbb, hba, hlt, hlbb, hlba, hbo, hso, hbsd, hssd,
    hbprice, hsprice, hbs, htp, htq, ?_, ?_, ?_, ?_, ?_, ?_, ?_⟩
  · -- buy order filled to zero: removed everywhere
    intro hz1
    rw [htq] at hz1
    rw [hs2]
    simp only [if_pos hz1]
    by_cases hz2 : so.quantity - min bo.quantity so.quantity = 0
    · refine ⟨?_, ?_, ?_⟩
      · simp only [lookupOrder_mk, if_pos hz2]
        rw [alLookup_alErase_ne hbs, alLookup_alErase_self hO2nd]
      · show tr.buy_order_id ∉ joinBuckets (bucketRemove s.price_levels_buy bo.price
          tr.buy_order_id)
        exact hbnotrem
      · show tr.buy_order_id ∉ joinBuckets (if so.quantity - min bo.quantity so.quantity = 0
          then bucketRemove s.price_levels_sell so.price tr.sell_order_id
          else s.price_levels_sell)
        rw [if_pos hz2]
        intro hmem
        exact hbnotsell (joinBuckets_bucketRemove_sublist.mem hmem)
    · refine ⟨?_, ?_, ?_⟩
      · show alLookup (if so.quantity - min bo.quantity so.quantity = 0 then _ else _)
          tr.buy_order_id = none
        rw [if_neg hz2]
        exact alLookup_alErase_self hO2nd
      · exact hbnotrem
      · show tr.buy_order_id ∉ joinBuckets (if so.quantity - min bo.quantity so.quantity = 0
          then bucketRemove s.price_levels_sell so.price tr.sell_order_id
          else s.price_levels_sell)
        rw [if_neg hz2]
        exact hbnotsell
  · -- buy order partially filled: still resting with the decremented quantity
    intro hz1
    rw [htq] at hz1
    rw [hs2, htq]
    simp only [if_neg hz1]
    by_cases hz2 : so.quantity - min bo.quantity so.quantity = 0
    · refine ⟨?_, ?_⟩
      · simp only [lookupOrder_mk, if_pos hz2]
        rw [alLookup_alErase_ne hbs]
        exact hO2b
      · exact hbmem
    · refine ⟨?_, ?_⟩
      · show alLookup (if so.quantity - min bo.quantity so.quantity = 0 then _ else _)
          tr.buy_order_id = _
        rw [if_neg hz2]
        exact hO2b
      · exact hbmem
  · -- sell order filled to zero
    intro hz2
    rw [htq] at hz2
    rw [hs2]
    simp only [if_pos hz2]
    refine ⟨?_, ?_, ?_⟩
    · show alLookup (alErase _ tr.sell_order_id) tr.sell_order_id = none
      refine alLookup_alErase_self ?_
      by_cases hz1 : bo.quantity - min bo.quantity so.quantity = 0
      · rw [if_pos hz1, alErase_map_fst]
        exact hO2nd.erase _
      · rw [if_neg hz1]
        exact hO2nd
    · show tr.sell_order_id ∉ joinBuckets (if bo.quantity - min bo.quantity so.quantity = 0
        then bucketRemove s.price_levels_buy bo.price tr.buy_order_id
        else s.price_levels_buy)
      by_cases hz1 : bo.quantity - min bo.quantity so.quantity = 0
      · rw [if_pos hz1]
        intro hmem
        exact hsnotbuy (joinBuckets_bucketRemove_sublist.mem hmem)
      · rw [if_neg hz1]
        exact hsnotbuy
    · exact hsnotrem
  · -- sell order partially filled
    intro hz2
    rw [htq] at hz2
    rw [hs2, htq]
    simp only [if_neg hz2]
    refine ⟨?_, ?_⟩
    · show alLookup (if bo.quantity - min bo.quantity so.quantity = 0 then _ else _)
        tr.sell_order_id = _
      by_cases hz1 : bo.quantity - min bo.quantity so.quantity = 0
      · rw [if_pos hz1, alLookup_alErase_ne hsb]
        exact hO2s
      · rw [if_neg hz1]
        exact hO2s
    · exact hsmem
  · -- stale buy discovery entries survive
    intro e he hei
    rw [hs2]
    show e ∈ (scanBest s.orders s.buy_orders).2
    refine mem_scanBest_of_live he ?_
    rw [hei]
    exact hbi
  · -- stale sell discovery entries survive
    intro e he hei
    rw [hs2]
    show e ∈ (scanBest s.orders s.sell_orders).2
    refine mem_scanBest_of_live he ?_
    rw [hei]
    exact hsi
  · -- bucket evolution
    intro sd p
    rw [hs2]
    cases sd with
    | buy =>
      by_cases hz1 : bo.quantity - min bo.quantity so.quantity = 0
      · by_cases hp : p = bo.price
        · subst hp
          refine Or.inr (Or.inl ?_)
          show (alLookup (if bo.quantity - min bo.quantity so.quantity = 0 then _ else _)
            bo.price).getD [] = _
          rw [if_pos hz1]
          exact getD_alLookup_bucketRemove_self hInv.keys_nodup_buy
        · refine Or.inl ?_
          show (alLookup (if bo.quantity - min bo.quantity so.quantity = 0 then _ else _)
            p).getD [] = _
          rw [if_pos hz1, alLookup_bucketRemove_ne hp]
          rfl
      · refine Or.inl ?_
        show (alLookup (if bo.quantity - min bo.quantity so.quantity = 0 then _ else _)
          p).getD [] = _
        rw [if_neg hz1]
        rfl
    | sell =>
      by_cases hz2 : so.quantity - min bo.quantity so.quantity = 0
      · by_cases hp : p = so.price
        · subst hp
          refine Or.inr (Or.inr ?_)
          show (alLookup (if so.quantity - min bo.quantity so.quantity = 0 then _ else _)
            so.price).getD [] = _
          rw [if_pos hz2]
          exact getD_alLookup_bucketRemove_self hInv.keys_nodup_sell
        · refine Or.inl ?_
          show (alLookup (if so.quantity - min bo.quantity so.quantity = 0 then _ else _)
            p).getD [] = _
          rw [if_pos hz2, alLookup_bucketRemove_ne hp]
          rfl
      · refine Or.inl ?_
        show (alLookup (if so.quantity - min bo.quantity so.quantity = 0 then _ else _)
          p).getD [] = _
        rw [if_neg hz2]
        rfl

/-! ## FIFO time priority within a price level -/

theorem sublist_erase_of_not_mem {α : Type} [DecidableEq α] :
    ∀ {l sub : List α} {x : α}, List.Sublist sub l → x ∉ sub →
      List.Sublist sub (l.erase x) := by
  intro l
  induction l with
  | nil =>
    intro sub x h hx
    rw [List.sublist_nil.mp h]
    simp
  | cons c rest ih =>
    intro sub x h hx
    cases h with
    | cons _ h2 =>
      by_cases hc : c = x
      · subst hc
        rw [List.erase_cons_head]
        exact h2
      · rw [List.erase_cons_tail (by simpa using hc)]
        exact List.Sublist.cons c (ih h2 hx)
    | cons₂ _ h2 =>
      have hcx : c ≠ x := by
        rintro rfl
        exact hx (List.mem_cons_self _ _)
      rw [List.erase_cons_tail (by simpa using hcx)]
      exact List.Sublist.cons₂ c (ih h2 (fun hm => hx (List.mem_cons_of_mem _ hm)))

theorem bucket_nodup {L : List (Rat × List Nat)} (hnd : (joinBuckets L).Nodup)
    {pl : Rat × List Nat} (hpl : pl ∈ L) : pl.2.Nodup := by
  induction L with
  | nil => simp at hpl
  | cons pl0 rest ih =>
    obtain ⟨p0, v0⟩ := pl0
    simp only [joinBuckets, List.nodup_append] at hnd
    rcases List.mem_cons.mp hpl with rfl | hpl
    · exact hnd.1
    · exact ih hnd.2.1 hpl

theorem join_nodup_unique {L : List (Rat × List Nat)} (hnd : (joinBuckets L).Nodup)
    {p1 p2 : Rat} {v1 v2 : List Nat} {x : Nat} (h1 : (p1, v1) ∈ L) (h2 : (p2, v2) ∈ L)
    (hx1 : x ∈ v1) (hx2 : x ∈ v2) : p1 = p2 ∧ v1 = v2 := by
  induction L with
  | nil => simp at h1
  | cons pl0 rest ih =>
    obtain ⟨p0, v0⟩ := pl0
    simp only [joinBuckets, List.nodup_append] at hnd
    rcases List.mem_cons.mp h1 with he1 | h1 <;> rcases List.mem_cons.mp h2 with he2 | h2
    · obtain ⟨hp1, hv1⟩ := Prod.mk.injEq .. ▸ he1
      obtain ⟨hp2, hv2⟩ := Prod.mk.injEq .. ▸ he2
      exact ⟨hp1.trans hp2.symm, hv1.trans hv2.symm⟩
    · obtain ⟨hp1, hv1⟩ := Prod.mk.injEq .. ▸ he1
      have hx0 : x ∈ v0 := hv1 ▸ hx1
      have hxr : x ∈ joinBuckets rest := mem_joinBuckets.mpr ⟨(p2, v2), h2, hx2⟩
      exact absurd hxr (fun hm => hnd.2.2 hx0 hm)
    · obtain ⟨hp2, hv2⟩ := Prod.mk.injEq .. ▸ he2
      have hx0 : x ∈ v0 := hv2 ▸ hx2
      have hxr : x ∈ joinBuckets rest := mem_joinBuckets.mpr ⟨(p1, v1), h1, hx1⟩
      exact absurd hxr (fun hm => hnd.2.2 hx0 hm)
    · exact ih hnd.2.1 h1 h2

/-- The ids resting in a bucket all carry that bucket's side and price. -/
theorem bucketAt_orders {s : OrderBook} (hInv : Inv s) {sd : Side} {p : Rat} {i : Nat}
    (hi : i ∈ bucketAt s sd p) :
    ∃ o, lookupOrder s i = some o ∧ o.side = sd ∧ o.price = p := by
  unfold bucketAt at hi
  cases hv : alLookup (ledgerOf s sd) p with
  | none => rw [hv] at hi; simp at hi
  | some v =>
    rw [hv] at hi
    simp only [Option.getD_some] at hi
    cases sd with
    | buy => exact hInv.bucket_orders_buy (p, v) (alLookup_mem hv) i hi
    | sell => exact hInv.bucket_orders_sell (p, v) (alLookup_mem hv) i hi

/-- The central FIFO lemma for the matching loop: while an earlier order
`A` sits in front of `B` in their shared price bucket, no trade can
involve `B` on that side; hence every trade with party `B` is preceded in
the returned trade list by a trade with party `A`. -/
theorem matchLoop_fifo : ∀ (fuel : Nat) (s : OrderBook) (sd : Side) (p : Rat) (A B : Nat),
    Inv s → A ≠ B → List.Sublist [A, B] (bucketAt s sd p) →
    ∀ j tr_j, (matchLoop fuel s []).1.get? j = some tr_j → sideParty tr_j sd = B →
    ∃ i tr_i, i < j ∧ (matchLoop fuel s []).1.get? i = some tr_i ∧ sideParty tr_i sd = A := by
  intro fuel
  induction fuel with
  | zero =>
    intro s sd p A B hInv hne hAB j tr_j hj hB
    simp [matchLoop] at hj
  | succ n ih =>
    intro s sd p A B hInv hne hAB j tr_j hj hB
    have hAmem : A ∈ bucketAt s sd p := hAB.mem (List.mem_cons_self _ _)
    have hBmem : B ∈ bucketAt s sd p :=
      hAB.mem (List.mem_cons_of_mem _ (List.mem_cons_self _ _))
    obtain ⟨oA, hoA, hoAside, hoAprice⟩ := bucketAt_orders hInv hAmem
    obtain ⟨oB, hoB, hoBside, hoBprice⟩ := bucketAt_orders hInv hBmem
    have hbump : alLookup (ledgerOf s sd) p ≠ none := by
      intro hnone
      unfold bucketAt at hAmem
      rw [hnone] at hAmem
      simp at hAmem
    cases hit : matchIter s with
    | mk r s3 =>
      cases r with
      | none =>
        simp only [matchLoop, hit] at hj
        simp at hj
      | some tr =>
        obtain ⟨bb, ba, bt, st, bo, so, hbb2, hba2, hlt2, hlbb, hlba, hbo, hso, hbsd, hssd,
          hbprice, hsprice, hbs2, -, -, -, -, -, -, -, -, hevol⟩ :=
          matchIter_some_post hInv hit
        have hInv3 : Inv s3 := (matchIter_some_inv hInv hit).1
        -- the traded party on side `sd` is the head of its own bucket, so it
        -- cannot be `B` while `A` is in front of `B`
        have hnotB : sideParty tr sd ≠ B := by
          intro hPB
          cases sd with
          | buy =>
            have hBbid : tr.buy_order_id = B := hPB
            rw [hBbid] at hlbb
            have hvB : alLookup (ledgerOf s Side.buy) p = some (bucketAt s Side.buy p) := by
              unfold bucketAt
              cases hv : alLookup (ledgerOf s Side.buy) p with
              | none => exact absurd hv hbump
              | some v => simp
            have huniq := join_nodup_unique hInv.ids_nodup_buy
              (alLookup_mem hlbb) (alLookup_mem hvB) (List.mem_cons_self _ _)
              (show B ∈ bucketAt s Side.buy p from hBmem)
            have hbkeq : (B :: bt) = bucketAt s Side.buy p := huniq.2
            have hnodup : (B :: bt).Nodup :=
              bucket_nodup hInv.ids_nodup_buy (alLookup_mem hlbb)
            rw [← hbkeq] at hAB
            cases hAB with
            | cons₂ _ h2 => exact hne rfl
            | cons _ h2 =>
              have hBbt : B ∈ bt := h2.mem (List.mem_cons_of_mem _ (List.mem_cons_self _ _))
              simp at hnodup
              exact hnodup.1 hBbt
          | sell =>
            have hBask : tr.sell_order_id = B := hPB
            rw [hBask] at hlba
            have hvB : alLookup (ledgerOf s Side.sell) p = some (bucketAt s Side.sell p) := by
              unfold bucketAt
              cases hv : alLookup (ledgerOf s Side.sell) p with
              | none => exact absurd hv hbump
              | some v => simp
            have huniq := join_nodup_unique hInv.ids_nodup_sell
              (alLookup_mem hlba) (alLookup_mem hvB) (List.mem_cons_self _ _)
              (show B ∈ bucketAt s Side.sell p from hBmem)
            have hbkeq : (B :: st) = bucketAt s Side.sell p := huniq.2
            have hnodup : (B :: st).Nodup :=
              bucket_nodup hInv.ids_nodup_sell (alLookup_mem hlba)
            rw [← hbkeq] at hAB
            cases hAB with
            | cons₂ _ h2 => exact hne rfl
            | cons _ h2 =>
              have hBst : B ∈ st := h2.mem (List.mem_cons_of_mem _ (List.mem_cons_self _ _))
              simp at hnodup
              exact hnodup.1 hBst
        -- shape of the trade list
        have hshape : (matchLoop (Nat.succ n) s []).1 = tr :: (matchLoop n s3 []).1 := by
          simp only [matchLoop, hit, List.nil_append]
          rw [matchLoop_acc n s3 [tr]]
          simp
        rw [hshape] at hj
        by_cases hA : sideParty tr sd = A
        · cases j with
          | zero =>
            simp at hj
            rw [← hj] at hB
            rw [hB] at hA
            exact absurd hA.symm hne
          | succ j0 =>
            exact ⟨0, tr, by omega, by rw [hshape]; rfl, hA⟩
        · -- the traded parties differ from both A and B, so their bucket
          -- position survives into the next iteration
          have hcross_buy : tr.buy_order_id ≠ A ∧ tr.buy_order_id ≠ B → True := fun _ => trivial
          have hAB3 : List.Sublist [A, B] (bucketAt s3 sd p) := by
            rcases hevol sd p with hevo | hevo | hevo
            · rw [hevo]; exact hAB
            · rw [hevo]
              refine sublist_erase_of_not_mem hAB ?_
              intro hmem
              simp only [List.mem_cons, List.mem_singleton] at hmem
              cases sd with
              | buy =>
                rcases hmem with rfl | hmem
                · exact hA rfl
                · rcases hmem with rfl | hmem
                  · exact hnotB rfl
                  · simp at hmem
              | sell =>
                -- on the sell side the erased buy id cannot rest in a sell bucket
                rcases hmem with rfl | hmem
                · rw [hoA] at hbo
                  obtain rfl : oA = bo := by injection hbo
                  rw [hoAside] at hbsd
                  cases hbsd
                · rcases hmem with rfl | hmem
                  · rw [hoB] at hbo
                    obtain rfl : oB = bo := by injection hbo
                    rw [hoBside] at hbsd
                    cases hbsd
                  · simp at hmem
            · rw [hevo]
              refine sublist_erase_of_not_mem hAB ?_
              intro hmem
              simp only [List.mem_cons, List.mem_singleton] at hmem
              cases sd with
              | buy =>
                rcases hmem with rfl | hmem
                · rw [hoA] at hso
                  obtain rfl : oA = so := by injection hso
                  rw [hoAside] at hssd
                  cases hssd
                · rcases hmem with rfl | hmem
                  · rw [hoB] at hso
                    obtain rfl : oB = so := by injection hso
                    rw [hoBside] at hssd
                    cases hssd
                  · simp at hmem
              | sell =>
                rcases hmem with rfl | hmem
                · exact hA rfl
                · rcases hmem with rfl | hmem
                  · exact hnotB rfl
                  · simp at hmem
          cases j with
          | zero =>
            simp at hj
            rw [← hj] at hB
            exact absurd hB hnotB
          | succ j0 =>
            simp only [List.get?_cons_succ] at hj
            obtain ⟨i0, tr_i, hi0, hgi, hpi⟩ :=
              ih s3 sd p A B hInv3 hne hAB3 j0 tr_j hj hB
            refine ⟨i0 + 1, tr_i, by omega, ?_, hpi⟩
            rw [hshape]
            simpa using hgi

/-! ## Snapshot content -/

/-- Under the invariant, the aggregated quantity of the bucket at a price
equals the total quantity of the resting orders of that side whose `price`
field is that price (both are `0` when the price has no bucket). -/
theorem levelTotal_eq_restingTotal {s : OrderBook} (hInv : Inv s) (sd : Side) (p : Rat) :
    levelTotal s.orders (ledgerOf s sd) p = restingTotal s sd p := by
  have hind : (joinBuckets (ledgerOf s sd)).Nodup := by
    cases sd with
    | buy => exact hInv.ids_nodup_buy
    | sell => exact hInv.ids_nodup_sell
  cases hv : alLookup (ledgerOf s sd) p with
  | none =>
    have hfilt : s.orders.filter
        (fun kv => decide (kv.2.side = sd) && decide (kv.2.price = p)) = [] := by
      rw [List.filter_eq_nil_iff]
      intro kv hkv hpred
      simp only [Bool.and_eq_true, decide_eq_true_eq] at hpred
      have hl : lookupOrder s kv.1 = some kv.2 := mem_alLookup hInv.orders_nodup hkv
      obtain ⟨v2, hv2, -⟩ := resting_bucket_lookup hInv hl
      rw [hpred.1, hpred.2, hv] at hv2
      cases hv2
    unfold levelTotal restingTotal bucketTotal
    rw [hv, hfilt]
    simp
  | some v =>
    have hvnd : v.Nodup := bucket_nodup hind (alLookup_mem hv)
    have hfnd : ((s.orders.filter
        (fun kv => decide (kv.2.side = sd) && decide (kv.2.price = p))).map Prod.fst).Nodup :=
      List.Nodup.sublist (List.Sublist.map Prod.fst (List.filter_sublist s.orders))
        hInv.orders_nodup
    have hmemiff : ∀ j : Nat, j ∈ v ↔ j ∈ (s.orders.filter
        (fun kv => decide (kv.2.side = sd) && decide (kv.2.price = p))).map Prod.fst := by
      intro j
      constructor
      · intro hj
        have hbo : ∃ o, lookupOrder s j = some o ∧ o.side = sd ∧ o.price = p := by
          cases sd with
          | buy => exact hInv.bucket_orders_buy (p, v) (alLookup_mem hv) j hj
          | sell => exact hInv.bucket_orders_sell (p, v) (alLookup_mem hv) j hj
        obtain ⟨o, ho, hos, hop⟩ := hbo
        refine List.mem_map.mpr ⟨(j, o), List.mem_filter.mpr ⟨alLookup_mem ho, ?_⟩, rfl⟩
        simp [hos, hop]
      · intro hj
        obtain ⟨kv, hkv, hfst⟩ := List.mem_map.mp hj
        rw [List.mem_filter] at hkv
        obtain ⟨hkvmem, hpred⟩ := hkv
        simp only [Bool.and_eq_true, decide_eq_true_eq] at hpred
        have hl : lookupOrder s kv.1 = some kv.2 := mem_alLookup hInv.orders_nodup hkvmem
        obtain ⟨v2, hv2, hjv2⟩ := resting_bucket_lookup hInv hl
        rw [hpred.1, hpred.2, hv] at hv2
        obtain rfl : v = v2 := Option.some.inj hv2
        rw [← hfst]
        exact hjv2
    have hperm : List.Perm v ((s.orders.filter
        (fun kv => decide (kv.2.side = sd) && decide (kv.2.price = p))).map Prod.fst) :=
      (List.perm_ext_iff_of_nodup hvnd hfnd).mpr hmemiff
    unfold levelTotal restingTotal bucketTotal
    rw [hv]
    simp only [Option.getD_some]
    rw [List.Perm.sum_eq (List.Perm.map (qtyOf s.orders) hperm), List.map_map]
    refine congrArg List.sum (List.map_congr_left ?_)
    intro kv hkv
    rw [List.mem_filter] at hkv
    have hl : alLookup s.orders kv.1 = some kv.2 := mem_alLookup hInv.orders_nodup hkv.1
    simp [Function.comp, qtyOf, hl]

/-- The snapshot accumulation loop: the result has at most `depth` levels,
its prices are strictly ordered best-to-worst, and every level beyond the
initial accumulator reports the aggregated quantity of the original ledger
at a price discovered through a live heap entry. -/
theorem snapLoop_spec (orders : List (Nat × Order)) (neg : Bool) (depth : Nat)
    (H0 : List HeapEntry) (L0 : List (Rat × List Nat)) :
    ∀ (temp : List HeapEntry) (seen : List Rat) (acc : List (Rat × Int))
      (L : List (Rat × List Nat)),
      temp.Sorted entryLe →
      (∀ e ∈ temp, e ∈ H0) →
      (∀ q ∈ acc.map Prod.fst, ∀ e ∈ temp,
        (if neg then -e.1 ≤ q else q ≤ e.1)) →
      (acc.map Prod.fst).Pairwise (fun a b => if neg then b < a else a < b) →
      (∀ q : Rat, q ∈ seen ↔ q ∈ acc.map Prod.fst) →
      acc.length ≤ depth →
      (∀ q : Rat, (alLookup L q).getD [] = (alLookup L0 q).getD []) →
      (snapLoop orders neg depth temp seen acc L).1.length ≤ depth ∧
      ((snapLoop orders neg depth temp seen acc L).1.map Prod.fst).Pairwise
        (fun a b => if neg then b < a else a < b) ∧
      (∀ pq ∈ (snapLoop orders neg depth temp seen acc L).1,
        pq ∈ acc ∨
        (pq.2 = levelTotal orders L0 pq.1 ∧
          ∃ e ∈ H0, (if neg then -e.1 else e.1) = pq.1 ∧ (alLookup orders e.2.2).isSome)) := by
  intro temp
  induction temp with
  | nil =>
    intro seen acc L hsort hsub hbound hpair hseen hlen hL
    exact ⟨hlen, hpair, fun pq hpq => Or.inl hpq⟩
  | cons e rest ih =>
    intro seen acc L hsort hsub hbound hpair hseen hlen hL
    obtain ⟨k, t, i⟩ := e
    by_cases hd : depth ≤ acc.length
    · simp only [snapLoop, if_pos hd]
      exact ⟨hlen, hpair, fun pq hpq => Or.inl hpq⟩
    · have hsort2 : rest.Sorted entryLe := (List.sorted_cons.mp hsort).2
      have hsub2 : ∀ e ∈ rest, e ∈ H0 := fun e he => hsub e (List.mem_cons_of_mem _ he)
      have hbound2 : ∀ q ∈ acc.map Prod.fst, ∀ e ∈ rest,
          (if neg then -e.1 ≤ q else q ≤ e.1) :=
        fun q hq e he => hbound q hq e (List.mem_cons_of_mem _ he)
      by_cases hseenp : (if neg then -k else k) ∈ seen
      · simp only [snapLoop, if_neg hd, if_pos hseenp]
        exact ih seen acc L hsort2 hsub2 hbound2 hpair hseen hlen hL
      · by_cases hlive : (alLookup orders i).isSome
        · simp only [snapLoop, if_neg hd, if_neg hseenp, if_pos hlive]
          have hk_le : ∀ e ∈ rest, k ≤ e.1 := by
            intro e he
            rcases (List.sorted_cons.mp hsort).1 e he with h | ⟨h, -⟩
            · exact le_of_lt h
            · exact le_of_eq h
          have hboundN : ∀ q ∈ (acc ++ [((if neg then -k else k),
                bucketTotal orders (ddGet L (if neg then -k else k)).1)]).map Prod.fst,
              ∀ e ∈ rest, (if neg then -e.1 ≤ q else q ≤ e.1) := by
            intro q hq e he
            rw [List.map_append, List.mem_append] at hq
            rcases hq with hq | hq
            · exact hbound2 q hq e he
            · simp only [List.map_cons, List.map_nil, List.mem_singleton] at hq
              subst hq
              cases neg with
              | false => simpa using hk_le e he
              | true => simpa using neg_le_neg (hk_le e he)
          have hpairN : ((acc ++ [((if neg then -k else k),
                bucketTotal orders (ddGet L (if neg then -k else k)).1)]).map
                  Prod.fst).Pairwise (fun a b => if neg then b < a else a < b) := by
            rw [List.map_append, List.pairwise_append]
            refine ⟨hpair, by simp, ?_⟩
            intro a ha b hb
            simp only [List.map_cons, List.map_nil, List.mem_singleton] at hb
            subst hb
            have hle := hbound a ha (k, t, i) (List.mem_cons_self _ _)
            have hne : a ≠ (if neg then -k else k) := by
              intro heq
              exact hseenp (heq ▸ (hseen a).mpr ha)
            cases neg with
            | false =>
              simp only [if_neg (by simp : ¬ (false = true))] at hle ⊢
              exact lt_of_le_of_ne hle hne
            | true =>
              simp only [if_pos rfl] at hle ⊢
              exact lt_of_le_of_ne hle (Ne.symm hne)
          have hseenN : ∀ q : Rat, q ∈ (if neg then -k else k) :: seen ↔
              q ∈ (acc ++ [((if neg then -k else k),
                bucketTotal orders (ddGet L (if neg then -k else k)).1)]).map Prod.fst := by
            intro q
            rw [List.map_append, List.mem_append]
            simp only [List.mem_cons, List.map_cons, List.map_nil, List.mem_singleton]
            rw [hseen q]
            tauto
          have hlenN : (acc ++ [((if neg then -k else k),
              bucketTotal orders (ddGet L (if neg then -k else k)).1)]).length ≤ depth := by
            rw [List.length_append]
            simp only [List.length_singleton]
            omega
          have hLN : ∀ q : Rat,
              (alLookup (ddGet L (if neg then -k else k)).2 q).getD [] =
                (alLookup L0 q).getD [] :=
            fun q => getD_alLookup_ddGet.trans (hL q)
          obtain ⟨r1, r2, r3⟩ := ih ((if neg then -k else k) :: seen)
            (acc ++ [((if neg then -k else k),
              bucketTotal orders (ddGet L (if neg then -k else k)).1)])
            (ddGet L (if neg then -k else k)).2
            hsort2 hsub2 hboundN hpairN hseenN hlenN hLN
          refine ⟨r1, r2, ?_⟩
          intro pq hpq
          rcases r3 pq hpq with hpq2 | hpq2
          · rw [List.mem_append] at hpq2
            rcases hpq2 with hpq2 | hpq2
            · exact Or.inl hpq2
            · simp only [List.mem_singleton] at hpq2
              subst hpq2
              refine Or.inr ⟨?_, (k, t, i), hsub _ (List.mem_cons_self _ _), rfl, hlive⟩
              show bucketTotal orders (ddGet L (if neg then -k else k)).1 =
                levelTotal orders L0 (if neg then -k else k)
              rw [ddGet_fst, hL]
              rfl
          · exact Or.inr hpq2
        · simp only [snapLoop, if_neg hd, if_neg hseenp, if_neg hlive]
          exact ih seen acc L hsort2 hsub2 hbound2 hpair hseen hlen hL

/-! ## Observable effects of add and modify -/

/-- A successful `add_order` reports success, inserts the new order record
into the id-map, appends the id at the back of its price bucket and pushes
one discovery entry onto its side's heap. -/
theorem add_order_effect {s : OrderBook} {i : Nat} (sd : Side) (p : Rat) (q : Int)
    (h : lookupOrder s i = none) :
    (add_order s i sd p q).1 = true ∧
    lookupOrder (add_order s i sd p q).2 i =
      some { order_id := i, side := sd, price := p, quantity := q, timestamp := s.next_ts } ∧
    bucketAt (add_order s i sd p q).2 sd p = bucketAt s sd p ++ [i] ∧
    heapOf (add_order s i sd p q).2 sd =
      heapPush (heapOf s sd) ((if sd = Side.buy then -p else p), s.next_ts, i) := by
  cases sd with
  | buy =>
    simp only [add_order, h]
    refine ⟨trivial, ?_, ?_, rfl⟩
    · show alLookup (s.orders ++ [(i, (⟨i, Side.buy, p, q, s.next_ts⟩ : Order))]) i =
        some ⟨i, Side.buy, p, q, s.next_ts⟩
      rw [alLookup_append_none h]
      simp [alLookup]
    · show (alLookup (ddAppend s.price_levels_buy p i) p).getD [] =
        (alLookup s.price_levels_buy p).getD [] ++ [i]
      rw [alLookup_ddAppend_self]
      rfl
  | sell =>
    simp only [add_order, h]
    refine ⟨trivial, ?_, ?_, rfl⟩
    · show alLookup (s.orders ++ [(i, (⟨i, Side.sell, p, q, s.next_ts⟩ : Order))]) i =
        some ⟨i, Side.sell, p, q, s.next_ts⟩
      rw [alLookup_append_none h]
      simp [alLookup]
    · show (alLookup (ddAppend s.price_levels_sell p i) p).getD [] =
        (alLookup s.price_levels_sell p).getD [] ++ [i]
      rw [alLookup_ddAppend_self]
      rfl

/-- A quantity-only amend of a resting order reports success, overwrites
the order's quantity in place and leaves both price ledgers, both heaps
and every other order untouched. -/
theorem modify_qty_effect {s : OrderBook} {i : Nat} {o : Order} (nq : Int)
    (hl : lookupOrder s i = some o) :
    (modify_order s i none (some nq)).1 = true ∧
    (modify_order s i none (some nq)).2.price_levels_buy = s.price_levels_buy ∧
    (modify_order s i none (some nq)).2.price_levels_sell = s.price_levels_sell ∧
    (modify_order s i none (some nq)).2.buy_orders = s.buy_orders ∧
    (modify_order s i none (some nq)).2.sell_orders = s.sell_orders ∧
    lookupOrder (modify_order s i none (some nq)).2 i = some { o with quantity := nq } ∧
    (∀ j, j ≠ i → lookupOrder (modify_order s i none (some nq)).2 j = lookupOrder s j) := by
  have hisome : (alLookup s.orders i).isSome := by
    rw [show alLookup s.orders i = lookupOrder s i from rfl, hl]; rfl
  simp only [modify_order, hl]
  refine ⟨trivial, trivial, trivial, trivial, trivial, ?_, ?_⟩
  · simpa only [lookupOrder] using alLookup_alSet_self hisome
  · intro j hj
    simpa only [lookupOrder] using alLookup_alSet_ne hj

/-- A price amend of a resting order to a different price reports success,
removes the order from its old bucket, appends its id at the back of the
new price's bucket, updates its price field and pushes a fresh discovery
entry with the original timestamp. -/
theorem modify_price_effect {s : OrderBook} {i : Nat} {o : Order} (np : Rat)
    (hInv : Inv s) (hl : lookupOrder s i = some o) (hnp : np ≠ o.price) :
    (modify_order s i (some np) none).1 = true ∧
    lookupOrder (modify_order s i (some np) none).2 i = some { o with price := np } ∧
    bucketAt (modify_order s i (some np) none).2 o.side np = bucketAt s o.side np ++ [i] ∧
    bucketAt (modify_order s i (some np) none).2 o.side o.price =
      (bucketAt s o.side o.price).erase i ∧
    heapOf (modify_order s i (some np) none).2 o.side =
      heapPush (heapOf s o.side) ((if o.side = Side.buy then -np else np), o.timestamp, i) := by
  have hisome : (alLookup s.orders i).isSome := by
    rw [show alLookup s.orders i = lookupOrder s i from rfl, hl]; rfl
  cases hsd : o.side with
  | buy =>
    simp only [modify_order, hl, hsd]
    refine ⟨trivial, ?_, ?_, ?_, rfl⟩
    · simpa only [lookupOrder] using alLookup_alSet_self hisome
    · show (alLookup (ddAppend (bucketRemove s.price_levels_buy o.price i) np i) np).getD [] =
        (alLookup s.price_levels_buy np).getD [] ++ [i]
      rw [alLookup_ddAppend_self, alLookup_bucketRemove_ne hnp]
      rfl
    · show (alLookup (ddAppend (bucketRemove s.price_levels_buy o.price i) np i)
          o.price).getD [] = ((alLookup s.price_levels_buy o.price).getD []).erase i
      rw [alLookup_ddAppend_ne (Ne.symm hnp)]
      exact getD_alLookup_bucketRemove_self hInv.keys_nodup_buy
  | sell =>
    simp only [modify_order, hl, hsd]
    refine ⟨trivial, ?_, ?_, ?_, rfl⟩
    · simpa only [lookupOrder] using alLookup_alSet_self hisome
    · show (alLookup (ddAppend (bucketRemove s.price_levels_sell o.price i) np i) np).getD [] =
        (alLookup s.price_levels_sell np).getD [] ++ [i]
      rw [alLookup_ddAppend_self, alLookup_bucketRemove_ne hnp]
      rfl
    · show (alLookup (ddAppend (bucketRemove s.price_levels_sell o.price i) np i)
          o.price).getD [] = ((alLookup s.price_levels_sell o.price).getD []).erase i
      rw [alLookup_ddAppend_ne (Ne.symm hnp)]
      exact getD_alLookup_bucketRemove_self hInv.keys_nodup_sell

/-! ## Reachability of the concrete traces -/

theorem reach_exBook1 : Reachable exBook1 :=
  Reachable.add _ 3 Side.sell 102 12 (Reachable.add _ 2 Side.buy (mkRat 199 2) 5
    (Reachable.add _ 1 Side.buy 100 10 Reachable.empty))

theorem reach_exBook2 : Reachable exBook2 :=
  Reachable.add _ 4 Side.buy 103 6 reach_exBook1

theorem reach_amendBook0 : Reachable amendBook0 :=
  Reachable.add _ 1 Side.buy 100 10 Reachable.empty

theorem reach_amendBook1 : Reachable amendBook1 :=
  Reachable.modify _ 1 (some 90) none reach_amendBook0

theorem reach_amendBook2 : Reachable amendBook2 :=
  Reachable.add _ 2 Side.sell 95 5 reach_amendBook1

theorem reach_zeroBook : Reachable zeroBook :=
  Reachable.modify _ 1 none (some 0) reach_amendBook0

theorem reach_fifoBook : Reachable fifoBook :=
  Reachable.add _ 2 Side.buy 100 7 (Reachable.add _ 1 Side.buy 100 5 Reachable.empty)

/-! ## The claims -/

/-- C1 (amended): for every reachable book state, when `match_orders`
returns, either one side has no resting orders, or best bid and best ask
both exist and either best bid < best ask or the bucket at the discovered
best price of one side is empty.  The third alternative is genuinely
possible — the stale-price discovery entry of a price-amended order can
be on top of a heap, so the loop can stop while best bid ≥ best ask with
both sides resting (the original claim is refuted by
`C1_no_cross_after_match_counterexample`). -/
theorem C1_no_cross_after_match {s : OrderBook} (hr : Reachable s) :
    noCross (match_orders s).2 :=
  match_orders_noCross (reachable_inv hr)

theorem C1_no_cross_after_match_witness : noCross (match_orders exBook1).2 :=
  C1_no_cross_after_match reach_exBook1

/-- C1 counterexample: in the reachable state `amendBook2` (buy order 1
amended from price 100 to 90, leaving a stale 100-entry on top of the buy
heap, plus a resting sell at 95), `match_orders` returns no trades, both
sides still have resting orders, and the best-price queries afterwards
report bid 100 and ask 95 — the book remains crossed. -/
theorem C1_no_cross_after_match_counterexample :
    Reachable amendBook2 ∧
    (match_orders amendBook2).1 = [] ∧
    hasResting (match_orders amendBook2).2 Side.buy ∧
    hasResting (match_orders amendBook2).2 Side.sell ∧
    (get_best_bid (match_orders amendBook2).2).1 = some 100 ∧
    (get_best_ask (match_orders amendBook2).2).1 = some 95 ∧
    ¬ ((100 : Rat) < 95) :=
  ⟨reach_amendBook2, by decide, by decide, by decide, by decide, by decide, by decide⟩

/-- C2: one productive iteration of the matching loop reads the front
orders of the best-bid buy bucket and best-ask sell bucket, trades the
minimum of their quantities at the resting sell order's price, records
the trade as (buy id, sell id, price, quantity), decrements both orders
by exactly the trade quantity, and removes an order filled to exactly
zero the same way cancellation does — out of the id-map and out of every
bucket, with its stale heap entries left in place. -/
theorem C2_match_iteration {s : OrderBook} {tr : Trade} {s2 : OrderBook}
    (hr : Reachable s) (h : matchIter s = (some tr, s2)) :
    ∃ bb ba bt st bo so,
      (get_best_bid s).1 = some bb ∧
      (get_best_ask (get_best_bid s).2).1 = some ba ∧
      ¬ bb < ba ∧
      alLookup s.price_levels_buy bb = some (tr.buy_order_id :: bt) ∧
      alLookup s.price_levels_sell ba = some (tr.sell_order_id :: st) ∧
      lookupOrder s tr.buy_order_id = some bo ∧
      lookupOrder s tr.sell_order_id = some so ∧
      tr.price = so.price ∧
      tr.quantity = min bo.quantity so.quantity ∧
      (bo.quantity - tr.quantity = 0 →
        lookupOrder s2 tr.buy_order_id = none ∧
        tr.buy_order_id ∉ joinBuckets s2.price_levels_buy ∧
        tr.buy_order_id ∉ joinBuckets s2.price_levels_sell) ∧
      (bo.quantity - tr.quantity ≠ 0 →
        lookupOrder s2 tr.buy_order_id =
          some { bo with quantity := bo.quantity - tr.quantity }) ∧
      (so.quantity - tr.quantity = 0 →
        lookupOrder s2 tr.sell_order_id = none ∧
        tr.sell_order_id ∉ joinBuckets s2.price_levels_buy ∧
        tr.sell_order_id ∉ joinBuckets s2.price_levels_sell) ∧
      (so.quantity - tr.quantity ≠ 0 →
        lookupOrder s2 tr.sell_order_id =
          some { so with quantity := so.quantity - tr.quantity }) ∧
      (∀ e ∈ s.buy_orders, e.2.2 = tr.buy_order_id → e ∈ s2.buy_orders) ∧
      (∀ e ∈ s.sell_orders, e.2.2 = tr.sell_order_id → e ∈ s2.sell_orders) := by
  obtain ⟨bb, ba, bt, st, bo, so, h1, h2, h3, h4, h5, h6, h7, -, -, -, -, -, h13, h14,
    hz1, hnz1, hz2, hnz2, he1, he2, -⟩ := matchIter_some_post (reachable_inv hr) h
  exact ⟨bb, ba, bt, st, bo, so, h1, h2, h3, h4, h5, h6, h7, h13, h14, hz1,
    fun hq => (hnz1 hq).1, hz2, fun hq => (hnz2 hq).1, he1, he2⟩

theorem C2_match_iteration_witness :
    ∃ bb ba bt st bo so,
      (get_best_bid exBook2).1 = some bb ∧
      (get_best_ask (get_best_bid exBook2).2).1 = some ba ∧
      ¬ bb < ba ∧
      alLookup exBook2.price_levels_buy bb = some (4 :: bt) ∧
      alLookup exBook2.price_levels_sell ba = some (3 :: st) ∧
      lookupOrder exBook2 4 = some bo ∧
      lookupOrder exBook2 3 = some so ∧
      (102 : Rat) = so.price ∧
      (6 : Int) = min bo.quantity so.quantity ∧
      (bo.quantity - 6 = 0 →
        lookupOrder (matchIter exBook2).2 4 = none ∧
        4 ∉ joinBuckets (matchIter exBook2).2.price_levels_buy ∧
        4 ∉ joinBuckets (matchIter exBook2).2.price_levels_sell) ∧
      (bo.quantity - 6 ≠ 0 →
        lookupOrder (matchIter exBook2).2 4 =
          some { bo with quantity := bo.quantity - 6 }) ∧
      (so.quantity - 6 = 0 →
        lookupOrder (matchIter exBook2).2 3 = none ∧
        3 ∉ joinBuckets (matchIter exBook2).2.price_levels_buy ∧
        3 ∉ joinBuckets (matchIter exBook2).2.price_levels_sell) ∧
      (so.quantity - 6 ≠ 0 →
        lookupOrder (matchIter exBook2).2 3 =
          some { so with quantity := so.quantity - 6 }) ∧
      (∀ e ∈ exBook2.buy_orders, e.2.2 = 4 → e ∈ (matchIter exBook2).2.buy_orders) ∧
      (∀ e ∈ exBook2.sell_orders, e.2.2 = 3 → e ∈ (matchIter exBook2).2.sell_orders) :=
  C2_match_iteration reach_exBook2
    (by have h1 : (matchIter exBook2).1 = some (⟨4, 3, 102, 6⟩ : Trade) := by decide
        rw [← h1])

/-- C3 (amended): in every reachable state, an order record is in the
id-map iff it rests in a price bucket (of its own side and price field),
and cancellation removes it from the map and from every bucket; however
an amendment that sets the quantity to zero does **not** remove the order
— it stays resting with quantity 0 (the original claim's "once its
quantity reaches zero by amendment it is removed" is refuted by
`C3_idmap_iff_resting_counterexample`). -/
theorem C3_idmap_iff_resting {s : OrderBook} (hr : Reachable s) :
    (∀ i o, lookupOrder s i = some o →
      o.order_id = i ∧ i ∈ bucketAt s o.side o.price) ∧
    (∀ sd p, ∀ i ∈ bucketAt s sd p,
      ∃ o, lookupOrder s i = some o ∧ o.side = sd ∧ o.price = p) ∧
    (∀ i o, lookupOrder s i = some o →
      lookupOrder (cancel_order s i).2 i = none ∧
      (∀ sd p, i ∉ bucketAt (cancel_order s i).2 sd p)) ∧
    (∀ i o, lookupOrder s i = some o →
      lookupOrder (modify_order s i none (some 0)).2 i = some { o with quantity := 0 }) := by
  have hInv := reachable_inv hr
  refine ⟨?_, ?_, ?_, ?_⟩
  · intro i o hl
    obtain ⟨v, hv, hiv⟩ := resting_bucket_lookup hInv hl
    refine ⟨hInv.orders_key (i, o) (alLookup_mem hl), ?_⟩
    unfold bucketAt
    rw [hv]
    exact hiv
  · intro sd p i hi
    exact bucketAt_orders hInv hi
  · intro i o hl
    obtain ⟨-, hnone, hnb, hns, -, -, -, -, -⟩ := cancel_spec hInv hl
    refine ⟨hnone, ?_⟩
    intro sd p hmem
    unfold bucketAt at hmem
    cases hv : alLookup (ledgerOf (cancel_order s i).2 sd) p with
    | none => rw [hv] at hmem; simp at hmem
    | some v =>
      rw [hv] at hmem
      simp only [Option.getD_some] at hmem
      have hj : i ∈ joinBuckets (ledgerOf (cancel_order s i).2 sd) :=
        mem_joinBuckets.mpr ⟨(p, v), alLookup_mem hv, hmem⟩
      cases sd with
      | buy => exact hnb hj
      | sell => exact hns hj
  · intro i o hl
    exact (modify_qty_effect 0 hl).2.2.2.2.2.1

theorem C3_idmap_iff_resting_witness :
    (∀ i o, lookupOrder exBook1 i = some o →
      o.order_id = i ∧ i ∈ bucketAt exBook1 o.side o.price) ∧
    (∀ sd p, ∀ i ∈ bucketAt exBook1 sd p,
      ∃ o, lookupOrder exBook1 i = some o ∧ o.side = sd ∧ o.price = p) ∧
    (∀ i o, lookupOrder exBook1 i = some o →
      lookupOrder (cancel_order exBook1 i).2 i = none ∧
      (∀ sd p, i ∉ bucketAt (cancel_order exBook1 i).2 sd p)) ∧
    (∀ i o, lookupOrder exBook1 i = some o →
      lookupOrder (modify_order exBook1 i none (some 0)).2 i =
        some { o with quantity := 0 }) :=
  C3_idmap_iff_resting reach_exBook1

/-- C3 counterexample: in the reachable state `zeroBook` (buy order 1
amended to quantity 0), the order's quantity has reached zero yet it is
still in the id-map and still queued in its price bucket. -/
theorem C3_idmap_iff_resting_counterexample :
    Reachable zeroBook ∧
    lookupOrder zeroBook 1 =
      some { order_id := 1, side := Side.buy, price := 100, quantity := 0, timestamp := 0 } ∧
    bucketAt zeroBook Side.buy 100 = [1] :=
  ⟨reach_zeroBook, by decide, by decide⟩

/-- C4 (amended): in every reachable state each resting order appears in
exactly one (side, price) bucket — that of its own side and its own
`price` field, where it occurs exactly once.  The other half of the
original claim is false: a price key can exist whose order sequence is
empty, because `match_orders` and the snapshot read the ledgers through
`defaultdict` accesses that create empty buckets (see
`C4_bucket_uniqueness_counterexample`). -/
theorem C4_bucket_uniqueness {s : OrderBook} (hr : Reachable s) :
    ∀ i o, lookupOrder s i = some o →
      i ∈ bucketAt s o.side o.price ∧
      (joinBuckets (ledgerOf s o.side)).count i = 1 ∧
      (∀ sd p, i ∈ bucketAt s sd p → sd = o.side ∧ p = o.price) := by
  intro i o hl
  have hInv := reachable_inv hr
  obtain ⟨v, hv, hiv⟩ := resting_bucket_lookup hInv hl
  have hmem : i ∈ bucketAt s o.side o.price := by
    unfold bucketAt
    rw [hv]
    exact hiv
  refine ⟨hmem, ?_, ?_⟩
  · have hnd : (joinBuckets (ledgerOf s o.side)).Nodup := by
      cases o.side with
      | buy => exact hInv.ids_nodup_buy
      | sell => exact hInv.ids_nodup_sell
    have hj : i ∈ joinBuckets (ledgerOf s o.side) :=
      mem_joinBuckets.mpr ⟨(o.price, v), alLookup_mem hv, hiv⟩
    exact List.count_eq_one_of_mem hnd hj
  · intro sd p hip
    obtain ⟨o2, hl2, hs2, hp2⟩ := bucketAt_orders hInv hip
    rw [hl] at hl2
    obtain rfl : o = o2 := by injection hl2
    exact ⟨hs2.symm, hp2.symm⟩

theorem C4_bucket_uniqueness_witness :
    1 ∈ bucketAt fifoBook Side.buy 100 ∧
    (joinBuckets (ledgerOf fifoBook Side.buy)).count 1 = 1 ∧
    (∀ sd p, 1 ∈ bucketAt fifoBook sd p → sd = Side.buy ∧ p = (100 : Rat)) :=
  C4_bucket_uniqueness reach_fifoBook 1
    { order_id := 1, side := Side.buy, price := 100, quantity := 5, timestamp := 0 }
    (by decide)

/-- C4 counterexample: running `match_orders` on the reachable state
`amendBook2` performs a `defaultdict` read of the missing buy bucket at
the stale best bid 100 and thereby creates it empty: afterwards the buy
ledger contains the price key 100 bound to the empty order sequence. -/
theorem C4_bucket_uniqueness_counterexample :
    Reachable (match_orders amendBook2).2 ∧
    alLookup (match_orders amendBook2).2.price_levels_buy 100 = some [] :=
  ⟨Reachable.runMatch _ reach_amendBook2, by decide⟩

/-- C5: FIFO time priority within a price level: a successful add appends
the new order at the back of its (side, price) bucket, and whenever order
A sits in front of order B in their shared bucket (in particular when A
was added before B and neither was price-amended), every trade consuming
B on that side is preceded in the trade list of `match_orders` by a trade
consuming A. -/
theorem C5_fifo_priority {s : OrderBook} (hr : Reachable s) :
    (∀ i sd p q, lookupOrder s i = none →
      bucketAt (add_order s i sd p q).2 sd p = bucketAt s sd p ++ [i]) ∧
    (∀ sd p A B, A ≠ B → List.Sublist [A, B] (bucketAt s sd p) →
      ∀ j tr_j, (match_orders s).1.get? j = some tr_j → sideParty tr_j sd = B →
      ∃ i2 tr_i, i2 < j ∧ (match_orders s).1.get? i2 = some tr_i ∧ sideParty tr_i sd = A) := by
  have hInv := reachable_inv hr
  refine ⟨?_, ?_⟩
  · intro i sd p q h
    exact (add_order_effect sd p q h).2.2.1
  · intro sd p A B hne hAB j tr_j hj hB
    exact matchLoop_fifo (s.orders.length + 1) s sd p A B hInv hne hAB j tr_j hj hB

theorem C5_fifo_priority_witness :
    (∀ i sd p q, lookupOrder fifoBook i = none →
      bucketAt (add_order fifoBook i sd p q).2 sd p = bucketAt fifoBook sd p ++ [i]) ∧
    (∀ sd p A B, A ≠ B → List.Sublist [A, B] (bucketAt fifoBook sd p) →
      ∀ j tr_j, (match_orders fifoBook).1.get? j = some tr_j → sideParty tr_j sd = B →
      ∃ i2 tr_i, i2 < j ∧ (match_orders fifoBook).1.get? i2 = some tr_i ∧
        sideParty tr_i sd = A) :=
  C5_fifo_priority reach_fifoBook

/-- C6: for a resting order, an amend that supplies only a new quantity
overwrites the quantity in place — both price ledgers and both discovery
heaps are untouched, so the order keeps its queue position and no new
discovery entry appears — while an amend that supplies a new (different)
price removes the order from its old bucket, appends its id at the back
of the new price's bucket (forfeiting time priority), updates its price
field and pushes a fresh discovery entry for the new price. -/
theorem C6_amend_effects {s : OrderBook} {i : Nat} {o : Order}
    (hr : Reachable s) (hl : lookupOrder s i = some o) :
    (∀ nq : Int,
      (modify_order s i none (some nq)).2.price_levels_buy = s.price_levels_buy ∧
      (modify_order s i none (some nq)).2.price_levels_sell = s.price_levels_sell ∧
      (modify_order s i none (some nq)).2.buy_orders = s.buy_orders ∧
      (modify_order s i none (some nq)).2.sell_orders = s.sell_orders ∧
      lookupOrder (modify_order s i none (some nq)).2 i = some { o with quantity := nq }) ∧
    (∀ np : Rat, np ≠ o.price →
      bucketAt (modify_order s i (some np) none).2 o.side np =
        bucketAt s o.side np ++ [i] ∧
      bucketAt (modify_order s i (some np) none).2 o.side o.price =
        (bucketAt s o.side o.price).erase i ∧
      lookupOrder (modify_order s i (some np) none).2 i = some { o with price := np } ∧
      heapOf (modify_order s i (some np) none).2 o.side =
        heapPush (heapOf s o.side) ((if o.side = Side.buy then -np else np),
          o.timestamp, i)) := by
  have hInv := reachable_inv hr
  refine ⟨?_, ?_⟩
  · intro nq
    obtain ⟨-, h1, h2, h3, h4, h5, -⟩ := modify_qty_effect nq hl
    exact ⟨h1, h2, h3, h4, h5⟩
  · intro np hnp
    obtain ⟨-, h1, h2, h3, h4⟩ := modify_price_effect np hInv hl hnp
    exact ⟨h2, h3, h1, h4⟩

theorem C6_amend_effects_witness :
    (∀ nq : Int,
      (modify_order amendBook0 1 none (some nq)).2.price_levels_buy =
        amendBook0.price_levels_buy ∧
      (modify_order amendBook0 1 none (some nq)).2.price_levels_sell =
        amendBook0.price_levels_sell ∧
      (modify_order amendBook0 1 none (some nq)).2.buy_orders = amendBook0.buy_orders ∧
      (modify_order amendBook0 1 none (some nq)).2.sell_orders = amendBook0.sell_orders ∧
      lookupOrder (modify_order amendBook0 1 none (some nq)).2 1 =
        some { order_id := 1, side := Side.buy, price := 100, quantity := nq,
               timestamp := 0 }) ∧
    (∀ np : Rat, np ≠ 100 →
      bucketAt (modify_order amendBook0 1 (some np) none).2 Side.buy np =
        bucketAt amendBook0 Side.buy np ++ [1] ∧
      bucketAt (modify_order amendBook0 1 (some np) none).2 Side.buy 100 =
        (bucketAt amendBook0 Side.buy 100).erase 1 ∧
      lookupOrder (modify_order amendBook0 1 (some np) none).2 1 =
        some { order_id := 1, side := Side.buy, price := np, quantity := 10,
               timestamp := 0 } ∧
      heapOf (modify_order amendBook0 1 (some np) none).2 Side.buy =
        heapPush (heapOf amendBook0 Side.buy)
          ((if Side.buy = Side.buy then -np else np), 0, 1)) :=
  C6_amend_effects reach_amendBook0
    (show lookupOrder amendBook0 1 =
        some { order_id := 1, side := Side.buy, price := 100, quantity := 10,
               timestamp := 0 } by decide)

/-- C7: every failing operation is atomic and explicitly reported: add
with an id already resting, and cancel or amend with a non-resting id,
return `false` paired with the state exactly as it was before the call
(id-map, both price ledgers and both heaps unchanged). -/
theorem C7_failures_atomic (s : OrderBook) :
    (∀ i sd p q, lookupOrder s i ≠ none → add_order s i sd p q = (false, s)) ∧
    (∀ i, lookupOrder s i = none → cancel_order s i = (false, s)) ∧
    (∀ i np nq, lookupOrder s i = none → modify_order s i np nq = (false, s)) := by
  refine ⟨?_, ?_, ?_⟩
  · intro i sd p q h
    cases hl : lookupOrder s i with
    | none => exact absurd hl h
    | some o => simp [add_order, hl]
  · intro i h
    simp [cancel_order, h]
  · intro i np nq h
    simp [modify_order, h]

theorem C7_failures_atomic_witness :
    add_order exBook1 1 Side.buy 50 1 = (false, exBook1) ∧
    cancel_order exBook1 9 = (false, exBook1) ∧
    modify_order exBook1 9 (some 1) (some 1) = (false, exBook1) :=
  ⟨(C7_failures_atomic exBook1).1 1 Side.buy 50 1 (by decide),
   (C7_failures_atomic exBook1).2.1 9 (by decide),
   (C7_failures_atomic exBook1).2.2 9 (some 1) (some 1) (by decide)⟩

/-- C8 (amended): for every reachable state and every depth, the snapshot
returns per side at most `depth` levels with pairwise-distinct prices
ordered best-to-worst (bid prices strictly descending, ask prices
strictly ascending), each level's quantity equal to the total resting
quantity of the orders of that side whose `price` field equals the
level's price, and each level's price coming from a heap entry whose id
is still resting.  The original claim's "no level reported whose orders
have all been removed" is false: the reported price is the possibly-stale
price stored in the discovery entry, so a level can be reported for a
price at which nothing rests, with total quantity 0 (see
`C8_snapshot_levels_counterexample`). -/
theorem C8_snapshot_levels {s : OrderBook} (hr : Reachable s) (depth : Nat) :
    ((get_order_book_snapshot s depth).1.1.length ≤ depth ∧
      ((get_order_book_snapshot s depth).1.1.map Prod.fst).Pairwise (fun a b => b < a) ∧
      (∀ pq ∈ (get_order_book_snapshot s depth).1.1,
        pq.2 = restingTotal s Side.buy pq.1 ∧
        ∃ e ∈ s.buy_orders, -e.1 = pq.1 ∧ (alLookup s.orders e.2.2).isSome)) ∧
    ((get_order_book_snapshot s depth).1.2.length ≤ depth ∧
      ((get_order_book_snapshot s depth).1.2.map Prod.fst).Pairwise (fun a b => a < b) ∧
      (∀ pq ∈ (get_order_book_snapshot s depth).1.2,
        pq.2 = restingTotal s Side.sell pq.1 ∧
        ∃ e ∈ s.sell_orders, e.1 = pq.1 ∧ (alLookup s.orders e.2.2).isSome)) := by
  have hInv := reachable_inv hr
  obtain ⟨b1, b2, b3⟩ := snapLoop_spec s.orders true depth s.buy_orders s.price_levels_buy
    s.buy_orders [] [] s.price_levels_buy hInv.heap_sorted_buy (fun e he => he)
    (by simp) (by simp) (by simp) (by simp) (fun q => rfl)
  obtain ⟨a1, a2, a3⟩ := snapLoop_spec s.orders false depth s.sell_orders s.price_levels_sell
    s.sell_orders [] [] s.price_levels_sell hInv.heap_sorted_sell (fun e he => he)
    (by simp) (by simp) (by simp) (by simp) (fun q => rfl)
  refine ⟨⟨b1, by simpa using b2, ?_⟩, ⟨a1, by simpa using a2, ?_⟩⟩
  · intro pq hpq
    rcases b3 pq hpq with h | ⟨h1, h2⟩
    · simp at h
    · refine ⟨?_, ?_⟩
      · rw [h1]
        exact levelTotal_eq_restingTotal hInv Side.buy pq.1
      · obtain ⟨e, he, hep, hel⟩ := h2
        exact ⟨e, he, by simpa using hep, hel⟩
  · intro pq hpq
    rcases a3 pq hpq with h | ⟨h1, h2⟩
    · simp at h
    · refine ⟨?_, ?_⟩
      · rw [h1]
        exact levelTotal_eq_restingTotal hInv Side.sell pq.1
      · obtain ⟨e, he, hep, hel⟩ := h2
        exact ⟨e, he, by simpa using hep, hel⟩

theorem C8_snapshot_levels_witness :
    ((get_order_book_snapshot exBook1 2).1.1.length ≤ 2 ∧
      ((get_order_book_snapshot exBook1 2).1.1.map Prod.fst).Pairwise (fun a b => b < a) ∧
      (∀ pq ∈ (get_order_book_snapshot exBook1 2).1.1,
        pq.2 = restingTotal exBook1 Side.buy pq.1 ∧
        ∃ e ∈ exBook1.buy_orders, -e.1 = pq.1 ∧ (alLookup exBook1.orders e.2.2).isSome)) ∧
    ((get_order_book_snapshot exBook1 2).1.2.length ≤ 2 ∧
      ((get_order_book_snapshot exBook1 2).1.2.map Prod.fst).Pairwise (fun a b => a < b) ∧
      (∀ pq ∈ (get_order_book_snapshot exBook1 2).1.2,
        pq.2 = restingTotal exBook1 Side.sell pq.1 ∧
        ∃ e ∈ exBook1.sell_orders, e.1 = pq.1 ∧ (alLookup exBook1.orders e.2.2).isSome)) :=
  C8_snapshot_levels reach_exBook1 2

/-- C8 counterexample: in the reachable state `amendBook1` (buy order 1
amended from price 100 to 90), the snapshot reports the bid levels
[(100, 0), (90, 10)]: the level at the stale price 100 is reported even
though no order rests at 100 — its bucket does not exist and the total
resting buy quantity at 100 is 0. -/
theorem C8_snapshot_levels_counterexample :
    Reachable amendBook1 ∧
    (get_order_book_snapshot amendBook1 5).1.1 = [(100, 0), (90, 10)] ∧
    restingTotal amendBook1 Side.buy 100 = 0 ∧
    bucketAt amendBook1 Side.buy 100 = [] :=
  ⟨reach_amendBook1, by decide, by decide, by decide⟩

/-- C9: the spec's worked example, computed exactly on the embedding:
after add buy1(buy,100,10), buy2(buy,99.5,5), sell1(sell,102,12) (ids 1,
2, 3) the best bid is 100, the best ask is 102, the spread is 2 and
`match_orders` produces no trades; after then adding buy3(buy,103,6)
(id 4), `match_orders` produces exactly one trade
{buy 4, sell 3, price 102, quantity 6}, order 3 stays resting with
quantity 6, and order 4 is removed from the id-map and from every
bucket. -/
theorem C9_worked_example :
    Reachable exBook1 ∧ Reachable exBook2 ∧
    (get_best_bid exBook1).1 = some 100 ∧
    (get_best_ask exBook1).1 = some 102 ∧
    (get_spread exBook1).1 = some 2 ∧
    (match_orders exBook1).1 = [] ∧
    (match_orders exBook2).1 =
      [{ buy_order_id := 4, sell_order_id := 3, price := 102, quantity := 6 }] ∧
    lookupOrder (match_orders exBook2).2 3 =
      some { order_id := 3, side := Side.sell, price := 102, quantity := 6,
             timestamp := 2 } ∧
    lookupOrder (match_orders exBook2).2 4 = none ∧
    bucketAt (match_orders exBook2).2 Side.sell 102 = [3] ∧
    4 ∉ joinBuckets (match_orders exBook2).2.price_levels_buy ∧
    4 ∉ joinBuckets (match_orders exBook2).2.price_levels_sell := by
  refine ⟨reach_exBook1, reach_exBook2, by decide, by decide, ?_, by decide, by decide,
    by decide, by decide, by decide, by decide, by decide⟩
  have h : (get_spread exBook1).1 = some ((102 : Rat) - 100) := rfl
  rw [h]
  norm_num

/-- C10: `add_order` validates neither price nor quantity: it fails
exactly on a duplicate resting id, and otherwise reports success and
inserts the order — for any price and quantity values, including zero
and negative ones. -/
theorem C10_add_no_validation (s : OrderBook) (i : Nat) (sd : Side) (p : Rat) (q : Int) :
    ((add_order s i sd p q).1 = true ↔ lookupOrder s i = none) ∧
    (lookupOrder s i = none →
      lookupOrder (add_order s i sd p q).2 i =
        some { order_id := i, side := sd, price := p, quantity := q,
               timestamp := s.next_ts } ∧
      bucketAt (add_order s i sd p q).2 sd p = bucketAt s sd p ++ [i] ∧
      heapOf (add_order s i sd p q).2 sd =
        heapPush (heapOf s sd) ((if sd = Side.buy then -p else p), s.next_ts, i)) := by
  constructor
  · constructor
    · intro ht
      cases hl : lookupOrder s i with
      | none => rfl
      | some o =>
        rw [show add_order s i sd p q = (false, s) by simp [add_order, hl]] at ht
        simp at ht
    · intro h
      exact (add_order_effect sd p q h).1
  · intro h
    obtain ⟨-, h2, h3, h4⟩ := add_order_effect sd p q h
    exact ⟨h2, h3, h4⟩

theorem C10_add_no_validation_witness :
    ((add_order emptyBook 1 Side.buy (-5) (-3)).1 = true ↔
      lookupOrder emptyBook 1 = none) ∧
    (lookupOrder emptyBook 1 = none →
      lookupOrder (add_order emptyBook 1 Side.buy (-5) (-3)).2 1 =
        some { order_id := 1, side := Side.buy, price := -5, quantity := -3,
               timestamp := 0 } ∧
      bucketAt (add_order emptyBook 1 Side.buy (-5) (-3)).2 Side.buy (-5) =
        bucketAt emptyBook Side.buy (-5) ++ [1] ∧
      heapOf (add_order emptyBook 1 Side.buy (-5) (-3)).2 Side.buy =
        heapPush (heapOf emptyBook Side.buy)
          ((if Side.buy = Side.buy then -(-5 : Rat) else (-5)), 0, 1)) :=
  C10_add_no_validation emptyBook 1 Side.buy (-5) (-3)

end OrderBookLob
